import Mathlib

/-! # odo: component aggregation and service-binding status resolution

A shallow embedding of `pkg/component/component.go`, `pkg/binding/binding.go` and
`pkg/state/state.go`.
Go maps of strings are association lists read with `StrMap.get` (a nil map
and an empty map read alike), slices are lists, a Go `(value, error)` pair is
an `Except`, and the Kubernetes client is a record of the answers it gives.
-/

set_option autoImplicit false

namespace Odo

/-! ## Errors -/

/-- Errors the cluster client can hand back, by the classes the code tests for:
`kerrors.IsNotFound`, `kerrors.IsForbidden`, `runtime.IsNotRegisteredError`, the
typed `*kclient.DeploymentNotFoundError`, anything else, `fmt.Errorf` with a
fresh message, `fmt.Errorf("...: %w", err)`, the error built by
`NewNoComponentFoundError(name, namespace)`, and a file error that is `fs.ErrNotExist`. -/
inductive Error where
  | notFound (msg : String)
  | forbidden (msg : String)
  | notRegistered (msg : String)
  | deploymentNotFound (msg : String)
  | other (msg : String)
  | errorf (msg : String)
  | wrapped (msg : String) (inner : Error)
  | noComponentFound (name namespace_ : String)
  | notExist (path : String)
deriving DecidableEq, Repr

/-- The test `kerrors.IsNotFound(err)`. -/
def Error.IsNotFound : Error → Bool
  | .notFound _ => true
  | .wrapped _ e => e.IsNotFound
  | _ => false

/-- The test `kerrors.IsForbidden(err)`. -/
def Error.IsForbidden : Error → Bool
  | .forbidden _ => true
  | .wrapped _ e => e.IsForbidden
  | _ => false

/-- The test `errors.Is(err, fs.ErrNotExist)`. -/
def Error.IsNotExist : Error → Bool
  | .notExist _ => true
  | .wrapped _ e => e.IsNotExist
  | _ => false

/-- The test `runtime.IsNotRegisteredError(err)`: a type switch on the error itself. -/
def Error.IsNotRegisteredError : Error → Bool
  | .notRegistered _ => true
  | _ => false

/-- The type assertion `err.(*kclient.DeploymentNotFoundError)`. -/
def Error.IsDeploymentNotFoundError : Error → Bool
  | .deploymentNotFound _ => true
  | _ => false

deriving instance DecidableEq for Except

/-! ## Labels and annotations -/

/-- A Go `map[string]string`, read through `StrMap.get`. -/
abbrev StrMap := List (String × String)

/-- The Go map read `m[k]`: the value stored under `k`, the empty string when there is none. -/
def StrMap.get (m : StrMap) (k : String) : String :=
  (m.lookup k).getD ""

/-- The Go two-valued map read `v, ok := m[k]`. -/
def StrMap.get? (m : StrMap) (k : String) : Option String :=
  m.lookup k

/-- The function `strings.ToLower` on the ASCII letters, the only letters a Kubernetes
label value may hold. -/
def strings_ToLower (s : String) : String :=
  String.mk (s.data.map Char.toLower)

/-- Modelled from the spec: the component-identity label key of `pkg/labels`
(the comment in `ListAllClusterComponents` names it). -/
def kubernetesInstanceLabel : String := "app.kubernetes.io/instance"

/-- Modelled from the spec: the "managed-by" label key of `pkg/labels`. -/
def kubernetesManagedByLabel : String := "app.kubernetes.io/managed-by"

/-- Modelled from the spec: the managed-by-version label key of `pkg/labels`. -/
def kubernetesManagedByVersionLabel : String := "app.kubernetes.io/managed-by-version"

/-- Modelled from the spec: the "mode" label key of `pkg/labels`
(the comment on `GetRunningModes` names it). -/
def odoModeLabel : String := "odo.dev/mode"

/-- Modelled from the spec: the project-type annotation key of `pkg/labels`. -/
def odoProjectTypeAnnotation : String := "odo.dev/project-type"

/-- Modelled from the spec: `odolabels.GetComponentName`, the name read from the
component-identity label. -/
def GetComponentName (labels : StrMap) : String :=
  labels.get kubernetesInstanceLabel

/-- Modelled from the spec: `odolabels.GetManagedBy`, the "managed-by" label. -/
def GetManagedBy (labels : StrMap) : String :=
  labels.get kubernetesManagedByLabel

/-- Modelled from the spec: `odolabels.GetManagedByVersion`. -/
def GetManagedByVersion (labels : StrMap) : String :=
  labels.get kubernetesManagedByVersionLabel

/-- Modelled from the spec: `odolabels.GetMode`, the "mode" label. -/
def GetMode (labels : StrMap) : String :=
  labels.get odoModeLabel

/-- Modelled from the spec: `odolabels.GetProjectType`, the project-type annotation,
looked up in the annotations and then in the labels; `none` is the error returned
when neither holds it. -/
def GetProjectType (labels annotations : StrMap) : Option String :=
  match annotations.get? odoProjectTypeAnnotation with
  | some typ => some typ
  | none => labels.get? odoProjectTypeAnnotation

/-! ## Components -/

/-- The constant `api.TypeUnknown`. -/
def TypeUnknown : String := "Unknown"

/-- Modelled from the spec: `commonflags.RunOnCluster`, the platform of a cluster component. -/
def RunOnCluster : String := "cluster"

/-- Modelled from the spec: `api.RunningModes`, "a set (not a list) of mode values". -/
abbrev RunningModes := Finset String

/-- Modelled from the spec: `api.NewRunningModes`, the set with no mode running. -/
def NewRunningModes : RunningModes := ∅

/-- Modelled from the spec: `RunningModes.AddRunningMode`, union with one mode. -/
def AddRunningMode (o : RunningModes) (mode : String) : RunningModes :=
  insert mode o

/-- The struct `api.ComponentAbstract`; `RunningIn` is `none` for a nil map. -/
@[ext]
structure ComponentAbstract where
  Name : String
  ManagedBy : String
  ManagedByVersion : String
  RunningIn : Option RunningModes
  Typ : String
  RunningOn : String
deriving DecidableEq

/-- The fields `Spec.Host` and `Spec.Path` of a `routev1.Route`. -/
structure RouteSpec where
  Host : String := ""
  Path : String := ""
deriving DecidableEq, Repr

/-- The part of an `unstructured.Unstructured` that the component and binding packages
read: name, kind, the group of its API version, labels, annotations, what
`GetOwnerReferences` returns (`none` for nil), and what
`runtime.DefaultUnstructuredConverter.FromUnstructured` makes of its content as a
`routev1.Route` (the route spec, or the error of the conversion). -/
structure Unstructured where
  kind : String := ""
  labels : StrMap := []
  annotations : StrMap := []
  name : String := ""
  group : String := ""
  ownerReferences : Option (List String) := none
  route : Except Error RouteSpec := .ok {}
deriving DecidableEq

/-- One entry of `Spec.Rules[i].HTTP.Paths` of an ingress: its `Path`. -/
structure HTTPIngressPath where
  Path : String := ""
deriving DecidableEq, Repr

/-- A `v1.IngressRule`: `Host`, and `HTTP`, a pointer, `none` when nil and else the
`Paths` it points to. -/
structure IngressRule where
  Host : String := ""
  HTTP : Option (List HTTPIngressPath) := none
deriving DecidableEq, Repr

/-- The part of a `v1.Ingress` that `ListRoutesAndIngresses` reads: name, owner references
(`none` for nil) and `Spec.Rules`. -/
structure Ingress where
  Name : String := ""
  OwnerReferences : Option (List String) := none
  Rules : List IngressRule := []
deriving DecidableEq, Repr

/-- A `schema.GroupVersionKind`. -/
structure GroupVersionKind where
  Group : String := ""
  Version : String := ""
  Kind : String := ""
deriving DecidableEq, Repr

/-! ## Service bindings -/

/-- The fields `Type` and `Status` of a `metav1.Condition`. -/
structure Condition where
  Typ : String
  Status : String
deriving DecidableEq, Repr

/-- The constant `metav1.ConditionTrue`. -/
def ConditionTrue : String := "True"

/-- The constant `bindingApis.InjectionReady`. -/
def InjectionReady : String := "InjectionReady"

/-- The function `meta.FindStatusCondition`: the first condition of the given type. -/
def FindStatusCondition (conditions : List Condition) (conditionType : String) :
    Option Condition :=
  conditions.find? (fun condition => decide (condition.Typ = conditionType))

/-- The function `meta.IsStatusConditionTrue`: the first condition of the given type is
there and its status is `True`. -/
def IsStatusConditionTrue : List Condition → String → Bool
  | [], _ => false
  | condition :: rest, conditionType =>
    if condition.Typ = conditionType then decide (condition.Status = ConditionTrue)
    else IsStatusConditionTrue rest conditionType

/-- The workload reference `Spec.Application` of a
`binding.operators.coreos.com/v1alpha1` ServiceBinding. -/
structure Application where
  Group : String := ""
  Version : String := ""
  Kind : String := ""
  Resource : String := ""
  Name : String := ""
deriving DecidableEq, Repr

/-- The part of a `bindingApi.ServiceBinding` (`binding.operators.coreos.com/v1alpha1`)
that the binding package reads: `Name`, `Spec.BindAsFiles`, `Spec.Application`,
`Status.Conditions` and `Status.Secret`. -/
structure BindingServiceBinding where
  Name : String := ""
  BindAsFiles : Bool := false
  Application : Application := {}
  Conditions : List Condition := []
  Secret : String := ""
deriving DecidableEq, Repr

/-- The workload reference `Spec.Workload` of a `servicebinding.io/v1alpha3`
ServiceBinding. -/
structure Workload where
  APIVersion : String := ""
  Kind : String := ""
  Name : String := ""
deriving DecidableEq, Repr

/-- One entry of `Spec.Env` of a `servicebinding.io/v1alpha3` ServiceBinding. -/
structure EnvMapping where
  Name : String
  Key : String
deriving DecidableEq, Repr

/-- The part of a `specApi.ServiceBinding` (`servicebinding.io/v1alpha3`) that the binding
package reads: `Name`, `Spec.Workload`, `Spec.Env`, `Status.Conditions` and
`Status.Binding` (`none` for nil, else the secret name it refers to). -/
structure SpecServiceBinding where
  Name : String := ""
  Workload : Workload := {}
  Env : List EnvMapping := []
  Conditions : List Condition := []
  Binding : Option String := none
deriving DecidableEq, Repr

/-- A `corev1.Secret`: the entries of `Data`, in the order a `range` over the map visits
them. -/
structure Secret where
  Data : List (String × String) := []
deriving DecidableEq, Repr

/-- The name of an `appsv1.Deployment`. -/
structure Deployment where
  Name : String
deriving DecidableEq, Repr

/-- The struct `api.ServiceBindingStatus`; a nil slice is the empty list. -/
structure ServiceBindingStatus where
  BindingFiles : List String := []
  BindingEnvVars : List String := []
deriving DecidableEq, Repr

/-- Modelled from the spec: `api.ServiceBinding`, the canonical binding of either variant,
"identified by name", with its bind-as-files flag and its status (`none` for nil). -/
structure ServiceBinding where
  Name : String := ""
  BindAsFiles : Bool := false
  Status : Option ServiceBindingStatus := none
deriving DecidableEq, Repr

/-- A `schema.GroupVersionResource`. -/
structure GroupVersionResource where
  Group : String := ""
  Version : String := ""
  Resource : String := ""
deriving DecidableEq, Repr

/-- The field `Resource` of a `meta.RESTMapping`. -/
structure RESTMapping where
  Resource : GroupVersionResource := {}
deriving DecidableEq, Repr

/-- One entry of the status of the `BindableKinds` object. -/
structure BindableKindsStatus where
  Group : String := ""
  Kind : String := ""
  Version : String := ""
deriving DecidableEq, Repr

/-- The `bindingApi.BindableKinds` object: its `Status`. -/
structure BindableKinds where
  Status : List BindableKindsStatus := []
deriving DecidableEq, Repr

/-- The answers of `kclient.ClientInterface` that the component and binding packages ask
for. -/
structure ClientInterface where
  GetAllResourcesFromSelector : String → String → Except Error (List Unstructured) :=
    fun _ _ => .ok []
  GetBindingServiceBinding : String → Except Error BindingServiceBinding :=
    fun _ => .error (.notFound "")
  GetSpecServiceBinding : String → Except Error SpecServiceBinding :=
    fun _ => .error (.notFound "")
  ListServiceBindingsFromAllGroups :
      Except Error (List SpecServiceBinding × List BindingServiceBinding) :=
    .ok ([], [])
  GetOneDeployment : String → String → Bool → Except Error Deployment :=
    fun _ _ _ => .error (.deploymentNotFound "")
  GetSecret : String → String → Except Error Secret :=
    fun _ _ => .error (.notFound "")
  GetCurrentNamespace : String := "default"
  APIServiceBindingFromBinding : BindingServiceBinding → Except Error ServiceBinding :=
    fun binding => .ok { Name := binding.Name, BindAsFiles := binding.BindAsFiles }
  APIServiceBindingFromSpec : SpecServiceBinding → ServiceBinding :=
    fun spec => { Name := spec.Name, BindAsFiles := true }
  IsServiceBindingSupported : Except Error Bool := .ok true
  GetBindableKinds : Except Error BindableKinds := .ok {}
  GetBindableKindStatusRestMapping :
      List BindableKindsStatus → Except Error (List RESTMapping) :=
    fun _ => .ok []
  ListDynamicResources :
      String → GroupVersionResource → String → Except Error (List Unstructured) :=
    fun _ _ _ => .ok []
  ListIngresses : String → String → Except Error (List Ingress) := fun _ _ => .ok []
  IsProjectSupported : Bool × Option Error := (false, none)
  GetGVRFromGVK : GroupVersionKind → Except Error GroupVersionResource :=
    fun gvk => .ok { Group := gvk.Group, Version := gvk.Version, Resource := "routes" }

/-- The calls on the client that the functions of the binding package make. -/
inductive Call where
  | GetBindingServiceBinding (name : String)
  | GetSpecServiceBinding (name : String)
  | GetCurrentNamespace
  | GetSecret (name namespace_ : String)
  | APIServiceBindingFromBinding (name : String)
  | APIServiceBindingFromSpec (name : String)
  | IsServiceBindingSupported
  | GetBindableKinds
  | GetBindableKindStatusRestMapping
  | ListDynamicResources (namespace_ : String) (gvr : GroupVersionResource) (selector : String)
deriving DecidableEq, Repr

/-- A call that fetches a secret. -/
def Call.isGetSecret : Call → Bool
  | .GetSecret _ _ => true
  | _ => false

/-- The expression `filepath.ToSlash(filepath.Join(elem...))` for elements clean of
separators and dots, as binding names and secret keys are: the non-empty elements, joined
by a slash. -/
def filepath_Join (elem : List String) : String :=
  "/".intercalate (elem.filter (fun e => decide (e ≠ "")))

/-- The path of the file projected for a secret key. -/
def bindingFilePath (name k : String) : String :=
  filepath_Join ["$\x7bSERVICE_BINDING_ROOT\x7d", name, k]

/-- The method `getStatusFromBinding`, with the calls it makes on the client, in order. -/
def getStatusFromBinding (client : ClientInterface) (name : String) :
    Except Error (Option ServiceBindingStatus) × List Call :=
  match client.GetBindingServiceBinding name with
  | .error err =>
    if err.IsNotFound then (.ok none, [.GetBindingServiceBinding name])
    else (.error err, [.GetBindingServiceBinding name])
  | .ok bindingSB =>
    if !IsStatusConditionTrue bindingSB.Conditions InjectionReady then
      (.ok none, [.GetBindingServiceBinding name])
    else
      let secretName := bindingSB.Secret
      let calls : List Call :=
        [.GetBindingServiceBinding name, .GetCurrentNamespace,
          .GetSecret secretName client.GetCurrentNamespace]
      match client.GetSecret secretName client.GetCurrentNamespace with
      | .error err => (.error err, calls)
      | .ok secret =>
        if bindingSB.BindAsFiles then
          (.ok (some { BindingFiles := secret.Data.map (fun kv => bindingFilePath name kv.1) }),
            calls)
        else
          (.ok (some { BindingEnvVars := secret.Data.map (fun kv => kv.1) }), calls)

/-- The method `getStatusFromSpec`, with the calls it makes on the client, in order. -/
def getStatusFromSpec (client : ClientInterface) (name : String) :
    Except Error (Option ServiceBindingStatus) × List Call :=
  match client.GetSpecServiceBinding name with
  | .error err =>
    if err.IsNotFound then (.ok none, [.GetSpecServiceBinding name])
    else (.error err, [.GetSpecServiceBinding name])
  | .ok specSB =>
    if !IsStatusConditionTrue specSB.Conditions InjectionReady then
      (.ok none, [.GetSpecServiceBinding name])
    else
      match specSB.Binding with
      | none => (.ok none, [.GetSpecServiceBinding name])
      | some secretName =>
        let calls : List Call :=
          [.GetSpecServiceBinding name, .GetCurrentNamespace,
            .GetSecret secretName client.GetCurrentNamespace]
        match client.GetSecret secretName client.GetCurrentNamespace with
        | .error err => (.error err, calls)
        | .ok secret =>
          (.ok (some
            { BindingFiles := secret.Data.map (fun kv => bindingFilePath name kv.1)
              BindingEnvVars := specSB.Env.map (fun env => env.Name) }), calls)

/-- The first loop of `CheckServiceBindingsInjectionDone`, over `bindingList`: `false` when
it returns `false, nil`, `true` when it runs to its end. -/
def bindingListDone (deploymentName : String) : List BindingServiceBinding → Bool
  | [] => true
  | binding :: rest =>
    let app := binding.Application
    if app.Group ≠ "apps" ∨ app.Version ≠ "v1" ∨
        (app.Kind ≠ "Deployment" ∧ app.Resource ≠ "deployments") then
      bindingListDone deploymentName rest
    else if app.Name ≠ deploymentName then bindingListDone deploymentName rest
    else if !IsStatusConditionTrue binding.Conditions InjectionReady then false
    else bindingListDone deploymentName rest

/-- The second loop of `CheckServiceBindingsInjectionDone`, over `specList`: `false` when
it returns `false, nil`, `true` when it runs to its end. -/
def specListDone (deploymentName : String) : List SpecServiceBinding → Bool
  | [] => true
  | binding :: rest =>
    let app := binding.Workload
    if app.APIVersion ≠ "apps/v1" ∨ app.Kind ≠ "Deployment" then
      specListDone deploymentName rest
    else if app.Name ≠ deploymentName then specListDone deploymentName rest
    else if !IsStatusConditionTrue binding.Conditions InjectionReady then false
    else specListDone deploymentName rest

/-- The method `CheckServiceBindingsInjectionDone`: the pair `(bool, error)` it returns,
`none` for a nil error. -/
def CheckServiceBindingsInjectionDone (client : ClientInterface)
    (componentName appName : String) : Bool × Option Error :=
  match client.GetOneDeployment componentName appName true with
  | .error err =>
    if err.IsDeploymentNotFoundError then (true, none) else (false, some err)
  | .ok deployment =>
    let deploymentName := deployment.Name
    match client.ListServiceBindingsFromAllGroups with
    | .error err =>
      if err.IsNotRegisteredError then (true, none) else (false, some err)
    | .ok (specList, bindingList) =>
      if !bindingListDone deploymentName bindingList then (false, none)
      else if !specListDone deploymentName specList then (false, none)
      else (true, none)

/-- The component type computed for one resource in `ListAllClusterComponents`:
`GetProjectType(nil, annotations)`, replaced by `api.TypeUnknown` on error or when empty. -/
def resourceComponentType (resource : Unstructured) : String :=
  match GetProjectType [] resource.annotations with
  | none => TypeUnknown
  | some componentType => if componentType = "" then TypeUnknown else componentType

/-- The body of the `if component.Name == otherCompo.Name` branch of the inner loop of
`ListAllClusterComponents`, applied to the entry `components[v]`. -/
def mergeInto (component : ComponentAbstract) (mode : String) (otherCompo : ComponentAbstract) :
    ComponentAbstract :=
  let c1 : ComponentAbstract :=
    if mode ≠ "" then
      { otherCompo with
        RunningIn := some (AddRunningMode (otherCompo.RunningIn.getD NewRunningModes)
          (strings_ToLower mode)) }
    else otherCompo
  let c2 : ComponentAbstract :=
    if otherCompo.Typ = TypeUnknown ∧ component.Typ ≠ TypeUnknown then
      { c1 with Typ := component.Typ }
    else c1
  if otherCompo.ManagedBy = TypeUnknown ∧ component.ManagedBy ≠ TypeUnknown then
    { c2 with ManagedBy := component.ManagedBy }
  else c2

/-- One iteration of the outer loop of `ListAllClusterComponents` over `resourceList`. -/
def clusterStep (components : List ComponentAbstract) (resource : Unstructured) :
    List ComponentAbstract :=
  if resource.kind = "PackageManifest" then components
  else
    let labels := resource.labels
    let name := GetComponentName labels
    if name = "" then components
    else
      let componentType := resourceComponentType resource
      let managedBy := GetManagedBy labels
      if managedBy = "" ∧ name = "" then components
      else
        let managedByVersion := GetManagedByVersion labels
        let component : ComponentAbstract :=
          { Name := name, ManagedBy := managedBy, Typ := componentType,
            ManagedByVersion := managedByVersion, RunningOn := RunOnCluster,
            RunningIn := none }
        let mode := GetMode labels
        let componentFound := components.any (fun otherCompo => component.Name = otherCompo.Name)
        let merged := components.map (fun otherCompo =>
          if component.Name = otherCompo.Name then mergeInto component mode otherCompo
          else otherCompo)
        if componentFound then merged
        else
          let component :=
            if mode ≠ "" then
              { component with
                RunningIn := some (AddRunningMode (component.RunningIn.getD NewRunningModes)
                  (strings_ToLower mode)) }
            else component
          merged ++ [component]

/-- The loop of `ListAllClusterComponents` over the resources the cluster returned. -/
def aggregate (resourceList : List Unstructured) : List ComponentAbstract :=
  resourceList.foldl clusterStep []

/-- The function `ListAllClusterComponents` of `pkg/component/component.go`. -/
def ListAllClusterComponents (client : ClientInterface) (namespace_ : String) :
    Except Error (List ComponentAbstract) :=
  match client.GetAllResourcesFromSelector "" namespace_ with
  | .error err =>
    .error (.wrapped "unable to list all dynamic resources required to find components" err)
  | .ok resourceList => .ok (aggregate resourceList)

/-! ## Reading the outer loop resource by resource -/

/-- A resource that reaches the merge pass: not a `PackageManifest`, and named. -/
def counts (resource : Unstructured) : Bool :=
  decide (resource.kind ≠ "PackageManifest") && decide (GetComponentName resource.labels ≠ "")

/-- The struct `component` that `ListAllClusterComponents` builds for a resource. -/
def candidate (resource : Unstructured) : ComponentAbstract :=
  { Name := GetComponentName resource.labels
    ManagedBy := GetManagedBy resource.labels
    Typ := resourceComponentType resource
    ManagedByVersion := GetManagedByVersion resource.labels
    RunningOn := RunOnCluster
    RunningIn := none }

/-- The entry appended for the first resource of a component. -/
def fresh (resource : Unstructured) : ComponentAbstract :=
  if GetMode resource.labels ≠ "" then
    { candidate resource with
      RunningIn := some (AddRunningMode NewRunningModes (strings_ToLower (GetMode resource.labels))) }
  else candidate resource

/-- What one resource does to one accumulated entry. -/
def absorb (c : ComponentAbstract) (resource : Unstructured) : ComponentAbstract :=
  if counts resource = true ∧ GetComponentName resource.labels = c.Name then
    mergeInto (candidate resource) (GetMode resource.labels) c
  else c

/-- The sequence of values of a list with every repetition after the first dropped. -/
def firstOccurrences : List String → List String
  | [] => []
  | x :: xs => x :: (firstOccurrences xs).filter (fun y => decide (y ≠ x))

/-- The component-name labels that `ListAllClusterComponents` can list: those of the
resources whose kind is not `PackageManifest`, the empty ones left out. -/
def componentNames (resourceList : List Unstructured) : List String :=
  ((resourceList.filter (fun r => decide (r.kind ≠ "PackageManifest"))).map
    (fun r => GetComponentName r.labels)).filter (fun n => decide (n ≠ ""))

/-- The merge of one later resource into the entry of its component. -/
def mergeResource (c : ComponentAbstract) (resource : Unstructured) : ComponentAbstract :=
  mergeInto (candidate resource) (GetMode resource.labels) c

/-- The resources of a list, `PackageManifest` ones apart, whose component-name label is `n`. -/
def resourcesNamed (n : String) (resourceList : List Unstructured) : List Unstructured :=
  resourceList.filter (fun r =>
    decide (r.kind ≠ "PackageManifest") && decide (GetComponentName r.labels = n))

/-- The project type of a resource when it is readable, non-empty and not "Unknown". -/
def knownProjectType (resource : Unstructured) : Option String :=
  match GetProjectType [] resource.annotations with
  | none => none
  | some typ => if typ ≠ "" ∧ typ ≠ TypeUnknown then some typ else none

/-- The project type of the first resource of a list that has a known one, "Unknown" when
none has. -/
def firstKnownType (resources : List Unstructured) : String :=
  (resources.findSome? knownProjectType).getD TypeUnknown

/-- The lower-cased non-empty mode labels of the resources of a list. -/
def modeLabels (resources : List Unstructured) : List String :=
  ((resources.map (fun r => GetMode r.labels)).filter (fun m => decide (m ≠ ""))).map
    strings_ToLower

/-- A resource whose merge leaves a list of components as it is: it does not reach the
merge pass, or its component is listed and every entry of that name is a fixed point of
the merge. -/
def Settled (S : List ComponentAbstract) (r : Unstructured) : Prop :=
  counts r = false ∨
    ((∃ c ∈ S, c.Name = GetComponentName r.labels) ∧
      ∀ c ∈ S, c.Name = GetComponentName r.labels → mergeResource c r = c)

/-- The resources of a list whose component-name label is `n`, of whatever kind. -/
def carrying (n : String) (resourceList : List Unstructured) : List Unstructured :=
  resourceList.filter (fun r => decide (GetComponentName r.labels = n))

/-- A client whose resource query answers with the given list. -/
def clientListing (resourceList : List Unstructured) : ClientInterface :=
  { GetAllResourcesFromSelector := fun _ _ => .ok resourceList }

/-- A component seen in dev mode by a Deployment and in deploy mode, with its type, by a
Service. -/
def app1Resources : List Unstructured :=
  [ { kind := "Deployment",
      labels := [("app.kubernetes.io/instance", "app1"), ("odo.dev/mode", "dev")] },
    { kind := "Service",
      labels := [("app.kubernetes.io/instance", "app1"), ("odo.dev/mode", "deploy")],
      annotations := [("odo.dev/project-type", "nodejs")] } ]

/-- A catalog record and a Deployment that bear the same component name. -/
def catalogResources : List Unstructured :=
  [ { kind := "PackageManifest",
      labels := [("app.kubernetes.io/instance", "app1"), ("odo.dev/mode", "dev")],
      annotations := [("odo.dev/project-type", "nodejs")] },
    { kind := "Deployment",
      labels := [("app.kubernetes.io/instance", "app1"), ("odo.dev/mode", "deploy")],
      annotations := [("odo.dev/project-type", "go")] } ]

/-- A component whose first resource has no managed-by label and whose second has one. -/
def managedLaterResources : List Unstructured :=
  [ { kind := "Deployment", labels := [("app.kubernetes.io/instance", "app1")] },
    { kind := "Service",
      labels := [("app.kubernetes.io/instance", "app1"),
        ("app.kubernetes.io/managed-by", "odo")] } ]

/-- The test of the first loop of `CheckServiceBindingsInjectionDone` that a
`binding.operators.coreos.com` binding targets the deployment: group, version, kind or
resource, and name. -/
def targetsDeployment (app : Application) (deploymentName : String) : Prop :=
  app.Group = "apps" ∧ app.Version = "v1" ∧
    (app.Kind = "Deployment" ∨ app.Resource = "deployments") ∧ app.Name = deploymentName

instance (app : Application) (deploymentName : String) :
    Decidable (targetsDeployment app deploymentName) := by
  unfold targetsDeployment
  infer_instance

/-- The match by group, version, kind and name alone: group apps, version v1, kind
Deployment, and the deployment's name. -/
def targetsDeploymentByKind (app : Application) (deploymentName : String) : Prop :=
  app.Group = "apps" ∧ app.Version = "v1" ∧ app.Kind = "Deployment" ∧
    app.Name = deploymentName

instance (app : Application) (deploymentName : String) :
    Decidable (targetsDeploymentByKind app deploymentName) := by
  unfold targetsDeploymentByKind
  infer_instance

/-- The test of the second loop of `CheckServiceBindingsInjectionDone` that a
`servicebinding.io` binding targets the deployment: API version `apps/v1`, kind, name. -/
def workloadTargetsDeployment (w : Workload) (deploymentName : String) : Prop :=
  w.APIVersion = "apps/v1" ∧ w.Kind = "Deployment" ∧ w.Name = deploymentName

instance (w : Workload) (deploymentName : String) :
    Decidable (workloadTargetsDeployment w deploymentName) := by
  unfold workloadTargetsDeployment
  infer_instance

/-- A client on a cluster where the component has no deployment. -/
def noDeploymentClient : ClientInterface :=
  { GetOneDeployment := fun _ _ _ => .error (.deploymentNotFound "no deployment") }

/-- A client on a cluster where the deployment `backend-app` exists and the ServiceBinding
kinds are not registered. -/
def noBindingKindClient : ClientInterface :=
  { GetOneDeployment := fun _ _ _ => .ok { Name := "backend-app" }
    ListServiceBindingsFromAllGroups := .error (.notRegistered "ServiceBinding") }

/-- A binding that is not ready and names the deployment `backend-app` by resource, with
no kind. -/
def byResourceBinding : BindingServiceBinding :=
  { Name := "my-binding",
    Application := { Group := "apps", Version := "v1", Resource := "deployments",
                     Name := "backend-app" } }

/-- A client on a cluster where the deployment `backend-app` exists and the only binding
is `byResourceBinding`. -/
def byResourceClient : ClientInterface :=
  { GetOneDeployment := fun _ _ _ => .ok { Name := "backend-app" }
    ListServiceBindingsFromAllGroups := .ok ([], [byResourceBinding]) }

/-- The condition list of a binding whose injection is done. -/
def readyConditions : List Condition :=
  [{ Typ := "InjectionReady", Status := "True" }]

/-- A client for a ready `servicebinding.io` binding `my-binding` that declares the env
var `DB_USER`, its secret holding the key `username`; and for a ready
`binding.operators.coreos.com` binding of the same name whose secret `empty-secret` holds
no key. -/
def readyClient : ClientInterface :=
  { GetSpecServiceBinding := fun _ =>
      .ok { Name := "my-binding", Env := [{ Name := "DB_USER", Key := "username" }],
            Conditions := readyConditions, Binding := some "my-secret" }
    GetBindingServiceBinding := fun _ =>
      .ok { Name := "my-binding", Conditions := readyConditions, Secret := "empty-secret" }
    GetSecret := fun secretName _ =>
      if secretName = "my-secret" then .ok { Data := [("username", "admin")] }
      else .ok { Data := [] } }

/-- A client for bindings of both variants whose `InjectionReady` condition is false. -/
def notReadyClient : ClientInterface :=
  { GetSpecServiceBinding := fun _ =>
      .ok { Name := "my-binding",
            Conditions := [{ Typ := "InjectionReady", Status := "False" }],
            Binding := some "my-secret" }
    GetBindingServiceBinding := fun _ =>
      .ok { Name := "my-binding",
            Conditions := [{ Typ := "InjectionReady", Status := "False" }],
            Secret := "my-secret" }
    GetSecret := fun _ _ => .ok { Data := [("username", "admin")] } }

/-- A client on a cluster that holds no binding of either variant. -/
def noBindingClient : ClientInterface := {}

/-! ## Looking up a binding, listing service instances -/

/-- The verb `%q` of `fmt` on a string that holds no character to escape, as a Kubernetes
name: the string between double quotes. -/
def strconv_Quote (str : String) : String :=
  "\"" ++ str ++ "\""

/-- The method `GetBindingFromCluster`, with the calls it makes on the client, in order. -/
def GetBindingFromCluster (client : ClientInterface) (name : String) :
    Except Error ServiceBinding × List Call :=
  match client.GetBindingServiceBinding name with
  | .ok bindingSB =>
    match client.APIServiceBindingFromBinding bindingSB with
    | .error err =>
      (.error err, [.GetBindingServiceBinding name, .APIServiceBindingFromBinding bindingSB.Name])
    | .ok sb =>
      let status := getStatusFromBinding client bindingSB.Name
      let calls : List Call :=
        [.GetBindingServiceBinding name, .APIServiceBindingFromBinding bindingSB.Name] ++ status.2
      match status.1 with
      | .error err => (.error err, calls)
      | .ok st => (.ok { sb with Status := st }, calls)
  | .error err =>
    if !err.IsNotFound then (.error err, [.GetBindingServiceBinding name])
    else
      match client.GetSpecServiceBinding name with
      | .ok specSB =>
        let sb := client.APIServiceBindingFromSpec specSB
        let status := getStatusFromSpec client specSB.Name
        let calls : List Call :=
          [.GetBindingServiceBinding name, .GetSpecServiceBinding name,
            .APIServiceBindingFromSpec specSB.Name] ++ status.2
        match status.1 with
        | .error err2 => (.error err2, calls)
        | .ok st => (.ok { sb with Status := st }, calls)
      | .error err2 =>
        if err2.IsNotFound then
          (.error (.errorf ("ServiceBinding " ++ strconv_Quote name ++ " not found")),
            [.GetBindingServiceBinding name, .GetSpecServiceBinding name])
        else (.error err2, [.GetBindingServiceBinding name, .GetSpecServiceBinding name])

/-- The message of the error of `checkServiceBindingOperatorInstalled`. -/
def operatorNotInstalledMessage : String :=
  "Service Binding Operator is not installed on the cluster, please ensure it is installed before proceeding. " ++
    "See installation instructions: https://odo.dev/docs/command-reference/add-binding#installing-the-service-binding-operator"

/-- The method `checkServiceBindingOperatorInstalled`: the error it returns, `none` for
nil. -/
def checkServiceBindingOperatorInstalled (client : ClientInterface) : Option Error :=
  match client.IsServiceBindingSupported with
  | .error err => some err
  | .ok isServiceBindingInstalled =>
    if !isServiceBindingInstalled then some (.errorf operatorNotInstalledMessage) else none

/-- A Go `map[string]unstructured.Unstructured`, as its entries; a key is held once. -/
abbrev ServiceMap := List (String × Unstructured)

/-- The Go map assignment `m[k] = v`: the entry under `k`, if any, is replaced. -/
def ServiceMap.set (m : ServiceMap) (k : String) (v : Unstructured) : ServiceMap :=
  m.filter (fun e => decide (e.1 ≠ k)) ++ [(k, v)]

/-- The key of an item in `GetServiceInstances`:
`fmt.Sprintf("%s (%s.%s)", item.GetName(), item.GetKind(), item.GroupVersionKind().Group)`. -/
def serviceName (item : Unstructured) : String :=
  item.name ++ " (" ++ item.kind ++ "." ++ item.group ++ ")"

/-- The inner loop of `GetServiceInstances` over `resources.Items`. -/
def addItems (m : ServiceMap) (items : List Unstructured) : ServiceMap :=
  items.foldl (fun acc item => acc.set (serviceName item) item) m

/-- The loop of `GetServiceInstances` over `bindableKindRestMappings`, from the map and the
calls made so far. -/
def serviceInstancesLoop (client : ClientInterface) (namespace_ : String) :
    List RESTMapping → ServiceMap → List Call → Except Error ServiceMap × List Call
  | [], bindableObjectMap, calls => (.ok bindableObjectMap, calls)
  | restMapping :: rest, bindableObjectMap, calls =>
    let calls := calls ++ [.ListDynamicResources namespace_ restMapping.Resource ""]
    match client.ListDynamicResources namespace_ restMapping.Resource "" with
    | .error err =>
      if err.IsNotFound || err.IsForbidden then
        serviceInstancesLoop client namespace_ rest bindableObjectMap calls
      else (.error err, calls)
    | .ok resources =>
      serviceInstancesLoop client namespace_ rest (addItems bindableObjectMap resources) calls

/-- The method `GetServiceInstances`, with the calls it makes on the client, in order; an
error stands for the pair of a nil map and that error. -/
def GetServiceInstances (client : ClientInterface) (namespace_ : String) :
    Except Error ServiceMap × List Call :=
  match checkServiceBindingOperatorInstalled client with
  | some err => (.error err, [.IsServiceBindingSupported])
  | none =>
    match client.GetBindableKinds with
    | .error err => (.error err, [.IsServiceBindingSupported, .GetBindableKinds])
    | .ok bindableKind =>
      match client.GetBindableKindStatusRestMapping bindableKind.Status with
      | .error err =>
        (.error err,
          [.IsServiceBindingSupported, .GetBindableKinds, .GetBindableKindStatusRestMapping])
      | .ok bindableKindRestMappings =>
        serviceInstancesLoop client namespace_ bindableKindRestMappings []
          [.IsServiceBindingSupported, .GetBindableKinds, .GetBindableKindStatusRestMapping]

/-! ## Running modes, devfile information, all components -/

/-- The parts of `pkg/labels` that the selector queries use and that are not under `src/`,
taken as parameters: the function `GetSelector` and the mode constants
`ComponentAnyMode` and `ComponentDeployMode`. -/
structure LabelsPackage where
  GetSelector : String → String → String → Bool → String
  ComponentAnyMode : String
  ComponentDeployMode : String := "Deploy"

/-- The function `getResourcesForComponent`; `application` is what
`odocontext.GetApplication(ctx)` returns. -/
def getResourcesForComponent (odolabels : LabelsPackage) (application : String)
    (client : ClientInterface) (name : String) (namespace_ : String) :
    Except Error (List Unstructured) :=
  let selector := odolabels.GetSelector name application odolabels.ComponentAnyMode false
  match client.GetAllResourcesFromSelector selector namespace_ with
  | .error err => .error err
  | .ok resourceList =>
    .ok (resourceList.filter (fun resource => decide (resource.kind ≠ "PackageManifest")))

/-- The loop of `GetRunningModes` over the resources of the component. -/
def collectModes (list : List Unstructured) : RunningModes :=
  list.foldl (fun mapResult resource =>
    let mode := GetMode resource.labels
    if mode ≠ "" then AddRunningMode mapResult (strings_ToLower mode) else mapResult)
    NewRunningModes

/-- The function `GetRunningModes`: the pair `(api.RunningModes, error)` it returns, `none`
for nil; the client is `none` when nil. -/
def GetRunningModes (odolabels : LabelsPackage) (application : String)
    (client : Option ClientInterface) (name : String) : Option RunningModes × Option Error :=
  match client with
  | none => (none, none)
  | some client =>
    match getResourcesForComponent odolabels application client name
        client.GetCurrentNamespace with
    | .error _ => (none, none)
    | .ok list =>
      if list.length = 0 then
        (none, some (.noComponentFound name client.GetCurrentNamespace))
      else (some (collectModes list), none)

/-- The constant `UnknownValue`. -/
def UnknownValue : String := "Unknown"

/-- The constant `NotAvailable`. -/
def NotAvailable : String := "Not available"

/-- The fields of a `devfile.DevfileMetadata` that the component package reads or
writes. -/
structure DevfileMetadata where
  Name : String := ""
  DisplayName : String := ""
  ProjectType : String := ""
  Language : String := ""
  Version : String := ""
  Description : String := ""
deriving DecidableEq, Repr

/-- The body of the loop of `GetDevfileInfoFromCluster` over the resources. -/
def devfileInfoStep (metadata : DevfileMetadata) (resource : Unstructured) : DevfileMetadata :=
  let labels := resource.labels
  let annotations := resource.annotations
  let name := GetComponentName labels
  let metadata : DevfileMetadata :=
    if name.length > 0 ∧ metadata.Name = UnknownValue then { metadata with Name := name }
    else metadata
  match GetProjectType labels annotations with
  | none => metadata
  | some typ =>
    if typ.length > 0 ∧ metadata.ProjectType = UnknownValue then
      { metadata with ProjectType := typ }
    else metadata

/-- The function `GetDevfileInfoFromCluster`: the metadata of the `parser.DevfileObj` it
returns (`none` for the empty `parser.DevfileObj`) and its error (`none` for nil);
`data.NewDevfileData` on the schema version 2.0.0 is taken to succeed with empty
metadata. -/
def GetDevfileInfoFromCluster (odolabels : LabelsPackage) (application : String)
    (client : ClientInterface) (name : String) : Option DevfileMetadata × Option Error :=
  match getResourcesForComponent odolabels application client name
      client.GetCurrentNamespace with
  | .error _ => (none, none)
  | .ok list =>
    if list.length = 0 then (none, none)
    else
      let metadata : DevfileMetadata :=
        { Name := UnknownValue, DisplayName := UnknownValue, ProjectType := UnknownValue,
          Language := UnknownValue, Version := UnknownValue, Description := UnknownValue }
      (some (list.foldl devfileInfoStep metadata), none)

/-- The function `GetComponentTypeFromDevfileMetadata`. -/
def GetComponentTypeFromDevfileMetadata (metadata : DevfileMetadata) : String :=
  if metadata.ProjectType ≠ "" then metadata.ProjectType
  else if metadata.Language ≠ "" then metadata.Language
  else NotAvailable

/-- The answer of `podman.Client` that the component package asks for. -/
structure PodmanClient where
  ListAllComponents : Except Error (List ComponentAbstract) := .ok []

/-- The function `Contains`. -/
def Contains (component : ComponentAbstract) : List ComponentAbstract → Bool
  | [] => false
  | comp :: components =>
    if component.Name = comp.Name then true else Contains component components

/-- The function `ListAllComponents`: the list and the name of the component in the
devfile, or the error; a nil client, a nil podman client and a nil `devObj` are `none`. -/
def ListAllComponents (client : Option ClientInterface) (podmanClient : Option PodmanClient)
    (namespace_ : String) (devObj : Option DevfileMetadata) (componentName : String) :
    Except Error (List ComponentAbstract × String) :=
  let fromCluster : Except Error (List ComponentAbstract) :=
    match client with
    | none => .ok []
    | some client =>
      match ListAllClusterComponents client namespace_ with
      | .error err => .error err
      | .ok clusterComponents => .ok ([] ++ clusterComponents)
  match fromCluster with
  | .error err => .error err
  | .ok allComponents =>
    let fromPodman : Except Error (List ComponentAbstract) :=
      match podmanClient with
      | none => .ok allComponents
      | some podmanClient =>
        match podmanClient.ListAllComponents with
        | .error err => .error err
        | .ok podmanComponents => .ok (allComponents ++ podmanComponents)
    match fromPodman with
    | .error err => .error err
    | .ok allComponents =>
      let localComponent : ComponentAbstract :=
        { Name := componentName, ManagedBy := "", ManagedByVersion := "",
          RunningIn := some NewRunningModes, Typ := "", RunningOn := "" }
      let localComponent : ComponentAbstract :=
        match devObj with
        | none => localComponent
        | some metadata =>
          { localComponent with Typ := GetComponentTypeFromDevfileMetadata metadata }
      if localComponent.Name ≠ "" then
        if !Contains localComponent allComponents then
          .ok (allComponents ++ [localComponent], localComponent.Name)
        else .ok (allComponents, localComponent.Name)
      else .ok (allComponents, "")

/-- The root of the projected files, `$SERVICE_BINDING_ROOT` between braces. -/
def serviceBindingRoot : String := "$\x7bSERVICE_BINDING_ROOT\x7d"

/-- A client for a ready `binding.operators.coreos.com` binding `my-binding` bound as
files, its secret holding the keys `username` and `password`. -/
def filesClient : ClientInterface :=
  { GetBindingServiceBinding := fun _ =>
      .ok { Name := "my-binding", BindAsFiles := true, Conditions := readyConditions,
            Secret := "my-secret" }
    GetSecret := fun _ _ => .ok { Data := [("username", "admin"), ("password", "s3cret")] } }

/-- A client for a ready `servicebinding.io` binding `my-binding` that declares no env
var, its secret holding the key `username`. -/
def noEnvClient : ClientInterface :=
  { GetSpecServiceBinding := fun _ =>
      .ok { Name := "my-binding", Conditions := readyConditions, Binding := some "my-secret" }
    GetSecret := fun _ _ => .ok { Data := [("username", "admin")] } }

/-- A client for ready bindings of both variants whose secret cannot be fetched. -/
def missingSecretClient : ClientInterface :=
  { GetBindingServiceBinding := fun _ =>
      .ok { Name := "my-binding", Conditions := readyConditions, Secret := "my-secret" }
    GetSpecServiceBinding := fun _ =>
      .ok { Name := "my-binding", Conditions := readyConditions, Binding := some "my-secret" }
    GetSecret := fun _ _ => .error (.notFound "secrets \"my-secret\" not found") }

/-- A client whose lookup of a `binding.operators.coreos.com` binding is forbidden. -/
def forbiddenClient : ClientInterface :=
  { GetBindingServiceBinding := fun _ => .error (.forbidden "servicebindings is forbidden") }

/-- A client that finds no `binding.operators.coreos.com` binding and whose lookup of a
`servicebinding.io` binding is forbidden. -/
def forbiddenSpecClient : ClientInterface :=
  { GetSpecServiceBinding := fun _ => .error (.forbidden "servicebindings is forbidden") }

/-- The items that a scan of the bindable kinds collects: those of every kind whose
listing succeeded, in the order of the scan; a kind whose listing failed gives none. -/
def scannedItems (client : ClientInterface) (namespace_ : String) :
    List RESTMapping → List Unstructured
  | [] => []
  | restMapping :: rest =>
    (match client.ListDynamicResources namespace_ restMapping.Resource "" with
      | .ok resources => resources
      | .error _ => []) ++ scannedItems client namespace_ rest

/-- The item of a list that a map keyed by `serviceName` ends with under `key`: the last
one of that key. -/
def lastUnder (key : String) : List Unstructured → Option Unstructured
  | [] => none
  | item :: rest =>
    match lastUnder key rest with
    | some later => some later
    | none => if serviceName item = key then some item else none

/-- A listing that succeeds, or fails with not-found or forbidden. -/
def tolerated (client : ClientInterface) (namespace_ : String) (restMapping : RESTMapping) :
    Prop :=
  ∀ err, client.ListDynamicResources namespace_ restMapping.Resource "" = .error err →
    (err.IsNotFound || err.IsForbidden) = true

/-- The resource of the PostgreSQL clusters. -/
def postgresGVR : GroupVersionResource :=
  { Group := "postgresql.k8s.enterprisedb.io", Version := "v1", Resource := "clusters" }

/-- The resource of the Redis instances. -/
def redisGVR : GroupVersionResource :=
  { Group := "redis.redis.opstreelabs.in", Version := "v1beta1", Resource := "redis" }

/-- A PostgreSQL cluster named `cluster-sample`. -/
def postgresItem : Unstructured :=
  { name := "cluster-sample", kind := "Cluster", group := "postgresql.k8s.enterprisedb.io" }

/-- A client on a cluster with two bindable kinds: listing the Redis instances is
forbidden, listing the PostgreSQL clusters gives one item. -/
def scanClient : ClientInterface :=
  { GetBindableKindStatusRestMapping := fun _ =>
      .ok [{ Resource := redisGVR }, { Resource := postgresGVR }]
    ListDynamicResources := fun _ gvr _ =>
      if gvr = redisGVR then .error (.forbidden "redis is forbidden")
      else .ok [postgresItem] }

/-- A client on a cluster with two bindable kinds where listing the Redis instances fails
on the transport. -/
def brokenScanClient : ClientInterface :=
  { GetBindableKindStatusRestMapping := fun _ =>
      .ok [{ Resource := postgresGVR }, { Resource := redisGVR }]
    ListDynamicResources := fun _ gvr _ =>
      if gvr = redisGVR then .error (.other "connection refused")
      else .ok [postgresItem] }

/-- A selector builder and a mode constant to run the selector queries with. -/
def sampleLabels : LabelsPackage :=
  { GetSelector := fun componentName applicationName _ _ =>
      "app.kubernetes.io/instance=" ++ componentName ++ ",app.kubernetes.io/part-of=" ++
        applicationName
    ComponentAnyMode := "" }

/-- A client whose resource query fails. -/
def failingClient : ClientInterface :=
  { GetAllResourcesFromSelector := fun _ _ => .error (.other "connection refused") }

/-- The first value of a list that is not empty, "Unknown" when there is none. -/
def firstNonEmpty (values : List String) : String :=
  (values.find? (fun v => decide (v ≠ ""))).getD UnknownValue

/-- The first value of a list that is neither empty nor the literal "Unknown", "Unknown"
when there is none. -/
def firstKnown (values : List String) : String :=
  (values.find? (fun v => decide (v ≠ "") && decide (v ≠ UnknownValue))).getD UnknownValue

/-- The component-name labels seen on a list of resources. -/
def namesSeen (list : List Unstructured) : List String :=
  list.map (fun r => GetComponentName r.labels)

/-- The project types seen on a list of resources, those that cannot be read left out. -/
def typesSeen (list : List Unstructured) : List String :=
  list.filterMap (fun r => GetProjectType r.labels r.annotations)

/-- Two resources of `app1`: the first is annotated with the project type "Unknown", the
second with "nodejs". -/
def unknownFirstResources : List Unstructured :=
  [ { kind := "Deployment", labels := [("app.kubernetes.io/instance", "app1")],
      annotations := [("odo.dev/project-type", "Unknown")] },
    { kind := "Service", labels := [("app.kubernetes.io/instance", "app1")],
      annotations := [("odo.dev/project-type", "nodejs")] } ]

/-- The entry of `ListAllComponents` for the component of the local directory. -/
def localEntry (devObj : Option DevfileMetadata) (componentName : String) :
    ComponentAbstract :=
  { Name := componentName, ManagedBy := "", ManagedByVersion := "", RunningIn := some ∅,
    Typ := (match devObj with
      | none => ""
      | some metadata => GetComponentTypeFromDevfileMetadata metadata),
    RunningOn := "" }

/-- A local container engine that runs the component `frontend`. -/
def samplePodman : PodmanClient :=
  { ListAllComponents := .ok
      [{ Name := "frontend", ManagedBy := "odo", ManagedByVersion := "v3.0.0",
         RunningIn := some {"dev"}, Typ := "go", RunningOn := "podman" }] }

/-- The overwrite of one metadata field in `GetDevfileInfoFromCluster`: a non-empty value
replaces the field while it still holds "Unknown". -/
def overwriteUnknown (current value : String) : String :=
  if value.length > 0 ∧ current = UnknownValue then value else current

/-- The entry of the local container engine for a component `app1` that also runs on the
cluster. -/
def podmanApp1 : ComponentAbstract :=
  { Name := "app1", ManagedBy := "odo", ManagedByVersion := "v3.0.0",
    RunningIn := some {"dev"}, Typ := "nodejs", RunningOn := "podman" }

/-- A local container engine that runs the component `app1` alone. -/
def overlapPodman : PodmanClient :=
  { ListAllComponents := .ok [podmanApp1] }

/-- A client on a cluster where the Service Binding Operator is not installed. -/
def noOperatorClient : ClientInterface :=
  { IsServiceBindingSupported := .ok false }

/-- A client whose probe for the Service Binding Operator fails. -/
def probeFailsClient : ClientInterface :=
  { IsServiceBindingSupported := .error (.other "connection refused") }

/-! ## Routes and ingresses -/

/-- Modelled from the spec: `api.Rules`, a host and its list of paths. -/
structure Rules where
  Host : String
  Paths : List String
deriving DecidableEq, Repr

/-- Modelled from the spec: `api.ConnectionData`, a name and its list of rules. -/
structure ConnectionData where
  Name : String
  Rules : List Rules
deriving DecidableEq, Repr

/-- What a call of `ListRoutesAndIngresses` ends with: the triple `(ings, routes, err)` it
returns (a nil slice is the empty list, `none` a nil error), or the run-time panic of a
nil pointer dereference. -/
inductive Outcome where
  | returned (ings routes : List ConnectionData) (err : Option Error)
  | nilDereference
deriving DecidableEq, Repr

/-- Modelled from the spec: `kclient.RouteGVK`, the kind of the cluster-specific routes. -/
def RouteGVK : GroupVersionKind :=
  { Group := "route.openshift.io", Version := "v1", Kind := "Route" }

/-- The method `schema.GroupVersionKind.String`. -/
def GroupVersionKind.toText (gvk : GroupVersionKind) : String :=
  gvk.Group ++ "/" ++ gvk.Version ++ ", Kind=" ++ gvk.Kind

/-- The loop over `ing.Spec.Rules` in the closure that computes the rules of an ingress,
from the rules appended so far; `none` when `rule.HTTP.Paths` is read through a nil
`rule.HTTP`. -/
def ingressRulesLoop : List IngressRule → List Rules → Option (List Rules)
  | [], rules => some rules
  | rule :: rest, rules =>
    match rule.HTTP with
    | none => none
    | some httpPaths =>
      let paths := httpPaths.map (fun path => path.Path)
      let host := if rule.Host = "" then "*" else rule.Host
      ingressRulesLoop rest (rules ++ [{ Host := host, Paths := paths }])

/-- The closure of `ListRoutesAndIngresses` that computes the rules of an ingress. -/
def ingressRules (ing : Ingress) : Option (List Rules) :=
  match ingressRulesLoop ing.Rules [] with
  | none => none
  | some rules =>
    if ing.Rules.length = 0 then some (rules ++ [{ Host := "*", Paths := ["/*"] }])
    else some rules

/-- The loop of `ListRoutesAndIngresses` over `k8sIngresses.Items`, from the entries
appended so far. -/
def ingressesLoop : List Ingress → List ConnectionData → Option (List ConnectionData)
  | [], ings => some ings
  | ing :: rest, ings =>
    if ing.OwnerReferences ≠ none then ingressesLoop rest ings
    else
      match ingressRules ing with
      | none => none
      | some rules => ingressesLoop rest (ings ++ [{ Name := ing.Name, Rules := rules }])

/-- The loop of `ListRoutesAndIngresses` over `ocRoutes.Items`, from the entries appended
so far. -/
def routesLoop : List Unstructured → List ConnectionData → Except Error (List ConnectionData)
  | [], routes => .ok routes
  | u :: rest, routes =>
    if u.ownerReferences ≠ none then routesLoop rest routes
    else
      match u.route with
      | .error err => .error err
      | .ok route =>
        routesLoop rest
          (routes ++ [{ Name := u.name, Rules := [{ Host := route.Host, Paths := [route.Path] }] }])

/-- The function `ListRoutesAndIngresses`; the client is `none` when nil. -/
def ListRoutesAndIngresses (odolabels : LabelsPackage) (client : Option ClientInterface)
    (componentName appName : String) : Outcome :=
  match client with
  | none => .returned [] [] none
  | some client =>
    let selector := odolabels.GetSelector componentName appName odolabels.ComponentDeployMode false
    match client.ListIngresses client.GetCurrentNamespace selector with
    | .error err => .returned [] [] (some err)
    | .ok k8sIngresses =>
      match ingressesLoop k8sIngresses [] with
      | none => .nilDereference
      | some ings =>
        if !client.IsProjectSupported.1 then .returned ings [] none
        else
          match client.GetGVRFromGVK RouteGVK with
          | .error err =>
            .returned [] []
              (some (.wrapped ("unable to determine GVR for " ++ RouteGVK.toText) err))
          | .ok routeGVR =>
            match client.ListDynamicResources client.GetCurrentNamespace routeGVR selector with
            | .error err => .returned [] [] (some err)
            | .ok ocRoutes =>
              match routesLoop ocRoutes [] with
              | .error err => .returned [] [] (some err)
              | .ok routes => .returned ings routes none

/-! ## Local run state store -/

/-- Modelled from the spec: `api.ForwardedPort`, the record of
"{local address, local port, container name, container port}". -/
structure ForwardedPort where
  containerName : String
  localAddress : String
  localPort : Int
  containerPort : Int
deriving DecidableEq, Repr

/-- Modelled from the spec: the type `Content` of `pkg/state`, the document
`{ForwardedPorts: [...]}`; a nil slice is the empty list. -/
structure Content where
  ForwardedPorts : List ForwardedPort := []
deriving DecidableEq, Repr

/-- The state file at `_filepath` as the store finds it: missing, there and failing to be
read, holding bytes that `json.Unmarshal` rejects, or holding the JSON document of a
`Content`. -/
inductive StateFile where
  | missing
  | unreadable (err : Error)
  | malformed (err : Error)
  | document (content : Content)
deriving DecidableEq, Repr

/-- The file system under the store: the state file, and the errors, if any, that
`os.MkdirAll` and `WriteFile` answer with. -/
structure Filesystem where
  file : StateFile := .missing
  mkdirAllError : Option Error := none
  writeFileError : Option Error := none
deriving DecidableEq, Repr

/-- The struct `State`. -/
structure State where
  content : Content := {}
  fs : Filesystem := {}
deriving DecidableEq, Repr

/-- Modelled from the spec: the constant `_filepath`, the path of the state file, "fixed
relative to a tool-managed subdirectory". -/
def _filepath : String := "./.odo/devstate.json"

/-- The method `save`: the error it returns and the store after it; `json.MarshalIndent`
does not fail on a `Content`. -/
def State.save (o : State) : Option Error × State :=
  match o.fs.mkdirAllError with
  | some err => (some err, o)
  | none =>
    match o.fs.writeFileError with
    | some err => (some err, o)
    | none => (none, { o with fs := { o.fs with file := .document o.content } })

/-- The method `read`: the error it returns and the store after it. -/
def State.read (o : State) : Option Error × State :=
  match o.fs.file with
  | .missing => (some (.notExist _filepath), o)
  | .unreadable err => (some err, o)
  | .malformed err => (some err, o)
  | .document content => (none, { o with content := content })

/-- The method `SetForwardedPorts`. -/
def State.SetForwardedPorts (o : State) (fwPorts : List ForwardedPort) : Option Error × State :=
  State.save { o with content := { o.content with ForwardedPorts := fwPorts } }

/-- The method `GetForwardedPorts`: the pair it returns and the store after it. -/
def State.GetForwardedPorts (o : State) : (List ForwardedPort × Option Error) × State :=
  match State.read o with
  | (some err, o2) =>
    if err.IsNotExist then (([], none), o2) else (([], some err), o2)
  | (none, o2) => ((o2.content.ForwardedPorts, none), o2)

/-- The method `SaveExit`. -/
def State.SaveExit (o : State) : Option Error × State :=
  State.save { o with content := { o.content with ForwardedPorts := [] } }

/-- Two forwarded ports of a development session. -/
def samplePorts : List ForwardedPort :=
  [ { containerName := "runtime", localAddress := "127.0.0.1", localPort := 20001,
      containerPort := 3000 },
    { containerName := "runtime", localAddress := "127.0.0.1", localPort := 20002,
      containerPort := 5858 } ]

/-- A forwarded port left by an earlier session. -/
def stalePorts : List ForwardedPort :=
  [{ containerName := "old", localAddress := "127.0.0.1", localPort := 40001,
     containerPort := 8080 }]

/-- A store whose file and memory hold one stale forwarded port. -/
def staleState : State :=
  { content := { ForwardedPorts := stalePorts }
    fs := { file := .document { ForwardedPorts := stalePorts } } }

/-- A store whose state file cannot be read. -/
def unreadableState : State :=
  { fs := { file := .unreadable (.other "permission denied") } }

/-- A store whose state file does not hold a JSON document. -/
def malformedState : State :=
  { fs := { file := .malformed (.other "invalid character") } }

/-- An ingress or route that bears an owner reference: its list of them has an entry. -/
def bearsOwnerReference : Option (List String) → Bool
  | some (_ :: _) => true
  | _ => false

/-- The rule synthesized for an ingress that declares no rule. -/
def wildcardRule : Rules := { Host := "*", Paths := ["/*"] }

/-- The rule that stands for a declared ingress rule: its host, "*" when empty, and the
paths of its HTTP section in their declared order. -/
def ruleOf (rule : IngressRule) : Rules :=
  { Host := if rule.Host = "" then "*" else rule.Host
    Paths := (rule.HTTP.getD []).map (fun path => path.Path) }

/-- The `ConnectionData` that stands for an ingress. -/
def ingressData (ing : Ingress) : ConnectionData :=
  { Name := ing.Name
    Rules := if ing.Rules = [] then [wildcardRule] else ing.Rules.map ruleOf }

/-- The `ConnectionData` that stands for a route: one rule, of its host and its path. -/
def routeData (u : Unstructured) : ConnectionData :=
  { Name := u.name
    Rules := [match u.route with
      | .ok route => { Host := route.Host, Paths := [route.Path] }
      | .error _ => { Host := "", Paths := [""] }] }

/-- An ingress with two paths under one host, created by the deploy action. -/
def appIngress : Ingress :=
  { Name := "my-nodejs-app"
    Rules := [{ Host := "nodejs.example.com", HTTP := some [{ Path := "/" }, { Path := "/foo" }] }] }

/-- An ingress with a default backend and no rule. -/
def defaultBackendIngress : Ingress :=
  { Name := "my-default-app" }

/-- An ingress generated by another resource, which owns it. -/
def ownedIngress : Ingress :=
  { Name := "generated", OwnerReferences := some ["my-controller"]
    Rules := [{ Host := "generated.example.com", HTTP := some [{ Path := "/" }] }] }

/-- An ingress whose only rule names a host and has no HTTP section. -/
def hostOnlyIngress : Ingress :=
  { Name := "host-only", Rules := [{ Host := "nodejs.example.com" }] }

/-- A client on a cluster without routes that lists three ingresses. -/
def ingressClient : ClientInterface :=
  { ListIngresses := fun _ _ => .ok [ownedIngress, appIngress, defaultBackendIngress] }

/-- A route created by the deploy action. -/
def appRoute : Unstructured :=
  { kind := "Route", name := "my-nodejs-app", group := "route.openshift.io",
    route := .ok { Host := "nodejs.apps.example.com", Path := "/foo" } }

/-- A route generated by another resource, which owns it. -/
def ownedRoute : Unstructured :=
  { kind := "Route", name := "generated", group := "route.openshift.io",
    ownerReferences := some ["my-ingress"],
    route := .ok { Host := "generated.apps.example.com", Path := "/" } }

/-- A client on a cluster with routes that lists one ingress and two routes. -/
def routeClient : ClientInterface :=
  { ListIngresses := fun _ _ => .ok [appIngress]
    IsProjectSupported := (true, none)
    ListDynamicResources := fun _ _ _ => .ok [ownedRoute, appRoute] }

/-- A client that lists the ingress without HTTP section. -/
def hostOnlyClient : ClientInterface :=
  { ListIngresses := fun _ _ => .ok [appIngress, hostOnlyIngress] }

/-- A Deployment of the component `app1` carrying the mode label as odo writes it,
capitalised: `Dev`. -/
def capitalDeployment : Unstructured :=
  { kind := "Deployment",
    labels := [("app.kubernetes.io/instance", "app1"), ("odo.dev/mode", "Dev")] }

/-- A Service of the component `app1` carrying the mode label as odo writes it,
capitalised: `Deploy`. -/
def capitalService : Unstructured :=
  { kind := "Service",
    labels := [("app.kubernetes.io/instance", "app1"), ("odo.dev/mode", "Deploy")],
    annotations := [("odo.dev/project-type", "nodejs")] }

/-- A component whose resources carry capitalised mode labels. -/
def capitalResources : List Unstructured := [capitalDeployment, capitalService]

/-! ## Lemmas on the merge pass -/

theorem mergeInto_Name (x : ComponentAbstract) (m : String) (c : ComponentAbstract) :
    (mergeInto x m c).Name = c.Name := by
  unfold mergeInto
  simp only []
  split_ifs <;> rfl

theorem absorb_Name (c : ComponentAbstract) (r : Unstructured) : (absorb c r).Name = c.Name := by
  unfold absorb
  split_ifs
  · exact mergeInto_Name _ _ _
  · rfl

theorem fresh_Name (r : Unstructured) : (fresh r).Name = GetComponentName r.labels := by
  unfold fresh
  split_ifs <;> rfl

theorem clusterStep_of_not_counts (S : List ComponentAbstract) (r : Unstructured)
    (h : counts r = false) : clusterStep S r = S := by
  unfold clusterStep
  simp only [counts, Bool.and_eq_false_imp, decide_eq_true_eq, decide_eq_false_iff_not,
    not_not] at h
  by_cases hk : r.kind = "PackageManifest"
  · simp [hk]
  · simp [hk, h hk]

theorem clusterStep_of_counts (S : List ComponentAbstract) (r : Unstructured)
    (h : counts r = true) :
    clusterStep S r =
      if S.any (fun c => decide (GetComponentName r.labels = c.Name)) = true then
        S.map (fun c => if GetComponentName r.labels = c.Name then
          mergeInto (candidate r) (GetMode r.labels) c else c)
      else
        S.map (fun c => if GetComponentName r.labels = c.Name then
          mergeInto (candidate r) (GetMode r.labels) c else c) ++ [fresh r] := by
  simp only [counts, Bool.and_eq_true, decide_eq_true_eq] at h
  obtain ⟨hk, hn⟩ := h
  unfold clusterStep
  simp only [hk, hn, if_false, false_and, and_false]
  split_ifs <;> simp_all [candidate, fresh, NewRunningModes]

theorem map_merge_of_not_mem (S : List ComponentAbstract) (r : Unstructured)
    (h : ∀ c ∈ S, c.Name ≠ GetComponentName r.labels) :
    S.map (fun c => if GetComponentName r.labels = c.Name then
      mergeInto (candidate r) (GetMode r.labels) c else c) = S := by
  conv_rhs => rw [← List.map_id S]
  apply List.map_congr_left
  intro c hc
  have := h c hc
  simp [Ne.symm this]

theorem clusterStep_Name_subset (S : List ComponentAbstract) (r : Unstructured)
    (c : ComponentAbstract) (hc : c ∈ clusterStep S r) :
    (∃ c0 ∈ S, c0.Name = c.Name) ∨ (counts r = true ∧ c.Name = GetComponentName r.labels) := by
  cases h : counts r with
  | false =>
    rw [clusterStep_of_not_counts S r h] at hc
    exact Or.inl ⟨c, hc, rfl⟩
  | true =>
    rw [clusterStep_of_counts S r h] at hc
    have hmap : ∀ c ∈ S.map (fun c => if GetComponentName r.labels = c.Name then
        mergeInto (candidate r) (GetMode r.labels) c else c), ∃ c0 ∈ S, c0.Name = c.Name := by
      intro c hc
      obtain ⟨c0, hc0, rfl⟩ := List.mem_map.1 hc
      refine ⟨c0, hc0, ?_⟩
      split_ifs
      · exact (mergeInto_Name _ _ _).symm
      · rfl
    split_ifs at hc
    · exact Or.inl (hmap c hc)
    · rcases List.mem_append.1 hc with hc | hc
      · exact Or.inl (hmap c hc)
      · rw [List.mem_singleton] at hc
        exact Or.inr ⟨rfl, by rw [hc, fresh_Name]⟩

theorem clusterStep_cons (c : ComponentAbstract) (B : List ComponentAbstract) (r : Unstructured)
    (hB : ∀ b ∈ B, b.Name ≠ c.Name) :
    clusterStep (c :: B) r =
      absorb c r ::
        (if GetComponentName r.labels = c.Name then B else clusterStep B r) := by
  cases h : counts r with
  | false =>
    rw [clusterStep_of_not_counts _ r h, clusterStep_of_not_counts _ r h]
    simp [absorb, h]
  | true =>
    rw [clusterStep_of_counts _ r h]
    by_cases hn : GetComponentName r.labels = c.Name
    · have hB2 : ∀ b ∈ B, b.Name ≠ GetComponentName r.labels := by
        intro b hb; rw [hn]; exact hB b hb
      simp only [List.any_cons, hn, decide_True, Bool.true_or, if_true, List.map_cons]
      rw [← hn, map_merge_of_not_mem B r hB2]
      simp [absorb, h, hn]
    · rw [clusterStep_of_counts _ r h]
      simp only [List.any_cons, hn, decide_False, Bool.false_or, List.map_cons, if_false]
      split_ifs <;> simp [absorb, hn]

theorem foldl_clusterStep_cons (L : List Unstructured) :
    ∀ (c : ComponentAbstract) (B : List ComponentAbstract), (∀ b ∈ B, b.Name ≠ c.Name) →
      L.foldl clusterStep (c :: B) =
        L.foldl absorb c ::
          (L.filter (fun r => decide (GetComponentName r.labels ≠ c.Name))).foldl clusterStep B := by
  induction L with
  | nil => intro c B _; rfl
  | cons r L ih =>
    intro c B hB
    rw [List.foldl_cons, clusterStep_cons c B r hB, List.foldl_cons]
    by_cases hn : GetComponentName r.labels = c.Name
    · rw [if_pos hn, ih (absorb c r) B (by rw [absorb_Name]; exact hB)]
      simp [hn, absorb_Name]
    · rw [if_neg hn, ih (absorb c r) (clusterStep B r)]
      · simp [hn, absorb_Name]
      · intro b hb
        rw [absorb_Name]
        rcases clusterStep_Name_subset B r b hb with ⟨c0, hc0, hname⟩ | ⟨_, hname⟩
        · rw [← hname]; exact hB c0 hc0
        · rw [hname]; exact hn

theorem aggregate_nil : aggregate [] = [] := rfl

theorem aggregate_cons_of_not_counts (r : Unstructured) (L : List Unstructured)
    (h : counts r = false) : aggregate (r :: L) = aggregate L := by
  unfold aggregate
  rw [List.foldl_cons, clusterStep_of_not_counts _ r h]

theorem aggregate_cons_of_counts (r : Unstructured) (L : List Unstructured)
    (h : counts r = true) :
    aggregate (r :: L) =
      L.foldl absorb (fresh r) ::
        aggregate (L.filter (fun r2 =>
          decide (GetComponentName r2.labels ≠ GetComponentName r.labels))) := by
  unfold aggregate
  rw [List.foldl_cons, clusterStep_of_counts _ r h]
  simp only [List.any_nil, List.map_nil, List.nil_append, Bool.false_eq_true, if_false]
  rw [foldl_clusterStep_cons L (fresh r) [] (by simp), fresh_Name]

theorem firstOccurrences_filter (p : String → Bool) (l : List String) :
    firstOccurrences (l.filter p) = (firstOccurrences l).filter p := by
  induction l with
  | nil => rfl
  | cons x xs ih =>
    by_cases hx : p x = true
    · rw [List.filter_cons_of_pos hx]
      simp only [firstOccurrences]
      rw [List.filter_cons_of_pos hx, ih, List.filter_filter, List.filter_filter]
      congr 1
      apply List.filter_congr
      intro y _
      exact Bool.and_comm _ _
    · rw [List.filter_cons_of_neg hx]
      simp only [firstOccurrences]
      rw [List.filter_cons_of_neg hx, ih, List.filter_filter]
      apply List.filter_congr
      intro y _
      by_cases hy : y = x
      · subst hy; simp [hx]
      · simp [hy]

theorem mem_firstOccurrences (l : List String) (y : String) :
    y ∈ firstOccurrences l ↔ y ∈ l := by
  induction l with
  | nil => simp [firstOccurrences]
  | cons x xs ih =>
    simp only [firstOccurrences, List.mem_cons, List.mem_filter, ih, decide_eq_true_eq]
    by_cases hy : y = x <;> simp [hy]

theorem firstOccurrences_nodup (l : List String) : (firstOccurrences l).Nodup := by
  induction l with
  | nil => simp [firstOccurrences]
  | cons x xs ih =>
    simp only [firstOccurrences, List.nodup_cons]
    exact ⟨by simp [List.mem_filter], ih.filter _⟩

theorem componentNames_cons (r : Unstructured) (L : List Unstructured) :
    componentNames (r :: L) =
      if counts r = true then GetComponentName r.labels :: componentNames L
      else componentNames L := by
  unfold componentNames counts
  by_cases hk : r.kind = "PackageManifest"
  · simp [hk]
  · by_cases hn : GetComponentName r.labels = ""
    · simp [hk, hn]
    · simp [hk, hn]

theorem componentNames_filter (x : String) (L : List Unstructured) :
    componentNames (L.filter (fun r => decide (GetComponentName r.labels ≠ x))) =
      (componentNames L).filter (fun y => decide (y ≠ x)) := by
  induction L with
  | nil => rfl
  | cons r L ih =>
    by_cases hx : GetComponentName r.labels = x
    · rw [List.filter_cons_of_neg (by simp [hx]), ih, componentNames_cons]
      split_ifs
      · rw [List.filter_cons_of_neg (by simp [hx])]
      · rfl
    · rw [List.filter_cons_of_pos (by simp [hx]), componentNames_cons, componentNames_cons]
      split_ifs
      · rw [List.filter_cons_of_pos (by simp [hx]), ih]
      · exact ih

theorem aggregate_names_aux (n : Nat) :
    ∀ L : List Unstructured, L.length ≤ n →
      (aggregate L).map (fun c => c.Name) = firstOccurrences (componentNames L) := by
  induction n with
  | zero =>
    intro L hL
    have : L = [] := List.length_eq_zero.1 (Nat.le_zero.1 hL)
    subst this
    rfl
  | succ n ih =>
    intro L hL
    cases L with
    | nil => rfl
    | cons r L =>
      have hlen : L.length ≤ n := Nat.le_of_succ_le_succ hL
      cases h : counts r with
      | false =>
        rw [aggregate_cons_of_not_counts r L h, componentNames_cons, h]
        exact ih L hlen
      | true =>
        rw [aggregate_cons_of_counts r L h, componentNames_cons, h]
        simp only [if_true, List.map_cons, firstOccurrences]
        have hname : (L.foldl absorb (fresh r)).Name = GetComponentName r.labels := by
          have : ∀ (M : List Unstructured) (c : ComponentAbstract),
              (M.foldl absorb c).Name = c.Name := by
            intro M
            induction M with
            | nil => intro c; rfl
            | cons m M ihM => intro c; rw [List.foldl_cons, ihM, absorb_Name]
          rw [this, fresh_Name]
        rw [hname, ih _ (le_trans (List.length_filter_le _ _) hlen), componentNames_filter,
          firstOccurrences_filter]

theorem aggregate_names (L : List Unstructured) :
    (aggregate L).map (fun c => c.Name) = firstOccurrences (componentNames L) :=
  aggregate_names_aux L.length L le_rfl

theorem aggregate_append_cons_of_not_counts (L1 L2 : List Unstructured) (r : Unstructured)
    (h : counts r = false) : aggregate (L1 ++ r :: L2) = aggregate (L1 ++ L2) := by
  unfold aggregate
  rw [List.foldl_append, List.foldl_cons, clusterStep_of_not_counts _ r h, List.foldl_append]

theorem foldl_absorb_Name (M : List Unstructured) :
    ∀ c : ComponentAbstract, (M.foldl absorb c).Name = c.Name := by
  induction M with
  | nil => intro c; rfl
  | cons m M ih => intro c; rw [List.foldl_cons, ih, absorb_Name]

theorem resourcesNamed_cons (n : String) (r : Unstructured) (L : List Unstructured) :
    resourcesNamed n (r :: L) =
      if r.kind ≠ "PackageManifest" ∧ GetComponentName r.labels = n then
        r :: resourcesNamed n L
      else resourcesNamed n L := by
  unfold resourcesNamed
  by_cases h : r.kind ≠ "PackageManifest" ∧ GetComponentName r.labels = n
  · rw [if_pos h, List.filter_cons_of_pos (by simpa using h)]
  · rw [if_neg h, List.filter_cons_of_neg (by simpa using h)]

theorem foldl_absorb_eq (L : List Unstructured) :
    ∀ c : ComponentAbstract, c.Name ≠ "" →
      L.foldl absorb c = (resourcesNamed c.Name L).foldl mergeResource c := by
  induction L with
  | nil => intro c _; rfl
  | cons r L ih =>
    intro c hc
    rw [List.foldl_cons, ih (absorb c r) (by rw [absorb_Name]; exact hc), absorb_Name,
      resourcesNamed_cons]
    by_cases h : r.kind ≠ "PackageManifest" ∧ GetComponentName r.labels = c.Name
    · have hcounts : counts r = true := by
        simp only [counts, Bool.and_eq_true, decide_eq_true_eq]
        exact ⟨h.1, by rw [h.2]; exact hc⟩
      rw [if_pos h, List.foldl_cons]
      simp [absorb, hcounts, h.2, mergeResource]
    · rw [if_neg h]
      have : absorb c r = c := by
        unfold absorb
        rw [if_neg]
        rintro ⟨h1, h2⟩
        simp only [counts, Bool.and_eq_true, decide_eq_true_eq] at h1
        exact h ⟨h1.1, h2⟩
      rw [this]

theorem resourcesNamed_filter_ne (n x : String) (hx : n ≠ x) (L : List Unstructured) :
    resourcesNamed n (L.filter (fun r => decide (GetComponentName r.labels ≠ x))) =
      resourcesNamed n L := by
  unfold resourcesNamed
  rw [List.filter_filter]
  apply List.filter_congr
  intro r _
  by_cases hr : GetComponentName r.labels = n
  · simp [hr, hx]
  · simp [hr]

theorem aggregate_Name_ne_empty (L : List Unstructured) (c : ComponentAbstract)
    (hc : c ∈ aggregate L) : c.Name ≠ "" := by
  have hmem : c.Name ∈ (aggregate L).map (fun c => c.Name) := List.mem_map_of_mem _ hc
  rw [aggregate_names, mem_firstOccurrences] at hmem
  unfold componentNames at hmem
  simpa using (List.mem_filter.1 hmem).2

theorem mem_aggregate_aux (n : Nat) :
    ∀ L : List Unstructured, L.length ≤ n → ∀ c ∈ aggregate L,
      ∃ r rs, resourcesNamed c.Name L = r :: rs ∧ c = rs.foldl mergeResource (fresh r) := by
  induction n with
  | zero =>
    intro L hL c hc
    have : L = [] := List.length_eq_zero.1 (Nat.le_zero.1 hL)
    subst this
    simp [aggregate] at hc
  | succ n ih =>
    intro L hL c hc
    cases L with
    | nil => simp [aggregate] at hc
    | cons r L =>
      have hlen : L.length ≤ n := Nat.le_of_succ_le_succ hL
      have hne : c.Name ≠ "" := aggregate_Name_ne_empty _ c hc
      cases h : counts r with
      | false =>
        rw [aggregate_cons_of_not_counts r L h] at hc
        obtain ⟨r0, rs, h1, h2⟩ := ih L hlen c hc
        refine ⟨r0, rs, ?_, h2⟩
        rw [resourcesNamed_cons, if_neg, h1]
        rintro ⟨hk, hn⟩
        simp only [counts, Bool.and_eq_false_imp, decide_eq_true_eq, decide_eq_false_iff_not,
          not_not] at h
        exact hne (by rw [← hn]; exact h hk)
      | true =>
        have hcr := h
        simp only [counts, Bool.and_eq_true, decide_eq_true_eq] at hcr
        rw [aggregate_cons_of_counts r L h] at hc
        rcases List.mem_cons.1 hc with hc | hc
        · have hname : c.Name = GetComponentName r.labels := by
            rw [hc, foldl_absorb_Name, fresh_Name]
          refine ⟨r, resourcesNamed c.Name L, ?_, ?_⟩
          · rw [resourcesNamed_cons, if_pos ⟨hcr.1, hname.symm⟩]
          · rw [hname, hc, foldl_absorb_eq L (fresh r) (by rw [fresh_Name]; exact hcr.2),
              fresh_Name]
        · obtain ⟨r0, rs, h1, h2⟩ :=
            ih _ (le_trans (List.length_filter_le _ _) hlen) c hc
          have hr0 : r0 ∈ resourcesNamed c.Name (L.filter (fun r2 =>
              decide (GetComponentName r2.labels ≠ GetComponentName r.labels))) := by
            rw [h1]; exact List.mem_cons_self _ _
          have hx : c.Name ≠ GetComponentName r.labels := by
            unfold resourcesNamed at hr0
            rw [List.mem_filter, List.mem_filter] at hr0
            obtain ⟨⟨_, hA⟩, hB⟩ := hr0
            simp only [Bool.and_eq_true, decide_eq_true_eq] at hA hB
            rw [← hB.2]; exact hA
          rw [resourcesNamed_filter_ne _ _ hx] at h1
          refine ⟨r0, rs, ?_, h2⟩
          rw [resourcesNamed_cons, if_neg, h1]
          rintro ⟨_, hn⟩
          exact hx hn.symm

theorem mem_aggregate (L : List Unstructured) (c : ComponentAbstract) (hc : c ∈ aggregate L) :
    ∃ r rs, resourcesNamed c.Name L = r :: rs ∧ c = rs.foldl mergeResource (fresh r) :=
  mem_aggregate_aux L.length L le_rfl c hc

theorem mergeResource_Typ (c : ComponentAbstract) (r : Unstructured) :
    (mergeResource c r).Typ =
      if c.Typ = TypeUnknown ∧ resourceComponentType r ≠ TypeUnknown then
        resourceComponentType r
      else c.Typ := by
  unfold mergeResource mergeInto candidate
  simp only []
  split_ifs <;> rfl

theorem mergeResource_ManagedBy (c : ComponentAbstract) (r : Unstructured) :
    (mergeResource c r).ManagedBy =
      if c.ManagedBy = TypeUnknown ∧ GetManagedBy r.labels ≠ TypeUnknown then
        GetManagedBy r.labels
      else c.ManagedBy := by
  unfold mergeResource mergeInto candidate
  simp only []
  split_ifs <;> rfl

theorem mergeResource_RunningIn (c : ComponentAbstract) (r : Unstructured) :
    (mergeResource c r).RunningIn =
      if GetMode r.labels ≠ "" then
        some (insert (strings_ToLower (GetMode r.labels)) (c.RunningIn.getD ∅))
      else c.RunningIn := by
  unfold mergeResource mergeInto candidate AddRunningMode NewRunningModes
  simp only []
  split_ifs <;> rfl

theorem resourceComponentType_eq (r : Unstructured) :
    resourceComponentType r = (knownProjectType r).getD TypeUnknown := by
  unfold resourceComponentType knownProjectType
  cases GetProjectType [] r.annotations with
  | none => rfl
  | some t =>
    by_cases h1 : t = ""
    · simp [h1]
    · by_cases h2 : t = TypeUnknown
      · simp [h1, h2]
      · simp [h1, h2]

theorem knownProjectType_ne (r : Unstructured) (t : String) (h : knownProjectType r = some t) :
    t ≠ TypeUnknown := by
  unfold knownProjectType at h
  cases hg : GetProjectType [] r.annotations with
  | none => rw [hg] at h; simp at h
  | some u =>
    rw [hg] at h
    simp only [] at h
    split_ifs at h with hu
    cases h
    exact hu.2

theorem firstKnownType_cons (r : Unstructured) (rs : List Unstructured) :
    firstKnownType (r :: rs) =
      match knownProjectType r with
      | some t => t
      | none => firstKnownType rs := by
  unfold firstKnownType
  rw [List.findSome?_cons]
  cases knownProjectType r <;> rfl

theorem foldl_mergeResource_Typ (rs : List Unstructured) :
    ∀ c : ComponentAbstract,
      (rs.foldl mergeResource c).Typ =
        if c.Typ = TypeUnknown then firstKnownType rs else c.Typ := by
  induction rs with
  | nil =>
    intro c
    by_cases h : c.Typ = TypeUnknown
    · simp [h, firstKnownType]
    · simp [h]
  | cons r rs ih =>
    intro c
    rw [List.foldl_cons, ih, mergeResource_Typ, firstKnownType_cons, resourceComponentType_eq]
    cases hk : knownProjectType r with
    | none => simp
    | some t =>
      have ht := knownProjectType_ne r t hk
      by_cases h : c.Typ = TypeUnknown
      · simp [h, ht]
      · simp [h]

theorem fresh_Typ (r : Unstructured) : (fresh r).Typ = resourceComponentType r := by
  unfold fresh
  split_ifs <;> rfl

theorem fresh_ManagedBy (r : Unstructured) : (fresh r).ManagedBy = GetManagedBy r.labels := by
  unfold fresh
  split_ifs <;> rfl

theorem fresh_RunningIn (r : Unstructured) :
    (fresh r).RunningIn =
      if GetMode r.labels ≠ "" then some {strings_ToLower (GetMode r.labels)} else none := by
  unfold fresh AddRunningMode NewRunningModes
  split_ifs <;> simp [candidate]

theorem entry_Typ (r : Unstructured) (rs : List Unstructured) :
    (rs.foldl mergeResource (fresh r)).Typ = firstKnownType (r :: rs) := by
  rw [foldl_mergeResource_Typ, fresh_Typ, firstKnownType_cons, resourceComponentType_eq]
  cases hk : knownProjectType r with
  | none => simp
  | some t => simp [knownProjectType_ne r t hk]

theorem modeLabels_cons (r : Unstructured) (rs : List Unstructured) :
    modeLabels (r :: rs) =
      if GetMode r.labels ≠ "" then strings_ToLower (GetMode r.labels) :: modeLabels rs
      else modeLabels rs := by
  unfold modeLabels
  by_cases h : GetMode r.labels = ""
  · simp [h]
  · simp [h]

theorem foldl_mergeResource_RunningIn (rs : List Unstructured) :
    ∀ c : ComponentAbstract,
      (rs.foldl mergeResource c).RunningIn =
        if modeLabels rs = [] then c.RunningIn
        else some (c.RunningIn.getD ∅ ∪ (modeLabels rs).toFinset) := by
  induction rs with
  | nil => intro c; simp [modeLabels]
  | cons r rs ih =>
    intro c
    rw [List.foldl_cons, ih, mergeResource_RunningIn, modeLabels_cons]
    by_cases h : GetMode r.labels = ""
    · simp [h]
    · simp only [ne_eq, h, not_false_eq_true, if_true, Option.getD_some, List.toFinset_cons]
      by_cases h2 : modeLabels rs = []
      · simp only [h2, if_true, List.toFinset_nil, reduceCtorEq, if_false, Option.some.injEq]
        ext x
        simp only [Finset.mem_union, Finset.mem_insert, Finset.mem_singleton,
          Finset.not_mem_empty]
        tauto
      · simp only [h2, if_false, reduceCtorEq]
        congr 1
        ext x
        simp only [Finset.mem_union, Finset.mem_insert]
        tauto

theorem entry_RunningIn (r : Unstructured) (rs : List Unstructured) :
    (rs.foldl mergeResource (fresh r)).RunningIn =
      if modeLabels (r :: rs) = [] then none else some (modeLabels (r :: rs)).toFinset := by
  rw [foldl_mergeResource_RunningIn, fresh_RunningIn, modeLabels_cons]
  by_cases h : GetMode r.labels = ""
  · by_cases h2 : modeLabels rs = []
    · simp [h, h2]
    · simp [h, h2]
  · by_cases h2 : modeLabels rs = []
    · simp [h, h2]
    · simp only [ne_eq, h, not_false_eq_true, if_true, h2, if_false, Option.getD_some,
        List.toFinset_cons, reduceCtorEq]
      congr 1

theorem mergeResource_Name (c : ComponentAbstract) (r : Unstructured) :
    (mergeResource c r).Name = c.Name := mergeInto_Name _ _ _

theorem mergeResource_ManagedByVersion (c : ComponentAbstract) (r : Unstructured) :
    (mergeResource c r).ManagedByVersion = c.ManagedByVersion := by
  unfold mergeResource mergeInto
  simp only []
  split_ifs <;> rfl

theorem mergeResource_RunningOn (c : ComponentAbstract) (r : Unstructured) :
    (mergeResource c r).RunningOn = c.RunningOn := by
  unfold mergeResource mergeInto
  simp only []
  split_ifs <;> rfl

theorem mergeResource_fixed_iff (c : ComponentAbstract) (r : Unstructured) :
    mergeResource c r = c ↔
      (GetMode r.labels ≠ "" →
        ∃ s, c.RunningIn = some s ∧ strings_ToLower (GetMode r.labels) ∈ s) ∧
      ¬ (c.Typ = TypeUnknown ∧ resourceComponentType r ≠ TypeUnknown) ∧
      ¬ (c.ManagedBy = TypeUnknown ∧ GetManagedBy r.labels ≠ TypeUnknown) := by
  rw [ComponentAbstract.ext_iff, mergeResource_Name, mergeResource_ManagedBy,
    mergeResource_ManagedByVersion, mergeResource_RunningIn, mergeResource_Typ,
    mergeResource_RunningOn]
  constructor
  · rintro ⟨_, hm, _, hr, ht, _⟩
    refine ⟨?_, ?_, ?_⟩
    · intro hmode
      rw [if_pos hmode] at hr
      cases hri : c.RunningIn with
      | none => rw [hri] at hr; simp at hr
      | some s =>
        rw [hri] at hr
        simp only [Option.getD_some, Option.some.injEq] at hr
        exact ⟨s, rfl, by rw [← hr]; exact Finset.mem_insert_self _ _⟩
    · intro hc
      rw [if_pos hc] at ht
      exact hc.2 (by rw [ht]; exact hc.1)
    · intro hc
      rw [if_pos hc] at hm
      exact hc.2 (by rw [hm]; exact hc.1)
  · rintro ⟨hr, ht, hm⟩
    refine ⟨rfl, by rw [if_neg hm], rfl, ?_, by rw [if_neg ht], rfl⟩
    by_cases hmode : GetMode r.labels = ""
    · simp [hmode]
    · obtain ⟨s, hs, hmem⟩ := hr hmode
      simp [hmode, hs, Finset.insert_eq_of_mem hmem]

theorem mergeResource_idem (c : ComponentAbstract) (r : Unstructured) :
    mergeResource (mergeResource c r) r = mergeResource c r := by
  rw [mergeResource_fixed_iff, mergeResource_RunningIn, mergeResource_Typ,
    mergeResource_ManagedBy]
  refine ⟨?_, ?_, ?_⟩
  · intro hmode
    rw [if_pos hmode]
    exact ⟨_, rfl, Finset.mem_insert_self _ _⟩
  · split_ifs with h
    · exact fun hc => hc.2 hc.1
    · exact h
  · split_ifs with h
    · exact fun hc => hc.2 hc.1
    · exact h

theorem mergeResource_fresh (r : Unstructured) : mergeResource (fresh r) r = fresh r := by
  rw [mergeResource_fixed_iff, fresh_RunningIn, fresh_Typ, fresh_ManagedBy]
  refine ⟨?_, fun hc => hc.2 hc.1, fun hc => hc.2 hc.1⟩
  intro hmode
  rw [if_pos hmode]
  exact ⟨_, rfl, Finset.mem_singleton_self _⟩

theorem mergeResource_fixed_mono (c : ComponentAbstract) (r r2 : Unstructured)
    (h : mergeResource c r = c) :
    mergeResource (mergeResource c r2) r = mergeResource c r2 := by
  rw [mergeResource_fixed_iff] at h ⊢
  obtain ⟨hr, ht, hm⟩ := h
  rw [mergeResource_RunningIn, mergeResource_Typ, mergeResource_ManagedBy]
  refine ⟨?_, ?_, ?_⟩
  · intro hmode
    obtain ⟨s, hs, hmem⟩ := hr hmode
    split_ifs
    · exact ⟨_, rfl, by rw [hs]; exact Finset.mem_insert_of_mem hmem⟩
    · exact ⟨s, hs, hmem⟩
  · split_ifs with h2
    · rintro ⟨h3, h4⟩
      exact ht ⟨h2.1, h4⟩
    · exact ht
  · split_ifs with h2
    · rintro ⟨h3, h4⟩
      exact hm ⟨h2.1, h4⟩
    · exact hm

theorem clusterStep_of_settled (S : List ComponentAbstract) (r : Unstructured)
    (h : Settled S r) : clusterStep S r = S := by
  rcases h with h | ⟨⟨c, hc, hname⟩, hfix⟩
  · exact clusterStep_of_not_counts S r h
  · cases hcounts : counts r with
    | false => exact clusterStep_of_not_counts S r hcounts
    | true =>
      rw [clusterStep_of_counts S r hcounts, if_pos]
      · conv_rhs => rw [← List.map_id S]
        apply List.map_congr_left
        intro c2 hc2
        split_ifs with hn
        · exact hfix c2 hc2 hn.symm
        · rfl
      · rw [List.any_eq_true]
        exact ⟨c, hc, by simp [hname]⟩

theorem settled_clusterStep_self (S : List ComponentAbstract) (r : Unstructured) :
    Settled (clusterStep S r) r := by
  cases hcounts : counts r with
  | false => exact Or.inl hcounts
  | true =>
    right
    rw [clusterStep_of_counts S r hcounts]
    by_cases hany : S.any (fun c => decide (GetComponentName r.labels = c.Name)) = true
    · rw [if_pos hany]
      obtain ⟨c, hc, hname⟩ := List.any_eq_true.1 hany
      simp only [decide_eq_true_eq] at hname
      constructor
      · refine ⟨mergeResource c r, List.mem_map.2 ⟨c, hc, by simp [hname, mergeResource]⟩, ?_⟩
        rw [mergeResource_Name, hname]
      · intro c2 hc2 hn2
        obtain ⟨c0, _, rfl⟩ := List.mem_map.1 hc2
        by_cases hn0 : GetComponentName r.labels = c0.Name
        · simp only [hn0, if_true]
          exact mergeResource_idem c0 r
        · simp only [hn0, if_false] at hn2
          exact absurd hn2.symm hn0
    · rw [if_neg hany]
      have hnot : ∀ c ∈ S, c.Name ≠ GetComponentName r.labels := by
        intro c hc hn
        exact hany (List.any_eq_true.2 ⟨c, hc, by simp [hn]⟩)
      rw [map_merge_of_not_mem S r hnot]
      constructor
      · exact ⟨fresh r, by simp, fresh_Name r⟩
      · intro c hc hn
        rcases List.mem_append.1 hc with hc | hc
        · exact absurd hn (hnot c hc)
        · rw [List.mem_singleton] at hc
          rw [hc]
          exact mergeResource_fresh r

theorem settled_clusterStep_other (S : List ComponentAbstract) (r r2 : Unstructured)
    (h : Settled S r) : Settled (clusterStep S r2) r := by
  rcases h with h | ⟨⟨c, hc, hname⟩, hfix⟩
  · exact Or.inl h
  · right
    cases hcounts : counts r2 with
    | false => rw [clusterStep_of_not_counts S r2 hcounts]; exact ⟨⟨c, hc, hname⟩, hfix⟩
    | true =>
      rw [clusterStep_of_counts S r2 hcounts]
      have hmap : (∃ c ∈ S.map (fun c => if GetComponentName r2.labels = c.Name then
            mergeInto (candidate r2) (GetMode r2.labels) c else c),
            c.Name = GetComponentName r.labels) ∧
          ∀ c ∈ S.map (fun c => if GetComponentName r2.labels = c.Name then
            mergeInto (candidate r2) (GetMode r2.labels) c else c),
            c.Name = GetComponentName r.labels → mergeResource c r = c := by
        constructor
        · refine ⟨_, List.mem_map.2 ⟨c, hc, rfl⟩, ?_⟩
          split_ifs
          · rw [mergeInto_Name, hname]
          · exact hname
        · intro c2 hc2 hn2
          obtain ⟨c0, hc0, rfl⟩ := List.mem_map.1 hc2
          split_ifs at hn2 ⊢ with hn0
          · rw [mergeInto_Name] at hn2
            exact mergeResource_fixed_mono c0 r r2 (hfix c0 hc0 hn2)
          · exact hfix c0 hc0 hn2
      split_ifs with hany
      · exact hmap
      · have hnot : ∀ c ∈ S, c.Name ≠ GetComponentName r2.labels := by
          intro c hc hn
          exact hany (List.any_eq_true.2 ⟨c, hc, by simp [hn]⟩)
        have hne : GetComponentName r.labels ≠ GetComponentName r2.labels := by
          rw [← hname]; exact hnot c hc
        constructor
        · obtain ⟨c1, hc1, hn1⟩ := hmap.1
          exact ⟨c1, List.mem_append_left _ hc1, hn1⟩
        · intro c2 hc2 hn2
          rcases List.mem_append.1 hc2 with hc2 | hc2
          · exact hmap.2 c2 hc2 hn2
          · rw [List.mem_singleton] at hc2
            rw [hc2, fresh_Name] at hn2
            exact absurd hn2.symm hne

theorem settled_foldl (L : List Unstructured) (S : List ComponentAbstract) :
    ∀ r ∈ L, Settled (L.foldl clusterStep S) r := by
  induction L using List.reverseRecOn with
  | nil => intro r hr; simp at hr
  | append_singleton L x ih =>
    intro r hr
    rw [List.foldl_append, List.foldl_cons, List.foldl_nil]
    rcases List.mem_append.1 hr with hr | hr
    · exact settled_clusterStep_other _ r x (ih r hr)
    · rw [List.mem_singleton] at hr
      rw [hr]
      exact settled_clusterStep_self _ x

theorem foldl_of_settled (M : List Unstructured) (S : List ComponentAbstract)
    (h : ∀ r ∈ M, Settled S r) : M.foldl clusterStep S = S := by
  induction M with
  | nil => rfl
  | cons m M ih =>
    rw [List.foldl_cons, clusterStep_of_settled S m (h m (List.mem_cons_self _ _))]
    exact ih (fun r hr => h r (List.mem_cons_of_mem _ hr))

theorem aggregate_append_self (L : List Unstructured) : aggregate (L ++ L) = aggregate L := by
  unfold aggregate
  rw [List.foldl_append]
  exact foldl_of_settled L _ (settled_foldl L [])

theorem ListAllClusterComponents_ok (client : ClientInterface) (namespace_ : String)
    (resourceList : List Unstructured)
    (h : client.GetAllResourcesFromSelector "" namespace_ = .ok resourceList) :
    ListAllClusterComponents client namespace_ = .ok (aggregate resourceList) := by
  unfold ListAllClusterComponents
  rw [h]

theorem firstKnownType_append (A B : List Unstructured) :
    firstKnownType (A ++ B) =
      if firstKnownType A = TypeUnknown then firstKnownType B else firstKnownType A := by
  induction A with
  | nil => simp [firstKnownType]
  | cons a A ih =>
    rw [List.cons_append, firstKnownType_cons, firstKnownType_cons]
    cases hk : knownProjectType a with
    | none => exact ih
    | some t => simp [knownProjectType_ne a t hk]

theorem resourcesNamed_append (n : String) (A B : List Unstructured) :
    resourcesNamed n (A ++ B) = resourcesNamed n A ++ resourcesNamed n B := by
  unfold resourcesNamed
  rw [List.filter_append]

theorem aggregate_Typ (L : List Unstructured) (c : ComponentAbstract) (hc : c ∈ aggregate L) :
    c.Typ = firstKnownType (resourcesNamed c.Name L) := by
  obtain ⟨r, rs, h1, h2⟩ := mem_aggregate L c hc
  rw [h1]
  conv_lhs => rw [h2]
  exact entry_Typ r rs

theorem aggregate_RunningIn (L : List Unstructured) (c : ComponentAbstract)
    (hc : c ∈ aggregate L) :
    c.RunningIn =
      if modeLabels (resourcesNamed c.Name L) = [] then none
      else some (modeLabels (resourcesNamed c.Name L)).toFinset := by
  obtain ⟨r, rs, h1, h2⟩ := mem_aggregate L c hc
  rw [h1]
  conv_lhs => rw [h2]
  exact entry_RunningIn r rs

/-! ## The claims on `ListAllClusterComponents` -/

/-- C1: for every list of resources returned by the cluster query, the list returned by
`ListAllClusterComponents` contains no two entries with the same `Name`. -/
theorem ListAllClusterComponents_no_duplicate_name (client : ClientInterface)
    (namespace_ : String) (resourceList : List Unstructured)
    (h : client.GetAllResourcesFromSelector "" namespace_ = .ok resourceList) :
    ∃ components, ListAllClusterComponents client namespace_ = .ok components ∧
      components.Pairwise (fun a b => a.Name ≠ b.Name) := by
  refine ⟨aggregate resourceList, ListAllClusterComponents_ok client namespace_ _ h, ?_⟩
  have hnodup : ((aggregate resourceList).map (fun c => c.Name)).Nodup := by
    rw [aggregate_names]
    exact firstOccurrences_nodup _
  exact List.pairwise_map.1 hnodup

/-- Witness of C1 on the two resources of the component `app1`. -/
theorem ListAllClusterComponents_no_duplicate_name_witness :
    (clientListing app1Resources).GetAllResourcesFromSelector "" "ns" = .ok app1Resources ∧
    ∃ components, ListAllClusterComponents (clientListing app1Resources) "ns" = .ok components ∧
      components.Pairwise (fun a b => a.Name ≠ b.Name) :=
  ⟨rfl, ListAllClusterComponents_no_duplicate_name (clientListing app1Resources) "ns"
    app1Resources rfl⟩

/-- C2: for every resource list `L`, `ListAllClusterComponents` applied to `L ++ L` returns
the same component list as applied to `L` alone: no entry added, no field changed. -/
theorem ListAllClusterComponents_twice (client client2 : ClientInterface)
    (namespace_ : String) (resourceList : List Unstructured)
    (h : client.GetAllResourcesFromSelector "" namespace_ = .ok resourceList)
    (h2 : client2.GetAllResourcesFromSelector "" namespace_ = .ok (resourceList ++ resourceList)) :
    ∃ components, ListAllClusterComponents client namespace_ = .ok components ∧
      ListAllClusterComponents client2 namespace_ = .ok components := by
  refine ⟨aggregate resourceList, ListAllClusterComponents_ok client namespace_ _ h, ?_⟩
  rw [ListAllClusterComponents_ok client2 namespace_ _ h2, aggregate_append_self]

/-- Witness of C2 on the two resources of the component `app1`. -/
theorem ListAllClusterComponents_twice_witness :
    (clientListing app1Resources).GetAllResourcesFromSelector "" "ns" = .ok app1Resources ∧
    (clientListing (app1Resources ++ app1Resources)).GetAllResourcesFromSelector "" "ns" =
      .ok (app1Resources ++ app1Resources) ∧
    ∃ components, ListAllClusterComponents (clientListing app1Resources) "ns" = .ok components ∧
      ListAllClusterComponents (clientListing (app1Resources ++ app1Resources)) "ns" =
        .ok components :=
  ⟨rfl, rfl, ListAllClusterComponents_twice (clientListing app1Resources)
    (clientListing (app1Resources ++ app1Resources)) "ns" app1Resources rfl rfl⟩

/-- C3, as stated, fails: a `PackageManifest` that carries the name `app1` and the type
"nodejs" comes first, yet the entry listed for `app1` has the type "go" of the Deployment
that follows it. -/
theorem ListAllClusterComponents_type_counterexample :
    ListAllClusterComponents (clientListing catalogResources) "ns" =
      .ok [{ Name := "app1", ManagedBy := "", ManagedByVersion := "",
             RunningIn := some {"deploy"}, Typ := "go", RunningOn := "cluster" }] ∧
    firstKnownType (carrying "app1" catalogResources) = "nodejs" ∧
    ¬ ∀ c ∈ aggregate catalogResources,
      c.Typ = firstKnownType (carrying c.Name catalogResources) := by
  decide

/-- C3, amended: for every resource list and every component in the output of
`ListAllClusterComponents`, `Typ` is the project type of the first resource, other than a
`PackageManifest`, carrying that name whose project type is readable, non-empty and not
"Unknown", and is "Unknown" when there is no such resource; and once an entry has a
resolved type, one more resource at the end of the list, whatever its type, leaves the
type of that component as it was. -/
theorem ListAllClusterComponents_type (client : ClientInterface) (namespace_ : String)
    (resourceList : List Unstructured)
    (h : client.GetAllResourcesFromSelector "" namespace_ = .ok resourceList) :
    ListAllClusterComponents client namespace_ = .ok (aggregate resourceList) ∧
    ∀ c ∈ aggregate resourceList,
      c.Typ = firstKnownType (resourcesNamed c.Name resourceList) ∧
      ∀ (later : Unstructured) (c2 : ComponentAbstract),
        c2 ∈ aggregate (resourceList ++ [later]) → c2.Name = c.Name →
        c.Typ ≠ TypeUnknown → c2.Typ = c.Typ := by
  refine ⟨ListAllClusterComponents_ok client namespace_ _ h, ?_⟩
  intro c hc
  refine ⟨aggregate_Typ _ c hc, ?_⟩
  intro later c2 hc2 hname hknown
  rw [aggregate_Typ _ c2 hc2, hname, resourcesNamed_append, firstKnownType_append,
    ← aggregate_Typ _ c hc, if_neg hknown]

/-- Witness of the amended C3 on the two resources of the component `app1`. -/
theorem ListAllClusterComponents_type_witness :
    (clientListing app1Resources).GetAllResourcesFromSelector "" "ns" = .ok app1Resources ∧
    (ListAllClusterComponents (clientListing app1Resources) "ns" =
      .ok (aggregate app1Resources) ∧
    ∀ c ∈ aggregate app1Resources,
      c.Typ = firstKnownType (resourcesNamed c.Name app1Resources) ∧
      ∀ (later : Unstructured) (c2 : ComponentAbstract),
        c2 ∈ aggregate (app1Resources ++ [later]) → c2.Name = c.Name →
        c.Typ ≠ TypeUnknown → c2.Typ = c.Typ) :=
  ⟨rfl, ListAllClusterComponents_type (clientListing app1Resources) "ns" app1Resources rfl⟩

/-- C4, as stated, fails: a `PackageManifest` that carries the name `app1` is labelled
with the mode dev, yet the entry listed for `app1` runs in deploy only. -/
theorem ListAllClusterComponents_modes_counterexample :
    ListAllClusterComponents (clientListing catalogResources) "ns" =
      .ok [{ Name := "app1", ManagedBy := "", ManagedByVersion := "",
             RunningIn := some {"deploy"}, Typ := "go", RunningOn := "cluster" }] ∧
    modeLabels (carrying "app1" catalogResources) = ["dev", "deploy"] ∧
    "dev" ∉ ({"deploy"} : Finset String) ∧
    ¬ ∀ c ∈ aggregate catalogResources, ∀ m ∈ modeLabels (carrying c.Name catalogResources),
      ∃ s, c.RunningIn = some s ∧ m ∈ s := by
  refine ⟨by decide, by decide, by decide, ?_⟩
  intro h
  obtain ⟨s, hs, hm⟩ := h _ (List.mem_singleton_self _) "dev" (by decide)
  have hs2 : s = {"deploy"} := by
    have : some ({"deploy"} : Finset String) = some s := by rw [← hs]; rfl
    exact (Option.some.inj this).symm
  rw [hs2] at hm
  exact absurd hm (by decide)

/-- C4, amended: for every resource list and every component in the output of
`ListAllClusterComponents`, `RunningIn` holds exactly the lower-cased non-empty mode labels
of the resources, other than `PackageManifest` ones, carrying that name (it is nil when
there is none); in particular two resources of one component labelled dev and deploy, in
lower case or capitalised as odo writes them (`Dev`, `Deploy`), observed in either order,
give exactly the set {dev, deploy}, and a resource labelled `Dev` or `Deploy` always puts
the lower-case mode `dev` or `deploy` in the set of its component. -/
theorem ListAllClusterComponents_modes (client : ClientInterface) (namespace_ : String)
    (resourceList : List Unstructured)
    (h : client.GetAllResourcesFromSelector "" namespace_ = .ok resourceList) :
    ListAllClusterComponents client namespace_ = .ok (aggregate resourceList) ∧
    (∀ c ∈ aggregate resourceList,
      c.RunningIn =
        if modeLabels (resourcesNamed c.Name resourceList) = [] then none
        else some (modeLabels (resourcesNamed c.Name resourceList)).toFinset) ∧
    (∀ r1 r2 : Unstructured, counts r1 = true → counts r2 = true →
      GetComponentName r1.labels = GetComponentName r2.labels →
      GetMode r1.labels = "dev" ∨ GetMode r1.labels = "Dev" →
      GetMode r2.labels = "deploy" ∨ GetMode r2.labels = "Deploy" →
      (aggregate [r1, r2]).map (fun c => c.RunningIn) = [some {"dev", "deploy"}] ∧
      (aggregate [r2, r1]).map (fun c => c.RunningIn) = [some {"dev", "deploy"}]) ∧
    ∀ c ∈ aggregate resourceList, ∀ r ∈ resourcesNamed c.Name resourceList,
      (GetMode r.labels = "Dev" → ∃ modes, c.RunningIn = some modes ∧ "dev" ∈ modes) ∧
      (GetMode r.labels = "Deploy" → ∃ modes, c.RunningIn = some modes ∧ "deploy" ∈ modes) := by
  have hdev : strings_ToLower "dev" = "dev" := by decide
  have hdeploy : strings_ToLower "deploy" = "deploy" := by decide
  have hDev : strings_ToLower "Dev" = "dev" := by decide
  have hDeploy : strings_ToLower "Deploy" = "deploy" := by decide
  refine ⟨ListAllClusterComponents_ok client namespace_ _ h,
    fun c hc => aggregate_RunningIn _ c hc, ?_, ?_⟩
  · intro r1 r2 h1 h2 hname hm1 hm2
    have hne1 : GetMode r1.labels ≠ "" := by
      rcases hm1 with hm1 | hm1 <;> rw [hm1] <;> decide
    have hne2 : GetMode r2.labels ≠ "" := by
      rcases hm2 with hm2 | hm2 <;> rw [hm2] <;> decide
    have hl1 : strings_ToLower (GetMode r1.labels) = "dev" := by
      rcases hm1 with hm1 | hm1 <;> rw [hm1]
      · exact hdev
      · exact hDev
    have hl2 : strings_ToLower (GetMode r2.labels) = "deploy" := by
      rcases hm2 with hm2 | hm2 <;> rw [hm2]
      · exact hdeploy
      · exact hDeploy
    constructor
    · rw [aggregate_cons_of_counts r1 _ h1]
      simp only [List.filter_cons, hname, ne_eq, not_true_eq_false, decide_False,
        List.filter_nil, Bool.false_eq_true, if_false, aggregate_nil, List.map_cons,
        List.map_nil, List.foldl_cons, List.foldl_nil]
      have : absorb (fresh r1) r2 = mergeResource (fresh r1) r2 := by
        simp [absorb, h2, fresh_Name, hname, mergeResource]
      rw [this, mergeResource_RunningIn, fresh_RunningIn, if_pos hne1, if_pos hne2,
        hl1, hl2, Option.getD_some, Finset.pair_comm]
    · rw [aggregate_cons_of_counts r2 _ h2]
      simp only [List.filter_cons, hname, ne_eq, not_true_eq_false, decide_False,
        List.filter_nil, Bool.false_eq_true, if_false, aggregate_nil, List.map_cons,
        List.map_nil, List.foldl_cons, List.foldl_nil]
      have : absorb (fresh r2) r1 = mergeResource (fresh r2) r1 := by
        simp [absorb, h1, fresh_Name, hname, mergeResource]
      rw [this, mergeResource_RunningIn, fresh_RunningIn, if_pos hne1, if_pos hne2,
        hl1, hl2, Option.getD_some]
  · intro c hc r hr
    have hrun := aggregate_RunningIn _ c hc
    have hmem : ∀ m : String, m ≠ "" → GetMode r.labels = m →
        ∃ modes, c.RunningIn = some modes ∧ strings_ToLower m ∈ modes := by
      intro m hm hrm
      have hin : strings_ToLower m ∈ modeLabels (resourcesNamed c.Name resourceList) := by
        unfold modeLabels
        refine List.mem_map.2 ⟨m, List.mem_filter.2 ⟨List.mem_map.2 ⟨r, hr, hrm⟩, ?_⟩, rfl⟩
        simpa using hm
      have hne : modeLabels (resourcesNamed c.Name resourceList) ≠ [] :=
        List.ne_nil_of_mem hin
      rw [if_neg hne] at hrun
      exact ⟨_, hrun, List.mem_toFinset.2 hin⟩
    constructor
    · intro hm
      have := hmem "Dev" (by decide) hm
      rwa [hDev] at this
    · intro hm
      have := hmem "Deploy" (by decide) hm
      rwa [hDeploy] at this

/-- Witness of the amended C4 on the two resources of the component `app1`, labelled
`Dev` and `Deploy`: the listing shows the component running in exactly {dev, deploy}. -/
theorem ListAllClusterComponents_modes_witness :
    (clientListing capitalResources).GetAllResourcesFromSelector "" "ns" =
      .ok capitalResources ∧
    ListAllClusterComponents (clientListing capitalResources) "ns" =
      .ok (aggregate capitalResources) ∧
    (aggregate capitalResources).map (fun c => c.Name) = ["app1"] ∧
    (aggregate capitalResources).map (fun c => c.RunningIn) = [some {"dev", "deploy"}] ∧
    (aggregate capitalResources.reverse).map (fun c => c.RunningIn) =
      [some {"dev", "deploy"}] :=
  ⟨rfl,
    (ListAllClusterComponents_modes (clientListing capitalResources) "ns"
      capitalResources rfl).1,
    by decide,
    ((ListAllClusterComponents_modes (clientListing capitalResources) "ns"
      capitalResources rfl).2.2.1 capitalDeployment capitalService (by decide) (by decide)
      (by decide) (Or.inr (by decide)) (Or.inr (by decide))).1,
    ((ListAllClusterComponents_modes (clientListing capitalResources) "ns"
      capitalResources rfl).2.2.1 capitalDeployment capitalService (by decide) (by decide)
      (by decide) (Or.inr (by decide)) (Or.inr (by decide))).2⟩

/-- C5: for every resource list, the sequence of `Name`s in the output of
`ListAllClusterComponents` is exactly the sequence of distinct non-empty component-name
labels of the resources whose kind is not "PackageManifest", in order of first occurrence;
a `PackageManifest` resource or a resource without a component-name label contributes
nothing to the output. -/
theorem ListAllClusterComponents_names (client : ClientInterface) (namespace_ : String)
    (resourceList : List Unstructured)
    (h : client.GetAllResourcesFromSelector "" namespace_ = .ok resourceList) :
    ∃ components, ListAllClusterComponents client namespace_ = .ok components ∧
      components.map (fun c => c.Name) = firstOccurrences (componentNames resourceList) ∧
      ∀ (before after : List Unstructured) (r : Unstructured),
        resourceList = before ++ r :: after →
        (r.kind = "PackageManifest" ∨ GetComponentName r.labels = "") →
        components = aggregate (before ++ after) := by
  refine ⟨aggregate resourceList, ListAllClusterComponents_ok client namespace_ _ h,
    aggregate_names _, ?_⟩
  intro before after r hL hr
  rw [hL]
  apply aggregate_append_cons_of_not_counts
  unfold counts
  rcases hr with hr | hr
  · simp [hr]
  · simp [hr]

/-- Witness of C5 on a catalog record followed by a Deployment of the same name. -/
theorem ListAllClusterComponents_names_witness :
    (clientListing catalogResources).GetAllResourcesFromSelector "" "ns" = .ok catalogResources ∧
    ∃ components, ListAllClusterComponents (clientListing catalogResources) "ns" =
        .ok components ∧
      components.map (fun c => c.Name) = firstOccurrences (componentNames catalogResources) ∧
      ∀ (before after : List Unstructured) (r : Unstructured),
        catalogResources = before ++ r :: after →
        (r.kind = "PackageManifest" ∨ GetComponentName r.labels = "") →
        components = aggregate (before ++ after) :=
  ⟨rfl, ListAllClusterComponents_names (clientListing catalogResources) "ns"
    catalogResources rfl⟩

/-- C6, at the failing input: the first resource of `app1` has no managed-by label and the
second is managed by "odo", yet the entry listed for `app1` keeps an empty `ManagedBy`. -/
theorem ListAllClusterComponents_managedBy_not_upgraded :
    ListAllClusterComponents (clientListing managedLaterResources) "ns" =
      .ok [{ Name := "app1", ManagedBy := "", ManagedByVersion := "", RunningIn := none,
             Typ := "Unknown", RunningOn := "cluster" }] := by
  decide

/-! ## Lemmas on the binding package -/

theorem IsStatusConditionTrue_eq_find (conditions : List Condition) (conditionType : String) :
    IsStatusConditionTrue conditions conditionType =
      match FindStatusCondition conditions conditionType with
      | some c => decide (c.Status = ConditionTrue)
      | none => false := by
  induction conditions with
  | nil => rfl
  | cons c rest ih =>
    unfold IsStatusConditionTrue FindStatusCondition
    by_cases h : c.Typ = conditionType
    · simp [h, List.find?_cons]
    · simp only [h, if_false, List.find?_cons, decide_False]
      exact ih

theorem IsStatusConditionTrue_of_not_true (conditions : List Condition)
    (h : ∀ c, FindStatusCondition conditions InjectionReady = some c →
      c.Status ≠ ConditionTrue) :
    IsStatusConditionTrue conditions InjectionReady = false := by
  rw [IsStatusConditionTrue_eq_find]
  cases hf : FindStatusCondition conditions InjectionReady with
  | none => rfl
  | some c => simpa using h c hf

theorem bindingListDone_iff (deploymentName : String) (l : List BindingServiceBinding) :
    bindingListDone deploymentName l = true ↔
      ∀ b ∈ l, targetsDeployment b.Application deploymentName →
        IsStatusConditionTrue b.Conditions InjectionReady = true := by
  induction l with
  | nil => simp [bindingListDone]
  | cons b rest ih =>
    rw [List.forall_mem_cons, ← ih]
    conv_lhs => rw [bindingListDone]
    unfold targetsDeployment
    split_ifs with h1 h2 h3
    · constructor
      · intro h
        refine ⟨?_, h⟩
        rintro ⟨g, v, k, _⟩
        rcases h1 with h1 | h1 | h1
        · exact absurd g h1
        · exact absurd v h1
        · rcases k with k | k
          · exact absurd k h1.1
          · exact absurd k h1.2
      · exact fun h => h.2
    · constructor
      · intro h
        exact ⟨fun ht => absurd ht.2.2.2 h2, h⟩
      · exact fun h => h.2
    · constructor
      · intro h; exact absurd h (by simp)
      · intro h
        have hready := h.1 (by
          simp only [not_or, not_and, not_not, ne_eq] at h1 h2
          obtain ⟨g, v, k⟩ := h1
          exact ⟨g, v, by by_cases hk : b.Application.Kind = "Deployment"
                          · exact Or.inl hk
                          · exact Or.inr (k hk), h2⟩)
        rw [hready] at h3
        simp at h3
    · constructor
      · intro h
        refine ⟨fun _ => ?_, h⟩
        simpa using h3
      · exact fun h => h.2

theorem specListDone_iff (deploymentName : String) (l : List SpecServiceBinding) :
    specListDone deploymentName l = true ↔
      ∀ b ∈ l, workloadTargetsDeployment b.Workload deploymentName →
        IsStatusConditionTrue b.Conditions InjectionReady = true := by
  induction l with
  | nil => simp [specListDone]
  | cons b rest ih =>
    rw [List.forall_mem_cons, ← ih]
    conv_lhs => rw [specListDone]
    unfold workloadTargetsDeployment
    split_ifs with h1 h2 h3
    · constructor
      · intro h
        refine ⟨?_, h⟩
        rintro ⟨a, k, _⟩
        rcases h1 with h1 | h1
        · exact absurd a h1
        · exact absurd k h1
      · exact fun h => h.2
    · constructor
      · intro h
        exact ⟨fun ht => absurd ht.2.2 h2, h⟩
      · exact fun h => h.2
    · constructor
      · intro h; exact absurd h (by simp)
      · intro h
        have hready := h.1 (by
          simp only [not_or, not_not, ne_eq] at h1 h2
          exact ⟨h1.1, h1.2, h2⟩)
        rw [hready] at h3
        simp at h3
    · constructor
      · intro h
        refine ⟨fun _ => ?_, h⟩
        simpa using h3
      · exact fun h => h.2

/-! ## The claims on the binding package -/

/-- C7: `CheckServiceBindingsInjectionDone` returns (true, no error) when the component's
deployment does not exist (the lookup fails with `DeploymentNotFoundError`), and returns
(true, no error) when listing the service bindings fails because the ServiceBinding kinds
are not registered on the cluster. -/
theorem CheckServiceBindingsInjectionDone_vacuous (client : ClientInterface)
    (componentName appName : String) :
    (∀ err, client.GetOneDeployment componentName appName true = .error err →
      err.IsDeploymentNotFoundError = true →
      CheckServiceBindingsInjectionDone client componentName appName = (true, none)) ∧
    (∀ deployment err, client.GetOneDeployment componentName appName true = .ok deployment →
      client.ListServiceBindingsFromAllGroups = .error err →
      err.IsNotRegisteredError = true →
      CheckServiceBindingsInjectionDone client componentName appName = (true, none)) := by
  constructor
  · intro err h1 h2
    unfold CheckServiceBindingsInjectionDone
    rw [h1]
    simp [h2]
  · intro deployment err h1 h2 h3
    unfold CheckServiceBindingsInjectionDone
    rw [h1]
    simp only []
    rw [h2]
    simp [h3]

/-- Witness of C7: a cluster without the deployment, and a cluster with the deployment and
without the ServiceBinding kinds. -/
theorem CheckServiceBindingsInjectionDone_vacuous_witness :
    (noDeploymentClient.GetOneDeployment "backend" "app" true =
        .error (.deploymentNotFound "no deployment") ∧
      CheckServiceBindingsInjectionDone noDeploymentClient "backend" "app" = (true, none)) ∧
    (noBindingKindClient.GetOneDeployment "backend" "app" true = .ok { Name := "backend-app" } ∧
      noBindingKindClient.ListServiceBindingsFromAllGroups =
        .error (.notRegistered "ServiceBinding") ∧
      CheckServiceBindingsInjectionDone noBindingKindClient "backend" "app" = (true, none)) :=
  ⟨⟨rfl, (CheckServiceBindingsInjectionDone_vacuous noDeploymentClient "backend" "app").1
      (.deploymentNotFound "no deployment") rfl rfl⟩,
    ⟨rfl, rfl, (CheckServiceBindingsInjectionDone_vacuous noBindingKindClient "backend" "app").2
      { Name := "backend-app" } (.notRegistered "ServiceBinding") rfl rfl rfl⟩⟩

/-- C8, as stated, fails: the only binding names the deployment by resource
("deployments") and declares no kind, so no binding matches by group, version, kind and
name and every such binding is ready, yet the result is false. -/
theorem CheckServiceBindingsInjectionDone_counterexample :
    byResourceClient.GetOneDeployment "backend" "app" true = .ok { Name := "backend-app" } ∧
    byResourceClient.ListServiceBindingsFromAllGroups = .ok ([], [byResourceBinding]) ∧
    (∀ b ∈ [byResourceBinding], targetsDeploymentByKind b.Application "backend-app" →
      IsStatusConditionTrue b.Conditions InjectionReady = true) ∧
    CheckServiceBindingsInjectionDone byResourceClient "backend" "app" = (false, none) ∧
    ¬ ((CheckServiceBindingsInjectionDone byResourceClient "backend" "app").1 = true ↔
      (∀ b ∈ [byResourceBinding], targetsDeploymentByKind b.Application "backend-app" →
        IsStatusConditionTrue b.Conditions InjectionReady = true) ∧
      (∀ b ∈ ([] : List SpecServiceBinding),
        workloadTargetsDeployment b.Workload "backend-app" →
        IsStatusConditionTrue b.Conditions InjectionReady = true)) := by
  decide

/-- C8, amended: when the deployment exists and both binding lists are obtained,
`CheckServiceBindingsInjectionDone` returns no error, and true if and only if every
binding of either variant whose declared target matches the deployment has its
`InjectionReady` condition true, where the first variant matches on group apps, version v1,
kind Deployment or resource deployments, and the deployment's name, and the second on API
version apps/v1, kind Deployment and the deployment's name; bindings targeting another
workload never affect the result. -/
theorem CheckServiceBindingsInjectionDone_iff (client : ClientInterface)
    (componentName appName : String) (deployment : Deployment)
    (specList : List SpecServiceBinding) (bindingList : List BindingServiceBinding)
    (hd : client.GetOneDeployment componentName appName true = .ok deployment)
    (hl : client.ListServiceBindingsFromAllGroups = .ok (specList, bindingList)) :
    ∃ done, CheckServiceBindingsInjectionDone client componentName appName = (done, none) ∧
      (done = true ↔
        (∀ b ∈ bindingList, targetsDeployment b.Application deployment.Name →
          IsStatusConditionTrue b.Conditions InjectionReady = true) ∧
        (∀ b ∈ specList, workloadTargetsDeployment b.Workload deployment.Name →
          IsStatusConditionTrue b.Conditions InjectionReady = true)) := by
  rw [← bindingListDone_iff, ← specListDone_iff]
  unfold CheckServiceBindingsInjectionDone
  rw [hd]
  simp only []
  rw [hl]
  simp only []
  cases h1 : bindingListDone deployment.Name bindingList with
  | false => exact ⟨false, by simp, by simp⟩
  | true =>
    cases h2 : specListDone deployment.Name specList with
    | false => exact ⟨false, by simp, by simp⟩
    | true => exact ⟨true, by simp, by simp⟩

/-- Witness of the amended C8 on the cluster whose only binding names the deployment by
resource. -/
theorem CheckServiceBindingsInjectionDone_iff_witness :
    byResourceClient.GetOneDeployment "backend" "app" true = .ok { Name := "backend-app" } ∧
    byResourceClient.ListServiceBindingsFromAllGroups = .ok ([], [byResourceBinding]) ∧
    ∃ done, CheckServiceBindingsInjectionDone byResourceClient "backend" "app" = (done, none) ∧
      (done = true ↔
        (∀ b ∈ [byResourceBinding], targetsDeployment b.Application "backend-app" →
          IsStatusConditionTrue b.Conditions InjectionReady = true) ∧
        (∀ b ∈ ([] : List SpecServiceBinding),
          workloadTargetsDeployment b.Workload "backend-app" →
          IsStatusConditionTrue b.Conditions InjectionReady = true)) :=
  ⟨rfl, rfl, CheckServiceBindingsInjectionDone_iff byResourceClient "backend" "app"
    { Name := "backend-app" } [] [byResourceBinding] rfl rfl⟩

/-- C9, as stated, fails twice: a ready `servicebinding.io` binding that declares an env
var, with a secret of one key, has both `BindingFiles` and `BindingEnvVars` non-empty; and
a ready `binding.operators.coreos.com` binding whose secret holds no key has neither. -/
theorem getStatus_exclusive_counterexample :
    IsStatusConditionTrue readyConditions InjectionReady = true ∧
    readyClient.GetSecret "my-secret" "default" = .ok { Data := [("username", "admin")] } ∧
    readyClient.GetSecret "empty-secret" "default" = .ok { Data := [] } ∧
    getStatusFromSpec readyClient "my-binding" =
      (.ok (some { BindingFiles := ["$\x7bSERVICE_BINDING_ROOT\x7d/my-binding/username"],
                   BindingEnvVars := ["DB_USER"] }),
        [.GetSpecServiceBinding "my-binding", .GetCurrentNamespace,
          .GetSecret "my-secret" "default"]) ∧
    getStatusFromBinding readyClient "my-binding" =
      (.ok (some { BindingFiles := [], BindingEnvVars := [] }),
        [.GetBindingServiceBinding "my-binding", .GetCurrentNamespace,
          .GetSecret "empty-secret" "default"]) := by
  decide

/-- C9, amended: for every ready `binding.operators.coreos.com` binding whose secret is
readable, the status computed by `getStatusFromBinding` never has both `BindingFiles` and
`BindingEnvVars` non-empty, and has exactly one of them non-empty when the secret holds at
least one key (neither when it holds none); for every ready `servicebinding.io` binding
whose status names a readable secret, the status computed by `getStatusFromSpec` has
`BindingFiles` non-empty exactly when the secret holds a key and `BindingEnvVars` non-empty
exactly when the binding declares an env var, so both may be non-empty at once. -/
theorem getStatus_exposure (client : ClientInterface) (name : String) :
    (∀ bindingSB secret, client.GetBindingServiceBinding name = .ok bindingSB →
      IsStatusConditionTrue bindingSB.Conditions InjectionReady = true →
      client.GetSecret bindingSB.Secret client.GetCurrentNamespace = .ok secret →
      ∃ status, (getStatusFromBinding client name).1 = .ok (some status) ∧
        (status.BindingFiles = [] ∨ status.BindingEnvVars = []) ∧
        (secret.Data ≠ [] → (status.BindingFiles ≠ [] ∨ status.BindingEnvVars ≠ [])) ∧
        (secret.Data = [] → status.BindingFiles = [] ∧ status.BindingEnvVars = [])) ∧
    (∀ specSB secretName secret, client.GetSpecServiceBinding name = .ok specSB →
      IsStatusConditionTrue specSB.Conditions InjectionReady = true →
      specSB.Binding = some secretName →
      client.GetSecret secretName client.GetCurrentNamespace = .ok secret →
      ∃ status, (getStatusFromSpec client name).1 = .ok (some status) ∧
        (status.BindingFiles ≠ [] ↔ secret.Data ≠ []) ∧
        (status.BindingEnvVars ≠ [] ↔ specSB.Env ≠ [])) := by
  constructor
  · intro bindingSB secret h1 h2 h3
    unfold getStatusFromBinding
    rw [h1]
    simp only [h2, Bool.not_true, Bool.false_eq_true, if_false]
    rw [h3]
    cases hf : bindingSB.BindAsFiles with
    | true =>
      refine ⟨{ BindingFiles := secret.Data.map (fun kv => bindingFilePath name kv.1) },
        by simp, Or.inr rfl, ?_, ?_⟩
      · intro hne; left; simpa using hne
      · intro he; simp [he]
    | false =>
      refine ⟨{ BindingEnvVars := secret.Data.map (fun kv => kv.1) },
        by simp, Or.inl rfl, ?_, ?_⟩
      · intro hne; right; simpa using hne
      · intro he; simp [he]
  · intro specSB secretName secret h1 h2 h3 h4
    unfold getStatusFromSpec
    rw [h1]
    simp only [h2, Bool.not_true, Bool.false_eq_true, if_false]
    rw [h3]
    simp only []
    rw [h4]
    exact ⟨_, rfl, by simp, by simp⟩

/-- Witness of the amended C9 on the two ready bindings of `readyClient`. -/
theorem getStatus_exposure_witness :
    (∃ status, (getStatusFromBinding readyClient "my-binding").1 = .ok (some status) ∧
        (status.BindingFiles = [] ∨ status.BindingEnvVars = []) ∧
        (([] : List (String × String)) ≠ [] →
          (status.BindingFiles ≠ [] ∨ status.BindingEnvVars ≠ [])) ∧
        (([] : List (String × String)) = [] →
          status.BindingFiles = [] ∧ status.BindingEnvVars = [])) ∧
    (∃ status, (getStatusFromSpec readyClient "my-binding").1 = .ok (some status) ∧
        (status.BindingFiles ≠ [] ↔ [("username", "admin")] ≠ []) ∧
        (status.BindingEnvVars ≠ [] ↔
          [({ Name := "DB_USER", Key := "username" } : EnvMapping)] ≠ [])) :=
  ⟨(getStatus_exposure readyClient "my-binding").1
      { Name := "my-binding", Conditions := readyConditions, Secret := "empty-secret" }
      { Data := [] } rfl (by decide) rfl,
    (getStatus_exposure readyClient "my-binding").2
      { Name := "my-binding", Env := [{ Name := "DB_USER", Key := "username" }],
        Conditions := readyConditions, Binding := some "my-secret" }
      "my-secret" { Data := [("username", "admin")] } rfl (by decide) rfl rfl⟩

/-- C10: `getStatusFromBinding` and `getStatusFromSpec` return a nil status and no error
whenever the binding lookup reports not found, and whenever the binding's `InjectionReady`
condition is absent, false or unknown (the first condition of that type, if any, has a
status other than True); in these cases the only call made on the client is the lookup of
the binding, so the secret is never fetched. -/
theorem getStatus_nil_without_secret (client : ClientInterface) (name : String) :
    (∀ err, client.GetBindingServiceBinding name = .error err → err.IsNotFound = true →
      getStatusFromBinding client name = (.ok none, [.GetBindingServiceBinding name])) ∧
    (∀ bindingSB, client.GetBindingServiceBinding name = .ok bindingSB →
      (∀ c, FindStatusCondition bindingSB.Conditions InjectionReady = some c →
        c.Status ≠ ConditionTrue) →
      getStatusFromBinding client name = (.ok none, [.GetBindingServiceBinding name])) ∧
    (∀ err, client.GetSpecServiceBinding name = .error err → err.IsNotFound = true →
      getStatusFromSpec client name = (.ok none, [.GetSpecServiceBinding name])) ∧
    (∀ specSB, client.GetSpecServiceBinding name = .ok specSB →
      (∀ c, FindStatusCondition specSB.Conditions InjectionReady = some c →
        c.Status ≠ ConditionTrue) →
      getStatusFromSpec client name = (.ok none, [.GetSpecServiceBinding name])) ∧
    (∀ call ∈ [Call.GetBindingServiceBinding name, Call.GetSpecServiceBinding name],
      call.isGetSecret = false) := by
  refine ⟨?_, ?_, ?_, ?_, ?_⟩
  · intro err h1 h2
    unfold getStatusFromBinding
    rw [h1]
    simp [h2]
  · intro bindingSB h1 h2
    unfold getStatusFromBinding
    rw [h1]
    simp [IsStatusConditionTrue_of_not_true _ h2]
  · intro err h1 h2
    unfold getStatusFromSpec
    rw [h1]
    simp [h2]
  · intro specSB h1 h2
    unfold getStatusFromSpec
    rw [h1]
    simp [IsStatusConditionTrue_of_not_true _ h2]
  · intro call hcall
    simp only [List.mem_cons, List.mem_singleton, List.not_mem_nil, or_false] at hcall
    rcases hcall with rfl | rfl <;> rfl

/-- Witness of C10: a cluster that holds no binding, and a cluster whose bindings have a
false `InjectionReady` condition. -/
theorem getStatus_nil_without_secret_witness :
    getStatusFromBinding noBindingClient "my-binding" =
      (.ok none, [.GetBindingServiceBinding "my-binding"]) ∧
    getStatusFromBinding notReadyClient "my-binding" =
      (.ok none, [.GetBindingServiceBinding "my-binding"]) ∧
    getStatusFromSpec noBindingClient "my-binding" =
      (.ok none, [.GetSpecServiceBinding "my-binding"]) ∧
    getStatusFromSpec notReadyClient "my-binding" =
      (.ok none, [.GetSpecServiceBinding "my-binding"]) :=
  ⟨(getStatus_nil_without_secret noBindingClient "my-binding").1 (.notFound "") rfl rfl,
    (getStatus_nil_without_secret notReadyClient "my-binding").2.1
      { Name := "my-binding", Conditions := [{ Typ := "InjectionReady", Status := "False" }],
        Secret := "my-secret" } rfl (by decide),
    (getStatus_nil_without_secret noBindingClient "my-binding").2.2.1 (.notFound "") rfl rfl,
    (getStatus_nil_without_secret notReadyClient "my-binding").2.2.2.1
      { Name := "my-binding", Conditions := [{ Typ := "InjectionReady", Status := "False" }],
        Binding := some "my-secret" } rfl (by decide)⟩

theorem bindingFilePath_eq (name k : String) (hname : name ≠ "") (hk : k ≠ "") :
    bindingFilePath name k = serviceBindingRoot ++ "/" ++ name ++ "/" ++ k := by
  unfold bindingFilePath filepath_Join serviceBindingRoot
  have hroot : ("$\x7bSERVICE_BINDING_ROOT\x7d" : String) ≠ "" := by decide
  simp [List.filter_cons, hroot, hname, hk, String.intercalate, String.intercalate.go]

/-- C11: for a ready Variant A binding named n (a non-empty name) whose secret has the
non-empty keys K, in whatever order they are listed: when `BindAsFiles` is set,
`BindingFiles` is, up to order, exactly the paths "${SERVICE_BINDING_ROOT}/n/k" for k in K
(one per key) and `BindingEnvVars` is empty; when `BindAsFiles` is not set,
`BindingEnvVars` is, up to order, exactly K and `BindingFiles` is empty. -/
theorem getStatusFromBinding_projection (client : ClientInterface) (name : String)
    (bindingSB : BindingServiceBinding) (secret : Secret)
    (h1 : client.GetBindingServiceBinding name = .ok bindingSB)
    (h2 : IsStatusConditionTrue bindingSB.Conditions InjectionReady = true)
    (h3 : client.GetSecret bindingSB.Secret client.GetCurrentNamespace = .ok secret)
    (hname : name ≠ "") (hkeys : ∀ kv ∈ secret.Data, kv.1 ≠ "") :
    ∃ status, (getStatusFromBinding client name).1 = .ok (some status) ∧
      ∀ K : List String, K.Perm (secret.Data.map (fun kv => kv.1)) →
        (bindingSB.BindAsFiles = true →
          status.BindingFiles.Perm
            (K.map (fun k => serviceBindingRoot ++ "/" ++ name ++ "/" ++ k)) ∧
          status.BindingEnvVars = []) ∧
        (bindingSB.BindAsFiles = false →
          status.BindingEnvVars.Perm K ∧ status.BindingFiles = []) := by
  unfold getStatusFromBinding
  rw [h1]
  simp only [h2, Bool.not_true, Bool.false_eq_true, if_false]
  rw [h3]
  have hpaths : secret.Data.map (fun kv => bindingFilePath name kv.1) =
      (secret.Data.map (fun kv => kv.1)).map
        (fun k => serviceBindingRoot ++ "/" ++ name ++ "/" ++ k) := by
    rw [List.map_map]
    apply List.map_congr_left
    intro kv hkv
    exact bindingFilePath_eq name kv.1 hname (hkeys kv hkv)
  cases hf : bindingSB.BindAsFiles with
  | true =>
    refine ⟨{ BindingFiles := secret.Data.map (fun kv => bindingFilePath name kv.1) },
      by simp, ?_⟩
    intro K hK
    refine ⟨fun _ => ⟨?_, rfl⟩, fun h => by simp at h⟩
    show (secret.Data.map (fun kv => bindingFilePath name kv.1)).Perm _
    rw [hpaths]
    exact (hK.map _).symm
  | false =>
    refine ⟨{ BindingEnvVars := secret.Data.map (fun kv => kv.1) }, by simp, ?_⟩
    intro K hK
    exact ⟨fun h => by simp at h, fun _ => ⟨hK.symm, rfl⟩⟩

/-- Witness of C11 on a binding bound as files whose secret holds two keys. -/
theorem getStatusFromBinding_projection_witness :
    ∃ status, (getStatusFromBinding filesClient "my-binding").1 = .ok (some status) ∧
      ∀ K : List String, K.Perm ["username", "password"] →
        (true = true →
          status.BindingFiles.Perm
            (K.map (fun k => serviceBindingRoot ++ "/" ++ "my-binding" ++ "/" ++ k)) ∧
          status.BindingEnvVars = []) ∧
        (true = false → status.BindingEnvVars.Perm K ∧ status.BindingFiles = []) :=
  getStatusFromBinding_projection filesClient "my-binding"
    { Name := "my-binding", BindAsFiles := true, Conditions := readyConditions,
      Secret := "my-secret" }
    { Data := [("username", "admin"), ("password", "s3cret")] } rfl (by decide) rfl
    (by decide) (by decide)

/-- C12, as stated, fails: a ready Variant B binding that declares no env var, with a
secret of one key, has an empty `BindingEnvVars`, not the key names of the secret. -/
theorem getStatusFromSpec_no_fallback_counterexample :
    IsStatusConditionTrue readyConditions InjectionReady = true ∧
    noEnvClient.GetSecret "my-secret" "default" = .ok { Data := [("username", "admin")] } ∧
    getStatusFromSpec noEnvClient "my-binding" =
      (.ok (some { BindingFiles := [serviceBindingRoot ++ "/my-binding/username"],
                   BindingEnvVars := [] }),
        [.GetSpecServiceBinding "my-binding", .GetCurrentNamespace,
          .GetSecret "my-secret" "default"]) ∧
    ([] : List String) ≠ ["username"] := by
  decide

/-- C12, amended: for a ready Variant B binding whose status names a readable secret, the
environment-variable projection `BindingEnvVars` is the list of the binding's explicitly
declared env-var names, in their declared order, and is empty when the binding declares
none: there is no fallback to the secret's key names, which give `BindingFiles` alone. -/
theorem getStatusFromSpec_env (client : ClientInterface) (name : String)
    (specSB : SpecServiceBinding) (secretName : String) (secret : Secret)
    (h1 : client.GetSpecServiceBinding name = .ok specSB)
    (h2 : IsStatusConditionTrue specSB.Conditions InjectionReady = true)
    (h3 : specSB.Binding = some secretName)
    (h4 : client.GetSecret secretName client.GetCurrentNamespace = .ok secret) :
    ∃ status, (getStatusFromSpec client name).1 = .ok (some status) ∧
      status.BindingEnvVars = specSB.Env.map (fun env => env.Name) ∧
      (specSB.Env = [] → status.BindingEnvVars = []) ∧
      status.BindingFiles = secret.Data.map (fun kv => bindingFilePath name kv.1) := by
  unfold getStatusFromSpec
  rw [h1]
  simp only [h2, Bool.not_true, Bool.false_eq_true, if_false]
  rw [h3]
  simp only []
  rw [h4]
  exact ⟨_, rfl, rfl, fun h => by simp [h], rfl⟩

/-- Witness of the amended C12 on the ready binding of `readyClient`, which declares the
env var `DB_USER`. -/
theorem getStatusFromSpec_env_witness :
    ∃ status, (getStatusFromSpec readyClient "my-binding").1 = .ok (some status) ∧
      status.BindingEnvVars = ["DB_USER"] ∧
      ([({ Name := "DB_USER", Key := "username" } : EnvMapping)] = [] →
        status.BindingEnvVars = []) ∧
      status.BindingFiles = [bindingFilePath "my-binding" "username"] :=
  getStatusFromSpec_env readyClient "my-binding"
    { Name := "my-binding", Env := [{ Name := "DB_USER", Key := "username" }],
      Conditions := readyConditions, Binding := some "my-secret" }
    "my-secret" { Data := [("username", "admin")] } rfl (by decide) rfl rfl

/-- C15: for a ready binding of either variant, when fetching the secret named in the
binding's status fails (the secret does not exist, or any other failure),
`getStatusFromBinding` / `getStatusFromSpec` return a nil status together with exactly
that error. -/
theorem getStatus_secret_error (client : ClientInterface) (name : String) :
    (∀ bindingSB err, client.GetBindingServiceBinding name = .ok bindingSB →
      IsStatusConditionTrue bindingSB.Conditions InjectionReady = true →
      client.GetSecret bindingSB.Secret client.GetCurrentNamespace = .error err →
      (getStatusFromBinding client name).1 = .error err) ∧
    (∀ specSB secretName err, client.GetSpecServiceBinding name = .ok specSB →
      IsStatusConditionTrue specSB.Conditions InjectionReady = true →
      specSB.Binding = some secretName →
      client.GetSecret secretName client.GetCurrentNamespace = .error err →
      (getStatusFromSpec client name).1 = .error err) := by
  constructor
  · intro bindingSB err h1 h2 h3
    unfold getStatusFromBinding
    rw [h1]
    simp only [h2, Bool.not_true, Bool.false_eq_true, if_false]
    rw [h3]
  · intro specSB secretName err h1 h2 h3 h4
    unfold getStatusFromSpec
    rw [h1]
    simp only [h2, Bool.not_true, Bool.false_eq_true, if_false]
    rw [h3]
    simp only []
    rw [h4]

/-- Witness of C15 on ready bindings of both variants whose secret does not exist. -/
theorem getStatus_secret_error_witness :
    (getStatusFromBinding missingSecretClient "my-binding").1 =
      .error (.notFound "secrets \"my-secret\" not found") ∧
    (getStatusFromSpec missingSecretClient "my-binding").1 =
      .error (.notFound "secrets \"my-secret\" not found") :=
  ⟨(getStatus_secret_error missingSecretClient "my-binding").1
      { Name := "my-binding", Conditions := readyConditions, Secret := "my-secret" }
      (.notFound "secrets \"my-secret\" not found") rfl (by decide) rfl,
    (getStatus_secret_error missingSecretClient "my-binding").2
      { Name := "my-binding", Conditions := readyConditions, Binding := some "my-secret" }
      "my-secret" (.notFound "secrets \"my-secret\" not found") rfl (by decide) rfl rfl⟩

theorem getStatusFromBinding_trace (client : ClientInterface) (name : String) :
    (getStatusFromBinding client name).2 = [.GetBindingServiceBinding name] ∨
    ∃ secretName ns, (getStatusFromBinding client name).2 =
      [.GetBindingServiceBinding name, .GetCurrentNamespace, .GetSecret secretName ns] := by
  unfold getStatusFromBinding
  cases client.GetBindingServiceBinding name with
  | error err =>
    left
    simp only []
    split_ifs <;> rfl
  | ok bindingSB =>
    cases hready : IsStatusConditionTrue bindingSB.Conditions InjectionReady with
    | false => left; simp [hready]
    | true =>
      right
      refine ⟨bindingSB.Secret, client.GetCurrentNamespace, ?_⟩
      simp only [hready, Bool.not_true, Bool.false_eq_true, if_false]
      cases client.GetSecret bindingSB.Secret client.GetCurrentNamespace with
      | error err => rfl
      | ok secret =>
        simp only []
        split_ifs <;> rfl

/-- C13: `GetBindingFromCluster` consults Variant B only when the Variant A lookup reports
not found: if the Variant A lookup succeeds the result is built from Variant A whatever
Variant B holds (no Variant B lookup is made, and another answer to it changes nothing);
if it fails with any error other than not found, that same error is returned and Variant B
is not consulted; and a Variant B failure other than not found is returned unchanged. -/
theorem GetBindingFromCluster_variants (client : ClientInterface) (name : String) :
    (∀ bindingSB, client.GetBindingServiceBinding name = .ok bindingSB →
      (GetBindingFromCluster client name).1 =
        (match client.APIServiceBindingFromBinding bindingSB with
          | .error err => .error err
          | .ok sb =>
            match (getStatusFromBinding client bindingSB.Name).1 with
            | .error err => .error err
            | .ok st => .ok { sb with Status := st }) ∧
      (∀ call ∈ (GetBindingFromCluster client name).2,
        ∀ n, call ≠ Call.GetSpecServiceBinding n) ∧
      ∀ other : String → Except Error SpecServiceBinding,
        GetBindingFromCluster { client with GetSpecServiceBinding := other } name =
          GetBindingFromCluster client name) ∧
    (∀ err, client.GetBindingServiceBinding name = .error err → err.IsNotFound = false →
      GetBindingFromCluster client name = (.error err, [.GetBindingServiceBinding name])) ∧
    (∀ err err2, client.GetBindingServiceBinding name = .error err → err.IsNotFound = true →
      client.GetSpecServiceBinding name = .error err2 → err2.IsNotFound = false →
      (GetBindingFromCluster client name).1 = .error err2) := by
  refine ⟨?_, ?_, ?_⟩
  · intro bindingSB h1
    have htrace : ∀ n2, ∀ call ∈ (getStatusFromBinding client n2).2,
        ∀ n, call ≠ Call.GetSpecServiceBinding n := by
      intro n2 call hcall n
      rcases getStatusFromBinding_trace client n2 with h | ⟨sn, ns, h⟩
      · rw [h] at hcall
        simp at hcall
        simp [hcall]
      · rw [h] at hcall
        simp at hcall
        rcases hcall with h | h | h <;> simp [h]
    refine ⟨?_, ?_, ?_⟩
    · unfold GetBindingFromCluster
      rw [h1]
      simp only []
      cases client.APIServiceBindingFromBinding bindingSB with
      | error e => rfl
      | ok sb =>
        simp only []
        cases (getStatusFromBinding client bindingSB.Name).1 <;> rfl
    · intro call hcall n
      unfold GetBindingFromCluster at hcall
      rw [h1] at hcall
      simp only [] at hcall
      cases hapi : client.APIServiceBindingFromBinding bindingSB with
      | error e =>
        rw [hapi] at hcall
        simp at hcall
        rcases hcall with h | h <;> simp [h]
      | ok sb =>
        rw [hapi] at hcall
        simp only [] at hcall
        have hmem : call ∈ [Call.GetBindingServiceBinding name,
            Call.APIServiceBindingFromBinding bindingSB.Name] ++
            (getStatusFromBinding client bindingSB.Name).2 := by
          cases hst : (getStatusFromBinding client bindingSB.Name).1 with
          | error e => rw [hst] at hcall; exact hcall
          | ok st => rw [hst] at hcall; exact hcall
        rcases List.mem_append.1 hmem with h | h
        · simp at h
          rcases h with h | h <;> simp [h]
        · exact htrace _ call h n
    · intro other
      unfold GetBindingFromCluster
      simp only [h1]
      rfl
  · intro err h1 h2
    unfold GetBindingFromCluster
    rw [h1]
    simp [h2]
  · intro err err2 h1 h2 h3 h4
    unfold GetBindingFromCluster
    rw [h1]
    simp only [h2, Bool.not_true, Bool.false_eq_true, if_false]
    rw [h3]
    simp [h4]

/-- Witness of C13: a cluster with a ready Variant A binding, one whose Variant A lookup is
forbidden, and one without a Variant A binding whose Variant B lookup is forbidden. -/
theorem GetBindingFromCluster_variants_witness :
    (∀ other : String → Except Error SpecServiceBinding,
      GetBindingFromCluster { filesClient with GetSpecServiceBinding := other } "my-binding" =
        GetBindingFromCluster filesClient "my-binding") ∧
    GetBindingFromCluster forbiddenClient "my-binding" =
      (.error (.forbidden "servicebindings is forbidden"),
        [.GetBindingServiceBinding "my-binding"]) ∧
    (GetBindingFromCluster forbiddenSpecClient "my-binding").1 =
      .error (.forbidden "servicebindings is forbidden") :=
  ⟨((GetBindingFromCluster_variants filesClient "my-binding").1
      { Name := "my-binding", BindAsFiles := true, Conditions := readyConditions,
        Secret := "my-secret" } rfl).2.2,
    (GetBindingFromCluster_variants forbiddenClient "my-binding").2.1
      (.forbidden "servicebindings is forbidden") rfl rfl,
    (GetBindingFromCluster_variants forbiddenSpecClient "my-binding").2.2
      (.notFound "") (.forbidden "servicebindings is forbidden") rfl rfl rfl rfl⟩

/-- C14, as stated, fails: on a cluster that holds no binding of either variant,
`GetBindingFromCluster` returns an error, built by `fmt.Errorf`, and no value. -/
theorem GetBindingFromCluster_not_found_counterexample :
    noBindingClient.GetBindingServiceBinding "my-binding" = .error (.notFound "") ∧
    noBindingClient.GetSpecServiceBinding "my-binding" = .error (.notFound "") ∧
    GetBindingFromCluster noBindingClient "my-binding" =
      (.error (.errorf "ServiceBinding \"my-binding\" not found"),
        [.GetBindingServiceBinding "my-binding", .GetSpecServiceBinding "my-binding"]) ∧
    ¬ ∃ sb, (GetBindingFromCluster noBindingClient "my-binding").1 = .ok sb := by
  refine ⟨rfl, rfl, by decide, ?_⟩
  rintro ⟨sb, h⟩
  have h2 : (GetBindingFromCluster noBindingClient "my-binding").1 =
      .error (.errorf "ServiceBinding \"my-binding\" not found") := by decide
  rw [h2] at h
  cases h

/-- C14, amended: when both the Variant A and the Variant B lookups report not found,
`GetBindingFromCluster` returns an error, not a value: the error made by
`fmt.Errorf("ServiceBinding %q not found", name)`, a plain error that
`kerrors.IsNotFound` does not recognise; both lookups, and no other call, were made. -/
theorem GetBindingFromCluster_not_found (client : ClientInterface) (name : String)
    (err err2 : Error)
    (h1 : client.GetBindingServiceBinding name = .error err) (h2 : err.IsNotFound = true)
    (h3 : client.GetSpecServiceBinding name = .error err2) (h4 : err2.IsNotFound = true) :
    GetBindingFromCluster client name =
      (.error (.errorf ("ServiceBinding " ++ strconv_Quote name ++ " not found")),
        [.GetBindingServiceBinding name, .GetSpecServiceBinding name]) ∧
    (Error.errorf ("ServiceBinding " ++ strconv_Quote name ++ " not found")).IsNotFound =
      false := by
  refine ⟨?_, rfl⟩
  unfold GetBindingFromCluster
  rw [h1]
  simp only [h2, Bool.not_true, Bool.false_eq_true, if_false]
  rw [h3]
  simp [h4]

/-- Witness of the amended C14 on a cluster that holds no binding. -/
theorem GetBindingFromCluster_not_found_witness :
    GetBindingFromCluster noBindingClient "my-binding" =
      (.error (.errorf ("ServiceBinding " ++ strconv_Quote "my-binding" ++ " not found")),
        [.GetBindingServiceBinding "my-binding", .GetSpecServiceBinding "my-binding"]) ∧
    (Error.errorf ("ServiceBinding " ++ strconv_Quote "my-binding" ++ " not found")).IsNotFound =
      false :=
  GetBindingFromCluster_not_found noBindingClient "my-binding" (.notFound "") (.notFound "")
    rfl rfl rfl rfl

/-! ## Lemmas and claims on `GetServiceInstances` -/

theorem lookup_set (m : ServiceMap) (k : String) (v : Unstructured) (key : String) :
    (m.set k v).lookup key = if key = k then some v else m.lookup key := by
  unfold ServiceMap.set
  induction m with
  | nil =>
    by_cases h : key = k
    · have hb : (key == k) = true := by simp [h]
      simp [List.lookup, h]
    · have hb : (key == k) = false := by simp [h]
      simp [List.lookup, h, hb]
  | cons e m ih =>
    obtain ⟨a, b⟩ := e
    by_cases ha : a = k
    · subst ha
      rw [List.filter_cons_of_neg (by simp), ih]
      by_cases h : key = a
      · simp [h]
      · have hb : (key == a) = false := by simp [h]
        simp [List.lookup, h, hb]
    · rw [List.filter_cons_of_pos (by simp [ha]), List.cons_append]
      by_cases h : key = a
      · subst h
        simp [List.lookup, ha]
      · have hb : (key == a) = false := by simp [h]
        simp only [List.lookup, hb]
        exact ih

theorem lookup_addItems (items : List Unstructured) :
    ∀ (m : ServiceMap) (key : String),
      (addItems m items).lookup key =
        match lastUnder key items with
        | some item => some item
        | none => m.lookup key := by
  induction items with
  | nil => intro m key; rfl
  | cons item rest ih =>
    intro m key
    show (addItems (m.set (serviceName item) item) rest).lookup key = _
    rw [ih, lookup_set]
    simp only [lastUnder]
    cases lastUnder key rest with
    | some later => rfl
    | none =>
      by_cases h : serviceName item = key
      · simp [h]
      · simp [h, Ne.symm h]

theorem lastUnder_cons (key : String) (a : Unstructured) (A : List Unstructured) :
    lastUnder key (a :: A) =
      match lastUnder key A with
      | some later => some later
      | none => if serviceName a = key then some a else none := rfl

theorem lastUnder_append (key : String) (A B : List Unstructured) :
    lastUnder key (A ++ B) =
      match lastUnder key B with
      | some item => some item
      | none => lastUnder key A := by
  induction A with
  | nil =>
    rw [List.nil_append]
    cases lastUnder key B <;> rfl
  | cons a A ih =>
    rw [List.cons_append, lastUnder_cons, ih, lastUnder_cons]
    cases lastUnder key B <;> rfl

theorem lastUnder_some (key : String) (items : List Unstructured) (held : Unstructured)
    (h : lastUnder key items = some held) : held ∈ items ∧ key = serviceName held := by
  induction items with
  | nil => simp [lastUnder] at h
  | cons item rest ih =>
    simp only [lastUnder] at h
    cases hrest : lastUnder key rest with
    | some later =>
      rw [hrest] at h
      simp only [Option.some.injEq] at h
      subst h
      have := ih hrest
      exact ⟨List.mem_cons_of_mem _ this.1, this.2⟩
    | none =>
      rw [hrest] at h
      simp only [] at h
      split_ifs at h with hk
      simp only [Option.some.injEq] at h
      subst h
      exact ⟨List.mem_cons_self _ _, hk.symm⟩

theorem lastUnder_of_mem (items : List Unstructured) (item : Unstructured)
    (h : item ∈ items) :
    ∃ held, lastUnder (serviceName item) items = some held ∧
      serviceName held = serviceName item := by
  induction items with
  | nil => simp at h
  | cons first rest ih =>
    simp only [lastUnder]
    cases hrest : lastUnder (serviceName item) rest with
    | some later =>
      exact ⟨later, rfl, (lastUnder_some _ _ _ hrest).2.symm⟩
    | none =>
      rcases List.mem_cons.1 h with h | h
      · subst h
        exact ⟨item, by simp, rfl⟩
      · obtain ⟨held, hh, _⟩ := ih h
        rw [hrest] at hh
        cases hh

theorem serviceInstancesLoop_ok (client : ClientInterface) (namespace_ : String)
    (mappings : List RESTMapping) :
    ∀ (m : ServiceMap) (calls : List Call),
      (∀ rm ∈ mappings, tolerated client namespace_ rm) →
      ∃ result, (serviceInstancesLoop client namespace_ mappings m calls).1 = .ok result ∧
        ∀ key, result.lookup key =
          match lastUnder key (scannedItems client namespace_ mappings) with
          | some item => some item
          | none => m.lookup key := by
  induction mappings with
  | nil => intro m calls _; exact ⟨m, rfl, fun key => rfl⟩
  | cons rm rest ih =>
    intro m calls htol
    have hrest : ∀ r ∈ rest, tolerated client namespace_ r :=
      fun r hr => htol r (List.mem_cons_of_mem _ hr)
    unfold serviceInstancesLoop scannedItems
    cases hl : client.ListDynamicResources namespace_ rm.Resource "" with
    | error err =>
      have ht := htol rm (List.mem_cons_self _ _) err hl
      simp only [ht, if_true, List.nil_append]
      exact ih m _ hrest
    | ok resources =>
      simp only []
      obtain ⟨result, h1, h2⟩ := ih (addItems m resources)
        (calls ++ [.ListDynamicResources namespace_ rm.Resource ""]) hrest
      refine ⟨result, h1, ?_⟩
      intro key
      rw [h2, lastUnder_append, lookup_addItems]
      cases lastUnder key (scannedItems client namespace_ rest) <;> rfl

theorem serviceInstancesLoop_abort (client : ClientInterface) (namespace_ : String)
    (before : List RESTMapping) (rm : RESTMapping) (after : List RESTMapping) (err : Error)
    (hl : client.ListDynamicResources namespace_ rm.Resource "" = .error err)
    (herr : (err.IsNotFound || err.IsForbidden) = false) :
    ∀ (m : ServiceMap) (calls : List Call),
      (∀ r ∈ before, tolerated client namespace_ r) →
      (serviceInstancesLoop client namespace_ (before ++ rm :: after) m calls).1 =
        .error err := by
  induction before with
  | nil =>
    intro m calls _
    simp only [List.nil_append]
    unfold serviceInstancesLoop
    simp [hl, herr]
  | cons b before ih =>
    intro m calls htol
    have hrest : ∀ r ∈ before, tolerated client namespace_ r :=
      fun r hr => htol r (List.mem_cons_of_mem _ hr)
    simp only [List.cons_append]
    unfold serviceInstancesLoop
    cases hb : client.ListDynamicResources namespace_ b.Resource "" with
    | error e =>
      have ht := htol b (List.mem_cons_self _ _) e hb
      simp only [ht, if_true]
      exact ih _ _ hrest
    | ok resources =>
      simp only []
      exact ih _ _ hrest

theorem GetServiceInstances_loop (client : ClientInterface) (namespace_ : String)
    (bindableKind : BindableKinds) (mappings : List RESTMapping)
    (h1 : client.IsServiceBindingSupported = .ok true)
    (h2 : client.GetBindableKinds = .ok bindableKind)
    (h3 : client.GetBindableKindStatusRestMapping bindableKind.Status = .ok mappings) :
    GetServiceInstances client namespace_ =
      serviceInstancesLoop client namespace_ mappings []
        [.IsServiceBindingSupported, .GetBindableKinds, .GetBindableKindStatusRestMapping] := by
  unfold GetServiceInstances checkServiceBindingOperatorInstalled
  rw [h1]
  simp only [Bool.not_true, Bool.false_eq_true, if_false]
  rw [h2]
  simp only []
  rw [h3]

/-- C16: in `GetServiceInstances`, a bindable kind whose listing fails with not-found or
forbidden contributes zero resources and does not abort the scan: the result is the map of
the items of every kind whose listing succeeded, each stored under the key
"<name> (<kind>.<group>)" (the last item of a key is the one the map holds); the first
listing failure of any other sort aborts with that error and a nil map. -/
theorem GetServiceInstances_scan (client : ClientInterface) (namespace_ : String)
    (bindableKind : BindableKinds) (mappings : List RESTMapping)
    (h1 : client.IsServiceBindingSupported = .ok true)
    (h2 : client.GetBindableKinds = .ok bindableKind)
    (h3 : client.GetBindableKindStatusRestMapping bindableKind.Status = .ok mappings) :
    ((∀ rm ∈ mappings, tolerated client namespace_ rm) →
      ∃ result, (GetServiceInstances client namespace_).1 = .ok result ∧
        (∀ key, result.lookup key = lastUnder key (scannedItems client namespace_ mappings)) ∧
        (∀ item ∈ scannedItems client namespace_ mappings,
          ∃ held,
            result.lookup (item.name ++ " (" ++ item.kind ++ "." ++ item.group ++ ")") =
              some held ∧
            held ∈ scannedItems client namespace_ mappings ∧
            held.name ++ " (" ++ held.kind ++ "." ++ held.group ++ ")" =
              item.name ++ " (" ++ item.kind ++ "." ++ item.group ++ ")") ∧
        (∀ key held, result.lookup key = some held →
          held ∈ scannedItems client namespace_ mappings ∧
          key = held.name ++ " (" ++ held.kind ++ "." ++ held.group ++ ")")) ∧
    (∀ before rm after err, mappings = before ++ rm :: after →
      (∀ r ∈ before, tolerated client namespace_ r) →
      client.ListDynamicResources namespace_ rm.Resource "" = .error err →
      (err.IsNotFound || err.IsForbidden) = false →
      (GetServiceInstances client namespace_).1 = .error err) := by
  rw [GetServiceInstances_loop client namespace_ bindableKind mappings h1 h2 h3]
  constructor
  · intro htol
    obtain ⟨result, hr1, hr2⟩ := serviceInstancesLoop_ok client namespace_ mappings []
      [.IsServiceBindingSupported, .GetBindableKinds, .GetBindableKindStatusRestMapping] htol
    have hlookup : ∀ key, result.lookup key =
        lastUnder key (scannedItems client namespace_ mappings) := by
      intro key
      rw [hr2]
      cases lastUnder key (scannedItems client namespace_ mappings) <;> rfl
    refine ⟨result, hr1, hlookup, ?_, ?_⟩
    · intro item hitem
      obtain ⟨held, hheld, hkey⟩ := lastUnder_of_mem _ _ hitem
      refine ⟨held, ?_, (lastUnder_some _ _ _ hheld).1, hkey⟩
      rw [hlookup]
      exact hheld
    · intro key held hheld
      rw [hlookup] at hheld
      exact lastUnder_some _ _ _ hheld
  · intro before rm after err hm htol hl herr
    rw [hm]
    exact serviceInstancesLoop_abort client namespace_ before rm after err hl herr _ _ htol

/-- Witness of C16: a scan where the first kind is forbidden and the second gives one
item, held under the key "cluster-sample (Cluster.postgresql.k8s.enterprisedb.io)" and
under no other, and a scan aborted by a transport failure on the second kind. -/
theorem GetServiceInstances_scan_witness :
    (∃ result, (GetServiceInstances scanClient "ns").1 = .ok result ∧
      result.lookup "cluster-sample (Cluster.postgresql.k8s.enterprisedb.io)" =
        some postgresItem ∧
      result.lookup "cluster-sample" = none ∧
      (∀ key held, result.lookup key = some held →
        held = postgresItem ∧
        key = "cluster-sample (Cluster.postgresql.k8s.enterprisedb.io)")) ∧
    (GetServiceInstances brokenScanClient "ns").1 = .error (.other "connection refused") :=
  ⟨Exists.elim
      ((GetServiceInstances_scan scanClient "ns" {}
        [{ Resource := redisGVR }, { Resource := postgresGVR }] rfl rfl rfl).1
        (by
          intro rm hrm err herr
          simp only [List.mem_cons, List.mem_singleton, List.not_mem_nil, or_false] at hrm
          rcases hrm with rfl | rfl
          · have : err = .forbidden "redis is forbidden" := by
              simp [scanClient] at herr
              exact herr.symm
            rw [this]
            rfl
          · have hne : postgresGVR ≠ redisGVR := by decide
            simp [scanClient, hne] at herr))
      (fun result hres =>
        ⟨result, hres.1, (hres.2.1 _).trans (by decide), (hres.2.1 _).trans (by decide),
          fun key held hheld => by
            have hitems : scannedItems scanClient "ns"
                [{ Resource := redisGVR }, { Resource := postgresGVR }] = [postgresItem] := by
              decide
            have hmem := (hres.2.2.2 key held hheld).1
            have hkey := (hres.2.2.2 key held hheld).2
            rw [hitems, List.mem_singleton] at hmem
            rw [hmem] at hkey
            exact ⟨hmem, hkey.trans (by decide)⟩⟩),
    (GetServiceInstances_scan brokenScanClient "ns" {}
      [{ Resource := postgresGVR }, { Resource := redisGVR }] rfl rfl rfl).2
      [{ Resource := postgresGVR }] { Resource := redisGVR } [] (.other "connection refused")
      rfl
      (by
        intro rm hrm err herr
        simp only [List.mem_singleton] at hrm
        subst hrm
        have hne : postgresGVR ≠ redisGVR := by decide
        simp [brokenScanClient, hne] at herr)
      (by decide) rfl⟩

/-! ## Lemmas and claims on running modes, devfile information and all components -/

theorem foldl_modes (list : List Unstructured) :
    ∀ acc : RunningModes,
      list.foldl (fun mapResult resource =>
        if GetMode resource.labels ≠ "" then
          AddRunningMode mapResult (strings_ToLower (GetMode resource.labels))
        else mapResult) acc = acc ∪ (modeLabels list).toFinset := by
  induction list with
  | nil => intro acc; simp [modeLabels]
  | cons r rest ih =>
    intro acc
    rw [List.foldl_cons, ih, modeLabels_cons]
    by_cases h : GetMode r.labels = ""
    · simp [h]
    · simp only [ne_eq, h, not_false_eq_true, if_true, List.toFinset_cons, AddRunningMode]
      ext x
      simp only [Finset.mem_union, Finset.mem_insert]
      tauto

theorem collectModes_eq (list : List Unstructured) :
    collectModes list = (modeLabels list).toFinset := by
  unfold collectModes
  rw [foldl_modes]
  simp [NewRunningModes]

/-- C17: with a non-nil client and a successful resource query, `GetRunningModes` returns
the "no component found" error if and only if no resource (other than `PackageManifest`)
matches the component name; when at least one resource matches it returns no error and the
set of lower-cased mode labels of the matching resources, which is empty when none carries
a mode label; in particular a matching resource labelled `Dev` or `Deploy`, as odo writes
the label, puts the lower-case mode `dev` or `deploy` in the set, and when every matching
resource is labelled `Dev` the set is exactly {dev}. -/
theorem GetRunningModes_found (odolabels : LabelsPackage) (application : String)
    (client : ClientInterface) (name : String) (resourceList : List Unstructured)
    (h : client.GetAllResourcesFromSelector
        (odolabels.GetSelector name application odolabels.ComponentAnyMode false)
        client.GetCurrentNamespace = .ok resourceList) :
    ((GetRunningModes odolabels application (some client) name).2 =
        some (.noComponentFound name client.GetCurrentNamespace) ↔
      resourceList.filter (fun r => decide (r.kind ≠ "PackageManifest")) = []) ∧
    ((GetRunningModes odolabels application (some client) name).2 ≠ none ↔
      resourceList.filter (fun r => decide (r.kind ≠ "PackageManifest")) = []) ∧
    (resourceList.filter (fun r => decide (r.kind ≠ "PackageManifest")) ≠ [] →
      GetRunningModes odolabels application (some client) name =
        (some (modeLabels
          (resourceList.filter (fun r => decide (r.kind ≠ "PackageManifest")))).toFinset,
          none) ∧
      (modeLabels (resourceList.filter (fun r => decide (r.kind ≠ "PackageManifest"))) = [] →
        GetRunningModes odolabels application (some client) name = (some ∅, none))) ∧
    (∀ r ∈ resourceList.filter (fun r => decide (r.kind ≠ "PackageManifest")),
      (GetMode r.labels = "Dev" →
        ∃ modes, GetRunningModes odolabels application (some client) name = (some modes, none) ∧
          "dev" ∈ modes) ∧
      (GetMode r.labels = "Deploy" →
        ∃ modes, GetRunningModes odolabels application (some client) name = (some modes, none) ∧
          "deploy" ∈ modes)) ∧
    (resourceList.filter (fun r => decide (r.kind ≠ "PackageManifest")) ≠ [] →
      (∀ r ∈ resourceList.filter (fun r => decide (r.kind ≠ "PackageManifest")),
        GetMode r.labels = "Dev") →
      GetRunningModes odolabels application (some client) name = (some {"dev"}, none)) := by
  have hDev : strings_ToLower "Dev" = "dev" := by decide
  have hDeploy : strings_ToLower "Deploy" = "deploy" := by decide
  have hres : getResourcesForComponent odolabels application client name
      client.GetCurrentNamespace =
      .ok (resourceList.filter (fun r => decide (r.kind ≠ "PackageManifest"))) := by
    unfold getResourcesForComponent
    simp only []
    rw [h]
  have hfound : ∀ matching : List Unstructured, matching ≠ [] →
      (if matching.length = 0 then
        ((none : Option RunningModes),
          some (Error.noComponentFound name client.GetCurrentNamespace))
      else (some (collectModes matching), none)) =
      (some (modeLabels matching).toFinset, none) := by
    intro matching hne
    cases matching with
    | nil => exact absurd rfl hne
    | cons r rs =>
      simp only [List.length_cons, Nat.add_one_ne_zero, if_false, collectModes_eq]
  have hmem : ∀ (matching : List Unstructured) (r : Unstructured) (m : String),
      r ∈ matching → m ≠ "" → GetMode r.labels = m →
      strings_ToLower m ∈ modeLabels matching := by
    intro matching r m hr hm hrm
    unfold modeLabels
    refine List.mem_map.2 ⟨m, List.mem_filter.2 ⟨List.mem_map.2 ⟨r, hr, hrm⟩, ?_⟩, rfl⟩
    simpa using hm
  unfold GetRunningModes
  simp only [hres]
  generalize resourceList.filter (fun r => decide (r.kind ≠ "PackageManifest")) = matching
  refine ⟨?_, ?_, ?_, ?_, ?_⟩
  · cases matching with
    | nil => simp
    | cons r rs => simp
  · cases matching with
    | nil => simp
    | cons r rs => simp
  · intro hne
    rw [hfound matching hne]
    refine ⟨rfl, ?_⟩
    intro hm
    rw [hm]
    rfl
  · intro r hr
    have hne : matching ≠ [] := List.ne_nil_of_mem hr
    rw [hfound matching hne]
    constructor
    · intro hm
      refine ⟨_, rfl, List.mem_toFinset.2 ?_⟩
      have := hmem matching r "Dev" hr (by decide) hm
      rwa [hDev] at this
    · intro hm
      refine ⟨_, rfl, List.mem_toFinset.2 ?_⟩
      have := hmem matching r "Deploy" hr (by decide) hm
      rwa [hDeploy] at this
  · intro hne hall
    rw [hfound matching hne]
    have hset : (modeLabels matching).toFinset = {"dev"} := by
      ext m
      rw [List.mem_toFinset, Finset.mem_singleton]
      constructor
      · intro hm
        unfold modeLabels at hm
        obtain ⟨l, hl, rfl⟩ := List.mem_map.1 hm
        obtain ⟨r, hr, rfl⟩ := List.mem_map.1 (List.mem_filter.1 hl).1
        rw [hall r hr, hDev]
      · intro hm
        cases matching with
        | nil => exact absurd rfl hne
        | cons r rs =>
          have := hmem (r :: rs) r "Dev" (List.mem_cons_self _ _) (by decide)
            (hall r (List.mem_cons_self _ _))
          rw [hDev] at this
          rw [hm]
          exact this
    rw [hset]

/-- Witness of C17 on the two resources of the component `app1`, labelled `Dev` and
`Deploy`: the component is found running in exactly {dev, deploy}. -/
theorem GetRunningModes_found_witness :
    (clientListing capitalResources).GetAllResourcesFromSelector
        (sampleLabels.GetSelector "app1" "app" sampleLabels.ComponentAnyMode false)
        (clientListing capitalResources).GetCurrentNamespace = .ok capitalResources ∧
    capitalResources.filter (fun r => decide (r.kind ≠ "PackageManifest")) ≠ [] ∧
    GetRunningModes sampleLabels "app" (some (clientListing capitalResources)) "app1" =
      (some {"dev", "deploy"}, none) ∧
    (∃ modes, GetRunningModes sampleLabels "app" (some (clientListing capitalResources))
        "app1" = (some modes, none) ∧ "dev" ∈ modes) ∧
    (∃ modes, GetRunningModes sampleLabels "app" (some (clientListing capitalResources))
        "app1" = (some modes, none) ∧ "deploy" ∈ modes) :=
  ⟨rfl, by decide,
    ((GetRunningModes_found sampleLabels "app" (clientListing capitalResources) "app1"
      capitalResources rfl).2.2.1 (by decide)).1.trans (by
        have hl : modeLabels (capitalResources.filter
            (fun r => decide (r.kind ≠ "PackageManifest"))) = ["dev", "deploy"] := by decide
        rw [hl]
        rfl),
    ((GetRunningModes_found sampleLabels "app" (clientListing capitalResources) "app1"
      capitalResources rfl).2.2.2.1 capitalDeployment (by decide)).1 (by decide),
    ((GetRunningModes_found sampleLabels "app" (clientListing capitalResources) "app1"
      capitalResources rfl).2.2.2.1 capitalService (by decide)).2 (by decide)⟩

/-- C18, as stated, fails: the resource query fails with a transport error, and
`GetRunningModes` returns nil running modes and a nil error. -/
theorem GetRunningModes_error_counterexample :
    failingClient.GetAllResourcesFromSelector
        (sampleLabels.GetSelector "app1" "app" sampleLabels.ComponentAnyMode false)
        failingClient.GetCurrentNamespace = .error (.other "connection refused") ∧
    GetRunningModes sampleLabels "app" (some failingClient) "app1" = (none, none) := by
  decide

/-- C18, amended: `GetRunningModes` does not propagate a failure of the cluster resource
query: when `GetAllResourcesFromSelector` returns an error, `GetRunningModes` returns nil
running modes and a nil error, as it does for a nil client. -/
theorem GetRunningModes_error (odolabels : LabelsPackage) (application : String)
    (client : ClientInterface) (name : String) (err : Error)
    (h : client.GetAllResourcesFromSelector
        (odolabels.GetSelector name application odolabels.ComponentAnyMode false)
        client.GetCurrentNamespace = .error err) :
    GetRunningModes odolabels application (some client) name = (none, none) ∧
    GetRunningModes odolabels application none name = (none, none) := by
  refine ⟨?_, rfl⟩
  unfold GetRunningModes getResourcesForComponent
  simp only []
  rw [h]

/-- Witness of the amended C18 on a client whose query fails. -/
theorem GetRunningModes_error_witness :
    GetRunningModes sampleLabels "app" (some failingClient) "app1" = (none, none) ∧
    GetRunningModes sampleLabels "app" none "app1" = (none, none) :=
  GetRunningModes_error sampleLabels "app" failingClient "app1" (.other "connection refused")
    rfl

theorem length_pos_iff (str : String) : str.length > 0 ↔ str ≠ "" := by
  obtain ⟨data⟩ := str
  cases data with
  | nil => simp [String.length]
  | cons c cs =>
    simp only [String.length, List.length_cons, gt_iff_lt, Nat.zero_lt_succ, ne_eq, true_iff]
    intro h
    have hdata := congrArg String.data h
    simp at hdata

theorem foldl_overwriteUnknown (values : List String) :
    ∀ current : String,
      values.foldl overwriteUnknown current =
        if current = UnknownValue then firstKnown values else current := by
  induction values with
  | nil =>
    intro current
    by_cases h : current = UnknownValue
    · simp [h, firstKnown]
    · simp [h]
  | cons v rest ih =>
    intro current
    rw [List.foldl_cons, ih]
    simp only [overwriteUnknown, firstKnown, length_pos_iff, List.find?_cons]
    by_cases hc : current = UnknownValue
    · by_cases hv : v = ""
      · simp [hc, hv]
      · by_cases hu : v = UnknownValue
        · simp [hc, hv, hu]
        · simp [hc, hv, hu]
    · simp [hc]

theorem devfileInfoStep_eq (md : DevfileMetadata) (r : Unstructured) :
    devfileInfoStep md r =
      { md with
        Name := overwriteUnknown md.Name (GetComponentName r.labels)
        ProjectType :=
          match GetProjectType r.labels r.annotations with
          | none => md.ProjectType
          | some typ => overwriteUnknown md.ProjectType typ } := by
  unfold devfileInfoStep overwriteUnknown
  simp only []
  cases GetProjectType r.labels r.annotations with
  | none => split_ifs <;> rfl
  | some typ =>
    simp only []
    split_ifs <;> rfl

theorem foldl_devfileInfoStep (list : List Unstructured) :
    ∀ md : DevfileMetadata,
      list.foldl devfileInfoStep md =
        { md with
          Name := (namesSeen list).foldl overwriteUnknown md.Name
          ProjectType := (typesSeen list).foldl overwriteUnknown md.ProjectType } := by
  induction list with
  | nil => intro md; rfl
  | cons r rest ih =>
    intro md
    rw [List.foldl_cons, ih, devfileInfoStep_eq]
    unfold namesSeen typesSeen
    cases hg : GetProjectType r.labels r.annotations with
    | none => simp [List.filterMap_cons, hg]
    | some typ => simp [List.filterMap_cons, hg]

/-- C19, as stated, fails: the first resource of the component is annotated with the
project type "Unknown" and the second with "nodejs"; the first non-empty project type seen
is "Unknown", yet the metadata returned has the project type "nodejs". -/
theorem GetDevfileInfoFromCluster_counterexample :
    (unknownFirstResources.filter (fun r => decide (r.kind ≠ "PackageManifest"))) =
      unknownFirstResources ∧
    GetDevfileInfoFromCluster sampleLabels "app" (clientListing unknownFirstResources) "app1" =
      (some { Name := "app1", DisplayName := "Unknown", ProjectType := "nodejs",
              Language := "Unknown", Version := "Unknown", Description := "Unknown" }, none) ∧
    firstNonEmpty (typesSeen unknownFirstResources) = "Unknown" := by
  decide

/-- C19, amended: for every non-empty list of resources matching the component,
`GetDevfileInfoFromCluster` returns metadata in which `Name` is the first component-name
label seen that is neither empty nor the literal "Unknown" and `ProjectType` is the first
readable project type seen that is neither empty nor the literal "Unknown" (each "Unknown"
when none is seen), while `DisplayName`, `Language`, `Version` and `Description` are all
the literal "Unknown". -/
theorem GetDevfileInfoFromCluster_metadata (odolabels : LabelsPackage) (application : String)
    (client : ClientInterface) (name : String) (resourceList : List Unstructured)
    (h : client.GetAllResourcesFromSelector
        (odolabels.GetSelector name application odolabels.ComponentAnyMode false)
        client.GetCurrentNamespace = .ok resourceList)
    (hne : resourceList.filter (fun r => decide (r.kind ≠ "PackageManifest")) ≠ []) :
    ∃ metadata,
      GetDevfileInfoFromCluster odolabels application client name = (some metadata, none) ∧
      metadata.Name = firstKnown (namesSeen
        (resourceList.filter (fun r => decide (r.kind ≠ "PackageManifest")))) ∧
      metadata.ProjectType = firstKnown (typesSeen
        (resourceList.filter (fun r => decide (r.kind ≠ "PackageManifest")))) ∧
      metadata.DisplayName = UnknownValue ∧ metadata.Language = UnknownValue ∧
      metadata.Version = UnknownValue ∧ metadata.Description = UnknownValue := by
  have hres : getResourcesForComponent odolabels application client name
      client.GetCurrentNamespace =
      .ok (resourceList.filter (fun r => decide (r.kind ≠ "PackageManifest"))) := by
    unfold getResourcesForComponent
    simp only []
    rw [h]
  unfold GetDevfileInfoFromCluster
  simp only [hres]
  revert hne
  generalize resourceList.filter (fun r => decide (r.kind ≠ "PackageManifest")) = matching
  intro hne
  have hlen : ¬ matching.length = 0 := by
    rw [List.length_eq_zero]; exact hne
  rw [if_neg hlen, foldl_devfileInfoStep]
  refine ⟨_, rfl, ?_, ?_, rfl, rfl, rfl, rfl⟩
  · simp [foldl_overwriteUnknown]
  · simp [foldl_overwriteUnknown]

/-- Witness of the amended C19 on the two resources whose first project type is
"Unknown". -/
theorem GetDevfileInfoFromCluster_metadata_witness :
    ∃ metadata,
      GetDevfileInfoFromCluster sampleLabels "app" (clientListing unknownFirstResources)
        "app1" = (some metadata, none) ∧
      metadata.Name = firstKnown (namesSeen
        (unknownFirstResources.filter (fun r => decide (r.kind ≠ "PackageManifest")))) ∧
      metadata.ProjectType = firstKnown (typesSeen
        (unknownFirstResources.filter (fun r => decide (r.kind ≠ "PackageManifest")))) ∧
      metadata.DisplayName = UnknownValue ∧ metadata.Language = UnknownValue ∧
      metadata.Version = UnknownValue ∧ metadata.Description = UnknownValue :=
  GetDevfileInfoFromCluster_metadata sampleLabels "app" (clientListing unknownFirstResources)
    "app1" unknownFirstResources rfl (by decide)

theorem Contains_eq_false_iff (component : ComponentAbstract)
    (components : List ComponentAbstract) :
    Contains component components = false ↔ ∀ c ∈ components, c.Name ≠ component.Name := by
  induction components with
  | nil => simp [Contains]
  | cons c rest ih =>
    rw [Contains, List.forall_mem_cons, ← ih]
    by_cases h : component.Name = c.Name
    · simp [h]
    · simp [h, Ne.symm h]

theorem ListAllComponents_eq (client : Option ClientInterface)
    (podmanClient : Option PodmanClient) (namespace_ : String)
    (devObj : Option DevfileMetadata) (componentName : String)
    (clusterComponents podmanComponents : List ComponentAbstract)
    (hc : match client with
      | none => clusterComponents = []
      | some c => ListAllClusterComponents c namespace_ = .ok clusterComponents)
    (hp : match podmanClient with
      | none => podmanComponents = []
      | some p => p.ListAllComponents = .ok podmanComponents) :
    ListAllComponents client podmanClient namespace_ devObj componentName =
      .ok (clusterComponents ++ podmanComponents ++
        (if componentName ≠ "" ∧
            ∀ c ∈ clusterComponents ++ podmanComponents, c.Name ≠ componentName then
          [localEntry devObj componentName]
        else []), componentName) := by
  have hlocal : ∀ devObj : Option DevfileMetadata,
      (match devObj with
        | none => ({ Name := componentName, ManagedBy := "", ManagedByVersion := "",
                     RunningIn := some NewRunningModes, Typ := "", RunningOn := "" } :
                     ComponentAbstract)
        | some metadata =>
          { Name := componentName, ManagedBy := "", ManagedByVersion := "",
            RunningIn := some NewRunningModes,
            Typ := GetComponentTypeFromDevfileMetadata metadata, RunningOn := "" }) =
        localEntry devObj componentName := by
    intro d
    cases d <;> rfl
  have hname : ∀ devObj : Option DevfileMetadata,
      (localEntry devObj componentName).Name = componentName := fun _ => rfl
  have hfinal : ∀ all : List ComponentAbstract,
      (if (localEntry devObj componentName).Name ≠ "" then
        if (!Contains (localEntry devObj componentName) all) = true then
          (Except.ok (all ++ [localEntry devObj componentName],
            (localEntry devObj componentName).Name) :
            Except Error (List ComponentAbstract × String))
        else .ok (all, (localEntry devObj componentName).Name)
      else .ok (all, "")) =
      .ok (all ++ (if componentName ≠ "" ∧ ∀ c ∈ all, c.Name ≠ componentName then
          [localEntry devObj componentName] else []), componentName) := by
    intro all
    rw [hname]
    by_cases hn : componentName = ""
    · rw [if_neg (by simpa using hn), if_neg (fun hboth => hboth.1 hn), List.append_nil, hn]
    · rw [if_pos hn]
      cases hcont : Contains (localEntry devObj componentName) all with
      | false =>
        have hall := (Contains_eq_false_iff _ _).1 hcont
        rw [hname] at hall
        rw [if_pos (show componentName ≠ "" ∧ ∀ c ∈ all, c.Name ≠ componentName from
          ⟨hn, hall⟩)]
        rfl
      | true =>
        have hnot : ¬ (componentName ≠ "" ∧ ∀ c ∈ all, c.Name ≠ componentName) := by
          rintro ⟨_, hall⟩
          have hfalse := (Contains_eq_false_iff (localEntry devObj componentName) all).2
            (by rw [hname]; exact hall)
          rw [hcont] at hfalse
          cases hfalse
        rw [if_neg hnot, List.append_nil]
        rfl
  unfold ListAllComponents
  cases client with
  | none =>
    simp only [] at hc
    subst hc
    cases podmanClient with
    | none =>
      simp only [] at hp
      subst hp
      simp only [hlocal, List.append_nil]
      exact hfinal _
    | some p =>
      simp only [] at hp
      simp only [hp, hlocal]
      exact hfinal _
  | some c =>
    simp only [] at hc
    cases podmanClient with
    | none =>
      simp only [] at hp
      subst hp
      simp only [hc, hlocal, List.nil_append, List.append_nil]
      exact hfinal _
    | some p =>
      simp only [] at hp
      simp only [hc, hp, hlocal, List.nil_append]
      exact hfinal _

/-- C20: `ListAllComponents` returns the cluster components followed by the local-engine
components, followed by one entry for the local component exactly when `componentName` is
non-empty and no entry already listed has that name; when an entry with that name is
already listed the list is left unchanged, and the returned component-in-devfile name
equals `componentName`. A nil client or a nil podman client lists nothing. -/
theorem ListAllComponents_composition (client : Option ClientInterface)
    (podmanClient : Option PodmanClient) (namespace_ : String)
    (devObj : Option DevfileMetadata) (componentName : String)
    (clusterComponents podmanComponents : List ComponentAbstract)
    (hc : match client with
      | none => clusterComponents = []
      | some c => ListAllClusterComponents c namespace_ = .ok clusterComponents)
    (hp : match podmanClient with
      | none => podmanComponents = []
      | some p => p.ListAllComponents = .ok podmanComponents) :
    ListAllComponents client podmanClient namespace_ devObj componentName =
      .ok (clusterComponents ++ podmanComponents ++
        (if componentName ≠ "" ∧
            ∀ c ∈ clusterComponents ++ podmanComponents, c.Name ≠ componentName then
          [localEntry devObj componentName]
        else []), componentName) :=
  ListAllComponents_eq client podmanClient namespace_ devObj componentName clusterComponents
    podmanComponents hc hp

/-- Witness of C20: the cluster lists `app1`, the local engine lists `frontend`, and the
local directory holds the component `backend`, absent from both. -/
theorem ListAllComponents_composition_witness :
    ListAllComponents (some (clientListing app1Resources)) (some samplePodman) "ns"
        (some { ProjectType := "nodejs" }) "backend" =
      .ok (aggregate app1Resources ++
          [{ Name := "frontend", ManagedBy := "odo", ManagedByVersion := "v3.0.0",
             RunningIn := some {"dev"}, Typ := "go", RunningOn := "podman" }] ++
        (if "backend" ≠ "" ∧
            ∀ c ∈ aggregate app1Resources ++
              [{ Name := "frontend", ManagedBy := "odo", ManagedByVersion := "v3.0.0",
                 RunningIn := some {"dev"}, Typ := "go", RunningOn := "podman" }],
              c.Name ≠ "backend" then
          [localEntry (some { ProjectType := "nodejs" }) "backend"]
        else []), "backend") :=
  ListAllComponents_composition (some (clientListing app1Resources)) (some samplePodman) "ns"
    (some { ProjectType := "nodejs" }) "backend" (aggregate app1Resources)
    [{ Name := "frontend", ManagedBy := "odo", ManagedByVersion := "v3.0.0",
       RunningIn := some {"dev"}, Typ := "go", RunningOn := "podman" }] rfl rfl

/-! ## More claims on `ListAllComponents` and `GetServiceInstances` -/

theorem ListAllClusterComponents_pairwise (client : ClientInterface) (namespace_ : String)
    (components : List ComponentAbstract)
    (h : ListAllClusterComponents client namespace_ = .ok components) :
    components.Pairwise (fun a b => a.Name ≠ b.Name) := by
  unfold ListAllClusterComponents at h
  cases hq : client.GetAllResourcesFromSelector "" namespace_ with
  | error err => rw [hq] at h; cases h
  | ok resourceList =>
    rw [hq] at h
    simp only [Except.ok.injEq] at h
    subst h
    have hnodup : ((aggregate resourceList).map (fun c => c.Name)).Nodup := by
      rw [aggregate_names]
      exact firstOccurrences_nodup _
    exact List.pairwise_map.1 hnodup

/-- C21, as stated, fails: the component `app1` runs on the cluster and on the local
container engine, whose list is duplicate-free, and `ListAllComponents` lists it twice. -/
theorem ListAllComponents_duplicate_counterexample :
    [podmanApp1].Pairwise (fun a b => a.Name ≠ b.Name) ∧
    ListAllComponents (some (clientListing app1Resources)) (some overlapPodman) "ns" none "" =
      .ok ([{ Name := "app1", ManagedBy := "", ManagedByVersion := "",
              RunningIn := some {"deploy", "dev"}, Typ := "nodejs", RunningOn := "cluster" },
            podmanApp1], "") ∧
    ¬ ([({ Name := "app1", ManagedBy := "", ManagedByVersion := "",
           RunningIn := some {"deploy", "dev"}, Typ := "nodejs", RunningOn := "cluster" } :
           ComponentAbstract),
        podmanApp1].Pairwise (fun a b => a.Name ≠ b.Name)) := by
  refine ⟨by simp, by decide, ?_⟩
  simp [podmanApp1]

/-- C21, amended: for every set of cluster resources and every duplicate-free list of
components reported by the local container engine, the list returned by
`ListAllComponents` is the cluster entries, then the local-engine entries, then at most
one entry for the local directory; no two cluster entries and no two local-engine entries
have the same `Name`, and the local-directory entry has the `Name` of no other entry. A
component present both on the cluster and on the local engine is listed twice, once for
each. -/
theorem ListAllComponents_names (client : Option ClientInterface)
    (podmanClient : Option PodmanClient) (namespace_ : String)
    (devObj : Option DevfileMetadata) (componentName : String)
    (clusterComponents podmanComponents : List ComponentAbstract)
    (hc : match client with
      | none => clusterComponents = []
      | some c => ListAllClusterComponents c namespace_ = .ok clusterComponents)
    (hp : match podmanClient with
      | none => podmanComponents = []
      | some p => p.ListAllComponents = .ok podmanComponents)
    (hnodup : podmanComponents.Pairwise (fun a b => a.Name ≠ b.Name)) :
    ∃ localEntries,
      ListAllComponents client podmanClient namespace_ devObj componentName =
        .ok (clusterComponents ++ podmanComponents ++ localEntries, componentName) ∧
      clusterComponents.Pairwise (fun a b => a.Name ≠ b.Name) ∧
      podmanComponents.Pairwise (fun a b => a.Name ≠ b.Name) ∧
      localEntries.length ≤ 1 ∧
      ∀ e ∈ localEntries, ∀ c ∈ clusterComponents ++ podmanComponents, c.Name ≠ e.Name := by
  have hcluster : clusterComponents.Pairwise (fun a b => a.Name ≠ b.Name) := by
    cases client with
    | none => simp only [] at hc; subst hc; exact List.Pairwise.nil
    | some c => exact ListAllClusterComponents_pairwise c namespace_ _ hc
  refine ⟨_, ListAllComponents_eq client podmanClient namespace_ devObj componentName
    clusterComponents podmanComponents hc hp, hcluster, hnodup, ?_, ?_⟩
  · split_ifs <;> simp
  · intro e he c hcmem
    split_ifs at he with hcond
    · rw [List.mem_singleton] at he
      rw [he]
      exact hcond.2 c hcmem
    · simp at he

/-- Witness of the amended C21 on the component `app1` that runs on the cluster and on
the local engine, inside the directory of a component `backend`. -/
theorem ListAllComponents_names_witness :
    ∃ localEntries,
      ListAllComponents (some (clientListing app1Resources)) (some overlapPodman) "ns" none
          "backend" =
        .ok (aggregate app1Resources ++ [podmanApp1] ++ localEntries, "backend") ∧
      (aggregate app1Resources).Pairwise (fun a b => a.Name ≠ b.Name) ∧
      [podmanApp1].Pairwise (fun a b => a.Name ≠ b.Name) ∧
      localEntries.length ≤ 1 ∧
      ∀ e ∈ localEntries, ∀ c ∈ aggregate app1Resources ++ [podmanApp1], c.Name ≠ e.Name :=
  ListAllComponents_names (some (clientListing app1Resources)) (some overlapPodman) "ns" none
    "backend" (aggregate app1Resources) [podmanApp1] rfl rfl (by simp)

/-- C22: `GetComponentTypeFromDevfileMetadata` returns `ProjectType` when it is non-empty,
otherwise `Language` when it is non-empty, otherwise "Not available"; and the
local-directory entry appended by `ListAllComponents` carries exactly this value as its
`Typ` whenever a devfile is supplied. -/
theorem ListAllComponents_local_type (metadata : DevfileMetadata) :
    (metadata.ProjectType ≠ "" →
      GetComponentTypeFromDevfileMetadata metadata = metadata.ProjectType) ∧
    (metadata.ProjectType = "" → metadata.Language ≠ "" →
      GetComponentTypeFromDevfileMetadata metadata = metadata.Language) ∧
    (metadata.ProjectType = "" → metadata.Language = "" →
      GetComponentTypeFromDevfileMetadata metadata = "Not available") ∧
    ∀ (client : Option ClientInterface) (podmanClient : Option PodmanClient)
      (namespace_ componentName : String)
      (clusterComponents podmanComponents : List ComponentAbstract),
      (match client with
        | none => clusterComponents = []
        | some c => ListAllClusterComponents c namespace_ = .ok clusterComponents) →
      (match podmanClient with
        | none => podmanComponents = []
        | some p => p.ListAllComponents = .ok podmanComponents) →
      componentName ≠ "" →
      (∀ c ∈ clusterComponents ++ podmanComponents, c.Name ≠ componentName) →
      ∃ entry,
        ListAllComponents client podmanClient namespace_ (some metadata) componentName =
          .ok (clusterComponents ++ podmanComponents ++ [entry], componentName) ∧
        entry.Name = componentName ∧
        entry.Typ = GetComponentTypeFromDevfileMetadata metadata := by
  refine ⟨?_, ?_, ?_, ?_⟩
  · intro h
    unfold GetComponentTypeFromDevfileMetadata
    rw [if_pos h]
  · intro h1 h2
    unfold GetComponentTypeFromDevfileMetadata
    rw [if_neg (by simpa using h1), if_pos h2]
  · intro h1 h2
    unfold GetComponentTypeFromDevfileMetadata
    rw [if_neg (by simpa using h1), if_neg (by simpa using h2)]
    rfl
  · intro client podmanClient namespace_ componentName clusterComponents podmanComponents
      hc hp hne hfree
    refine ⟨localEntry (some metadata) componentName, ?_, rfl, rfl⟩
    rw [ListAllComponents_eq client podmanClient namespace_ (some metadata) componentName
      clusterComponents podmanComponents hc hp,
      if_pos (show componentName ≠ "" ∧
        ∀ c ∈ clusterComponents ++ podmanComponents, c.Name ≠ componentName from
        ⟨hne, hfree⟩)]

/-- Witness of C22: a devfile that declares the language alone, in the directory of the
component `backend`, beside `app1` on the cluster and `frontend` on the local engine. -/
theorem ListAllComponents_local_type_witness :
    GetComponentTypeFromDevfileMetadata { Language := "javascript" } = "javascript" ∧
    ∃ entry,
      ListAllComponents (some (clientListing app1Resources)) (some samplePodman) "ns"
          (some { Language := "javascript" }) "backend" =
        .ok (aggregate app1Resources ++
          [{ Name := "frontend", ManagedBy := "odo", ManagedByVersion := "v3.0.0",
             RunningIn := some {"dev"}, Typ := "go", RunningOn := "podman" }] ++ [entry],
          "backend") ∧
      entry.Name = "backend" ∧
      entry.Typ = GetComponentTypeFromDevfileMetadata { Language := "javascript" } :=
  ⟨(ListAllComponents_local_type { Language := "javascript" }).2.1 rfl (by decide),
    (ListAllComponents_local_type { Language := "javascript" }).2.2.2
      (some (clientListing app1Resources)) (some samplePodman) "ns" "backend"
      (aggregate app1Resources)
      [{ Name := "frontend", ManagedBy := "odo", ManagedByVersion := "v3.0.0",
         RunningIn := some {"dev"}, Typ := "go", RunningOn := "podman" }]
      rfl rfl (by decide) (by decide)⟩

/-- C28: when the Service Binding Operator is not installed (`IsServiceBindingSupported`
reports false), `GetServiceInstances` returns the explanatory "Service Binding Operator is
not installed" error and a nil map, and the probe is the only call it makes on the client:
no bindable-kinds lookup and no resource listing; an error from the support probe itself
is returned unchanged. -/
theorem GetServiceInstances_not_installed (client : ClientInterface) (namespace_ : String) :
    (client.IsServiceBindingSupported = .ok false →
      GetServiceInstances client namespace_ =
        (.error (.errorf operatorNotInstalledMessage), [.IsServiceBindingSupported])) ∧
    (∀ err, client.IsServiceBindingSupported = .error err →
      GetServiceInstances client namespace_ = (.error err, [.IsServiceBindingSupported])) := by
  constructor
  · intro h
    unfold GetServiceInstances checkServiceBindingOperatorInstalled
    rw [h]
    rfl
  · intro err h
    unfold GetServiceInstances checkServiceBindingOperatorInstalled
    rw [h]

/-- Witness of C28: a cluster without the operator, and a cluster whose probe fails. -/
theorem GetServiceInstances_not_installed_witness :
    GetServiceInstances noOperatorClient "ns" =
      (.error (.errorf operatorNotInstalledMessage), [.IsServiceBindingSupported]) ∧
    GetServiceInstances probeFailsClient "ns" =
      (.error (.other "connection refused"), [.IsServiceBindingSupported]) :=
  ⟨(GetServiceInstances_not_installed noOperatorClient "ns").1 rfl,
    (GetServiceInstances_not_installed probeFailsClient "ns").2 (.other "connection refused")
      rfl⟩

/-! ## The claims on the local run state store -/

theorem save_ok (o o2 : State) (h : State.save o = (none, o2)) :
    o2 = { o with fs := { o.fs with file := .document o.content } } := by
  unfold State.save at h
  cases hm : o.fs.mkdirAllError with
  | some err => rw [hm] at h; cases h
  | none =>
    rw [hm] at h
    cases hw : o.fs.writeFileError with
    | some err => rw [hw] at h; cases h
    | none =>
      rw [hw] at h
      simp only [Prod.mk.injEq, true_and] at h
      exact h.symm

theorem GetForwardedPorts_of_document (o : State) (content : Content)
    (h : o.fs.file = .document content) :
    State.GetForwardedPorts o = ((content.ForwardedPorts, none), { o with content := content }) := by
  unfold State.GetForwardedPorts State.read
  rw [h]

/-- C25: for every list of forwarded ports ps, `SetForwardedPorts(ps)` that succeeds
followed by `GetForwardedPorts()` on the same store returns ps unchanged (same entries,
same order, same field values) and no error; the list returned is the one last set,
whatever was stored before (full overwrite, not a merge). -/
theorem SetForwardedPorts_then_Get (o o2 : State) (ps : List ForwardedPort)
    (h : State.SetForwardedPorts o ps = (none, o2)) :
    (State.GetForwardedPorts o2).1 = (ps, none) ∧
    o2.fs.file = .document { ForwardedPorts := ps } := by
  unfold State.SetForwardedPorts at h
  have h2 := save_ok _ _ h
  have hfile : o2.fs.file = .document { ForwardedPorts := ps } := by rw [h2]
  exact ⟨by rw [GetForwardedPorts_of_document o2 _ hfile], hfile⟩

/-- Witness of C25: two ports set on a store that held a stale one. -/
theorem SetForwardedPorts_then_Get_witness :
    State.SetForwardedPorts staleState samplePorts =
      (none, { content := { ForwardedPorts := samplePorts },
               fs := { file := .document { ForwardedPorts := samplePorts } } }) ∧
    (State.GetForwardedPorts
      { content := { ForwardedPorts := samplePorts },
        fs := { file := .document { ForwardedPorts := samplePorts } } }).1 =
      (samplePorts, none) :=
  ⟨rfl, (SetForwardedPorts_then_Get staleState
    { content := { ForwardedPorts := samplePorts },
      fs := { file := .document { ForwardedPorts := samplePorts } } } samplePorts rfl).1⟩

/-- C26: `GetForwardedPorts` on a store whose state file does not exist returns an empty
result and no error; when reading the file fails for any other reason (or its content
cannot be decoded), `GetForwardedPorts` returns that error. -/
theorem GetForwardedPorts_errors (o : State) :
    (o.fs.file = .missing → (State.GetForwardedPorts o).1 = ([], none)) ∧
    (∀ err, o.fs.file = .unreadable err → err.IsNotExist = false →
      (State.GetForwardedPorts o).1 = ([], some err)) ∧
    (∀ err, o.fs.file = .malformed err → err.IsNotExist = false →
      (State.GetForwardedPorts o).1 = ([], some err)) := by
  refine ⟨?_, ?_, ?_⟩
  · intro h
    unfold State.GetForwardedPorts State.read
    rw [h]
    rfl
  · intro err h hne
    unfold State.GetForwardedPorts State.read
    rw [h]
    simp [hne]
  · intro err h hne
    unfold State.GetForwardedPorts State.read
    rw [h]
    simp [hne]

/-- Witness of C26: a fresh store, a store whose file cannot be read, and a store whose
file cannot be decoded. -/
theorem GetForwardedPorts_errors_witness :
    (State.GetForwardedPorts {}).1 = ([], none) ∧
    (State.GetForwardedPorts unreadableState).1 = ([], some (.other "permission denied")) ∧
    (State.GetForwardedPorts malformedState).1 = ([], some (.other "invalid character")) :=
  ⟨(GetForwardedPorts_errors {}).1 rfl,
    (GetForwardedPorts_errors unreadableState).2.1 (.other "permission denied") rfl rfl,
    (GetForwardedPorts_errors malformedState).2.2 (.other "invalid character") rfl rfl⟩

/-- C27: for every prior content of the store, `SaveExit` that succeeds followed by
`GetForwardedPorts()` returns an empty list of forwarded ports and no error, and the state
file still exists after `SaveExit`. -/
theorem SaveExit_then_Get (o o2 : State) (h : State.SaveExit o = (none, o2)) :
    (State.GetForwardedPorts o2).1 = ([], none) ∧
    o2.fs.file = .document { ForwardedPorts := [] } ∧ o2.fs.file ≠ .missing := by
  unfold State.SaveExit at h
  have h2 := save_ok _ _ h
  have hfile : o2.fs.file = .document { ForwardedPorts := [] } := by rw [h2]
  refine ⟨by rw [GetForwardedPorts_of_document o2 _ hfile], hfile, ?_⟩
  rw [hfile]
  simp

/-- Witness of C27 on a store that held a stale port. -/
theorem SaveExit_then_Get_witness :
    State.SaveExit staleState =
      (none, { content := {}, fs := { file := .document {} } }) ∧
    (State.GetForwardedPorts { content := {}, fs := { file := .document {} } }).1 =
      ([], none) ∧
    ({ content := {}, fs := { file := .document {} } } : State).fs.file ≠ .missing :=
  ⟨rfl,
    (SaveExit_then_Get staleState { content := {}, fs := { file := .document {} } } rfl).1,
    (SaveExit_then_Get staleState { content := {}, fs := { file := .document {} } } rfl).2.2⟩

/-! ## Lemmas on `ListRoutesAndIngresses` -/

theorem ingressRulesLoop_some (rules : List IngressRule) :
    ∀ (acc out : List Rules), ingressRulesLoop rules acc = some out →
      out = acc ++ rules.map ruleOf ∧ ∀ rule ∈ rules, rule.HTTP ≠ none := by
  induction rules with
  | nil =>
    intro acc out h
    simp only [ingressRulesLoop, Option.some.injEq] at h
    simp [h]
  | cons rule rest ih =>
    intro acc out h
    rw [ingressRulesLoop] at h
    cases hh : rule.HTTP with
    | none => rw [hh] at h; cases h
    | some httpPaths =>
      rw [hh] at h
      simp only [] at h
      obtain ⟨h1, h2⟩ := ih _ _ h
      constructor
      · rw [h1, List.map_cons, List.append_assoc]
        simp [ruleOf, hh]
      · intro r hr
        rcases List.mem_cons.1 hr with hr | hr
        · rw [hr, hh]; simp
        · exact h2 r hr

theorem ingressRulesLoop_of_http (rules : List IngressRule) :
    ∀ acc : List Rules, (∀ rule ∈ rules, rule.HTTP ≠ none) →
      ingressRulesLoop rules acc = some (acc ++ rules.map ruleOf) := by
  induction rules with
  | nil => intro acc _; simp [ingressRulesLoop]
  | cons rule rest ih =>
    intro acc h
    rw [ingressRulesLoop]
    cases hh : rule.HTTP with
    | none => exact absurd hh (h rule (List.mem_cons_self _ _))
    | some httpPaths =>
      simp only []
      rw [ih _ (fun r hr => h r (List.mem_cons_of_mem _ hr)), List.map_cons, List.append_assoc]
      simp [ruleOf, hh]

theorem ingressRules_of_http (ing : Ingress) (h : ∀ rule ∈ ing.Rules, rule.HTTP ≠ none) :
    ingressRules ing = some (ingressData ing).Rules := by
  unfold ingressRules ingressData
  rw [ingressRulesLoop_of_http ing.Rules [] h]
  simp only [List.nil_append, List.length_eq_zero]
  by_cases hr : ing.Rules = []
  · simp [hr, wildcardRule]
  · simp [hr]

theorem ingressRules_some (ing : Ingress) (rules : List Rules)
    (h : ingressRules ing = some rules) :
    rules = (ingressData ing).Rules ∧ ∀ rule ∈ ing.Rules, rule.HTTP ≠ none := by
  have hhttp : ∀ rule ∈ ing.Rules, rule.HTTP ≠ none := by
    unfold ingressRules at h
    cases hl : ingressRulesLoop ing.Rules [] with
    | none => rw [hl] at h; cases h
    | some out => exact (ingressRulesLoop_some _ _ _ hl).2
  rw [ingressRules_of_http ing hhttp] at h
  exact ⟨(Option.some.inj h).symm, hhttp⟩

theorem ingressData_Rules_ne_nil (ing : Ingress) : (ingressData ing).Rules ≠ [] := by
  unfold ingressData
  by_cases hr : ing.Rules = []
  · simp [hr]
  · simp [hr]

theorem ingressesLoop_some (L : List Ingress) :
    ∀ (acc ings : List ConnectionData), ingressesLoop L acc = some ings →
      ings = acc ++ (L.filter (fun ing => decide (ing.OwnerReferences = none))).map ingressData := by
  induction L with
  | nil =>
    intro acc ings h
    simp only [ingressesLoop, Option.some.injEq] at h
    simp [h]
  | cons ing rest ih =>
    intro acc ings h
    rw [ingressesLoop] at h
    by_cases ho : ing.OwnerReferences = none
    · rw [if_neg (by simpa using ho)] at h
      cases hr : ingressRules ing with
      | none => rw [hr] at h; cases h
      | some rules =>
        rw [hr] at h
        simp only [] at h
        rw [ih _ _ h, List.filter_cons_of_pos (by simpa using ho), List.map_cons,
          List.append_assoc, (ingressRules_some ing rules hr).1]
        rfl
    · rw [if_pos ho] at h
      rw [ih _ _ h, List.filter_cons_of_neg (by simpa using ho)]

theorem ingressesLoop_of_http (L : List Ingress) :
    ∀ acc : List ConnectionData,
      (∀ ing ∈ L, ing.OwnerReferences = none → ∀ rule ∈ ing.Rules, rule.HTTP ≠ none) →
      ingressesLoop L acc =
        some (acc ++ (L.filter (fun ing => decide (ing.OwnerReferences = none))).map
          ingressData) := by
  induction L with
  | nil => intro acc _; simp [ingressesLoop]
  | cons ing rest ih =>
    intro acc h
    have hrest : ∀ i ∈ rest, i.OwnerReferences = none → ∀ rule ∈ i.Rules, rule.HTTP ≠ none :=
      fun i hi => h i (List.mem_cons_of_mem _ hi)
    rw [ingressesLoop]
    by_cases ho : ing.OwnerReferences = none
    · rw [if_neg (by simpa using ho), ingressRules_of_http ing (h ing (List.mem_cons_self _ _) ho)]
      simp only []
      rw [ih _ hrest, List.filter_cons_of_pos (by simpa using ho), List.map_cons,
        List.append_assoc]
      rfl
    · rw [if_pos ho, ih _ hrest, List.filter_cons_of_neg (by simpa using ho)]

theorem routesLoop_ok (L : List Unstructured) :
    ∀ (acc routes : List ConnectionData), routesLoop L acc = .ok routes →
      routes = acc ++ (L.filter (fun u => decide (u.ownerReferences = none))).map routeData := by
  induction L with
  | nil =>
    intro acc routes h
    simp only [routesLoop, Except.ok.injEq] at h
    simp [h]
  | cons u rest ih =>
    intro acc routes h
    rw [routesLoop] at h
    by_cases ho : u.ownerReferences = none
    · rw [if_neg (by simpa using ho)] at h
      cases hr : u.route with
      | error err => rw [hr] at h; cases h
      | ok route =>
        rw [hr] at h
        simp only [] at h
        rw [ih _ _ h, List.filter_cons_of_pos (by simpa using ho), List.map_cons,
          List.append_assoc]
        simp [routeData, hr]
    · rw [if_pos ho] at h
      rw [ih _ _ h, List.filter_cons_of_neg (by simpa using ho)]

theorem routesLoop_of_converted (L : List Unstructured) :
    ∀ acc : List ConnectionData,
      (∀ u ∈ L, u.ownerReferences = none → ∃ route, u.route = .ok route) →
      routesLoop L acc =
        .ok (acc ++ (L.filter (fun u => decide (u.ownerReferences = none))).map routeData) := by
  induction L with
  | nil => intro acc _; simp [routesLoop]
  | cons u rest ih =>
    intro acc h
    have hrest : ∀ v ∈ rest, v.ownerReferences = none → ∃ route, v.route = .ok route :=
      fun v hv => h v (List.mem_cons_of_mem _ hv)
    rw [routesLoop]
    by_cases ho : u.ownerReferences = none
    · obtain ⟨route, hr⟩ := h u (List.mem_cons_self _ _) ho
      rw [if_neg (by simpa using ho), hr]
      simp only []
      rw [ih _ hrest, List.filter_cons_of_pos (by simpa using ho), List.map_cons,
        List.append_assoc]
      simp [routeData, hr]
    · rw [if_pos ho, ih _ hrest, List.filter_cons_of_neg (by simpa using ho)]

theorem filter_free_eq {α : Type} (refs : α → Option (List String)) (L : List α)
    (hwf : ∀ x ∈ L, refs x ≠ some []) :
    L.filter (fun x => decide (refs x = none)) =
      L.filter (fun x => !bearsOwnerReference (refs x)) := by
  apply List.filter_congr
  intro x hx
  have := hwf x hx
  cases hr : refs x with
  | none => simp [bearsOwnerReference]
  | some l =>
    cases l with
    | nil => exact absurd hr this
    | cons a l => simp [bearsOwnerReference]

theorem ListRoutesAndIngresses_returned (odolabels : LabelsPackage) (client : ClientInterface)
    (componentName appName : String) (ingList : List Ingress)
    (ings routes : List ConnectionData)
    (h1 : client.ListIngresses client.GetCurrentNamespace
      (odolabels.GetSelector componentName appName odolabels.ComponentDeployMode false) =
        .ok ingList)
    (h : ListRoutesAndIngresses odolabels (some client) componentName appName =
      .returned ings routes none) :
    ingressesLoop ingList [] = some ings := by
  unfold ListRoutesAndIngresses at h
  simp only [h1] at h
  cases hl : ingressesLoop ingList [] with
  | none => rw [hl] at h; cases h
  | some ings2 =>
    rw [hl] at h
    simp only [] at h
    cases hp : client.IsProjectSupported.1 with
    | false =>
      simp only [hp, Bool.not_false, if_true, Outcome.returned.injEq] at h
      rw [h.1]
    | true =>
      simp only [hp, Bool.not_true, Bool.false_eq_true, if_false] at h
      cases hg : client.GetGVRFromGVK RouteGVK with
      | error err => rw [hg] at h; simp at h
      | ok gvr =>
        rw [hg] at h
        simp only [] at h
        cases hd : client.ListDynamicResources client.GetCurrentNamespace gvr
            (odolabels.GetSelector componentName appName odolabels.ComponentDeployMode false) with
        | error err => rw [hd] at h; simp at h
        | ok routeList =>
          rw [hd] at h
          simp only [] at h
          cases hr : routesLoop routeList [] with
          | error err => rw [hr] at h; simp at h
          | ok routes2 =>
            rw [hr] at h
            simp only [Outcome.returned.injEq] at h
            rw [h.1]

theorem ListRoutesAndIngresses_rules_ne_nil (odolabels : LabelsPackage)
    (client : Option ClientInterface) (componentName appName : String)
    (ings routes : List ConnectionData) (err : Option Error)
    (h : ListRoutesAndIngresses odolabels client componentName appName =
      .returned ings routes err) :
    ∀ cd ∈ ings ++ routes, cd.Rules ≠ [] := by
  have hings : ∀ (L : List Ingress) (out : List ConnectionData),
      ingressesLoop L [] = some out → ∀ cd ∈ out, cd.Rules ≠ [] := by
    intro L out hl cd hcd
    rw [ingressesLoop_some L [] out hl, List.nil_append] at hcd
    obtain ⟨ing, _, rfl⟩ := List.mem_map.1 hcd
    exact ingressData_Rules_ne_nil ing
  have hroutes : ∀ (L : List Unstructured) (out : List ConnectionData),
      routesLoop L [] = .ok out → ∀ cd ∈ out, cd.Rules ≠ [] := by
    intro L out hl cd hcd
    rw [routesLoop_ok L [] out hl, List.nil_append] at hcd
    obtain ⟨u, _, rfl⟩ := List.mem_map.1 hcd
    simp [routeData]
  unfold ListRoutesAndIngresses at h
  cases client with
  | none =>
    simp only [Outcome.returned.injEq] at h
    rw [← h.1, ← h.2.1]
    simp
  | some client =>
    simp only [] at h
    cases hi : client.ListIngresses client.GetCurrentNamespace
        (odolabels.GetSelector componentName appName odolabels.ComponentDeployMode false) with
    | error e =>
      rw [hi] at h
      simp only [Outcome.returned.injEq] at h
      rw [← h.1, ← h.2.1]
      simp
    | ok ingList =>
      rw [hi] at h
      simp only [] at h
      cases hl : ingressesLoop ingList [] with
      | none => rw [hl] at h; cases h
      | some ings2 =>
        rw [hl] at h
        simp only [] at h
        cases hp : client.IsProjectSupported.1 with
        | false =>
          simp only [hp, Bool.not_false, if_true, Outcome.returned.injEq] at h
          rw [← h.1, ← h.2.1, List.append_nil]
          exact hings ingList ings2 hl
        | true =>
          simp only [hp, Bool.not_true, Bool.false_eq_true, if_false] at h
          cases hg : client.GetGVRFromGVK RouteGVK with
          | error e =>
            rw [hg] at h
            simp only [Outcome.returned.injEq] at h
            rw [← h.1, ← h.2.1]
            simp
          | ok gvr =>
            rw [hg] at h
            simp only [] at h
            cases hd : client.ListDynamicResources client.GetCurrentNamespace gvr
                (odolabels.GetSelector componentName appName odolabels.ComponentDeployMode
                  false) with
            | error e =>
              rw [hd] at h
              simp only [Outcome.returned.injEq] at h
              rw [← h.1, ← h.2.1]
              simp
            | ok routeList =>
              rw [hd] at h
              simp only [] at h
              cases hr : routesLoop routeList [] with
              | error e =>
                rw [hr] at h
                simp only [Outcome.returned.injEq] at h
                rw [← h.1, ← h.2.1]
                simp
              | ok routes2 =>
                rw [hr] at h
                simp only [Outcome.returned.injEq] at h
                rw [← h.1, ← h.2.1]
                intro cd hcd
                rcases List.mem_append.1 hcd with hcd | hcd
                · exact hings ingList ings2 hl cd hcd
                · exact hroutes routeList routes2 hr cd hcd

theorem ListRoutesAndIngresses_kubernetes (odolabels : LabelsPackage) (client : ClientInterface)
    (componentName appName : String) (ingList : List Ingress)
    (h1 : client.ListIngresses client.GetCurrentNamespace
      (odolabels.GetSelector componentName appName odolabels.ComponentDeployMode false) =
        .ok ingList)
    (hhttp : ∀ ing ∈ ingList, ing.OwnerReferences = none →
      ∀ rule ∈ ing.Rules, rule.HTTP ≠ none)
    (hp : client.IsProjectSupported.1 = false) :
    ListRoutesAndIngresses odolabels (some client) componentName appName =
      .returned ((ingList.filter (fun ing => decide (ing.OwnerReferences = none))).map
        ingressData) [] none := by
  unfold ListRoutesAndIngresses
  simp only [h1, ingressesLoop_of_http ingList [] hhttp, List.nil_append, hp, Bool.not_false,
    if_true]

theorem ListRoutesAndIngresses_openshift (odolabels : LabelsPackage) (client : ClientInterface)
    (componentName appName : String) (ingList : List Ingress)
    (gvr : GroupVersionResource) (routeList : List Unstructured)
    (h1 : client.ListIngresses client.GetCurrentNamespace
      (odolabels.GetSelector componentName appName odolabels.ComponentDeployMode false) =
        .ok ingList)
    (hhttp : ∀ ing ∈ ingList, ing.OwnerReferences = none →
      ∀ rule ∈ ing.Rules, rule.HTTP ≠ none)
    (hp : client.IsProjectSupported.1 = true)
    (hg : client.GetGVRFromGVK RouteGVK = .ok gvr)
    (hd : client.ListDynamicResources client.GetCurrentNamespace gvr
      (odolabels.GetSelector componentName appName odolabels.ComponentDeployMode false) =
        .ok routeList)
    (hconv : ∀ u ∈ routeList, u.ownerReferences = none → ∃ route, u.route = .ok route) :
    ListRoutesAndIngresses odolabels (some client) componentName appName =
      .returned ((ingList.filter (fun ing => decide (ing.OwnerReferences = none))).map
        ingressData)
        ((routeList.filter (fun u => decide (u.ownerReferences = none))).map routeData)
        none := by
  unfold ListRoutesAndIngresses
  simp only [h1, ingressesLoop_of_http ingList [] hhttp, List.nil_append, hp, Bool.not_true,
    Bool.false_eq_true, if_false, hg, hd, routesLoop_of_converted routeList [] hconv]

/-! ## The claims on `ListRoutesAndIngresses` -/

/-- C23: for every ingress list and route list returned by the client, no ingress and no
route that bears an owner reference appears in the output of `ListRoutesAndIngresses`, and
every ingress or route without owner references appears exactly once, under its own name
and in the client's order: the output is the projection of the ingresses, and of the
routes, that bear no owner reference. The lists are as the API server gives them: an owner
reference list is nil or has an entry, the rules of the listed ingresses have their HTTP
section and the listed routes convert. -/
theorem ListRoutesAndIngresses_owner_references (odolabels : LabelsPackage)
    (client : ClientInterface) (componentName appName : String) (ingList : List Ingress)
    (h1 : client.ListIngresses client.GetCurrentNamespace
      (odolabels.GetSelector componentName appName odolabels.ComponentDeployMode false) =
        .ok ingList)
    (hwf : ∀ ing ∈ ingList, ing.OwnerReferences ≠ some [])
    (hhttp : ∀ ing ∈ ingList, ing.OwnerReferences = none →
      ∀ rule ∈ ing.Rules, rule.HTTP ≠ none) :
    (client.IsProjectSupported.1 = false →
      ListRoutesAndIngresses odolabels (some client) componentName appName =
        .returned
          ((ingList.filter (fun ing => !bearsOwnerReference ing.OwnerReferences)).map
            ingressData) [] none) ∧
    (∀ gvr routeList, client.IsProjectSupported.1 = true →
      client.GetGVRFromGVK RouteGVK = .ok gvr →
      client.ListDynamicResources client.GetCurrentNamespace gvr
        (odolabels.GetSelector componentName appName odolabels.ComponentDeployMode false) =
          .ok routeList →
      (∀ u ∈ routeList, u.ownerReferences ≠ some []) →
      (∀ u ∈ routeList, u.ownerReferences = none → ∃ route, u.route = .ok route) →
      ListRoutesAndIngresses odolabels (some client) componentName appName =
        .returned
          ((ingList.filter (fun ing => !bearsOwnerReference ing.OwnerReferences)).map
            ingressData)
          ((routeList.filter (fun u => !bearsOwnerReference u.ownerReferences)).map routeData)
          none) ∧
    (∀ ing : Ingress, (ingressData ing).Name = ing.Name) ∧
    (∀ u : Unstructured, (routeData u).Name = u.name) := by
  refine ⟨?_, ?_, fun _ => rfl, fun _ => rfl⟩
  · intro hp
    rw [← filter_free_eq (fun ing : Ingress => ing.OwnerReferences) ingList hwf]
    exact ListRoutesAndIngresses_kubernetes odolabels client componentName appName ingList h1
      hhttp hp
  · intro gvr routeList hp hg hd hwf2 hconv
    rw [← filter_free_eq (fun ing : Ingress => ing.OwnerReferences) ingList hwf,
      ← filter_free_eq (fun u : Unstructured => u.ownerReferences) routeList hwf2]
    exact ListRoutesAndIngresses_openshift odolabels client componentName appName ingList gvr
      routeList h1 hhttp hp hg hd hconv

/-- Witness of C23: three ingresses, one of them owned, on a cluster without routes; and
one ingress and two routes, one of them owned, on a cluster with routes. -/
theorem ListRoutesAndIngresses_owner_references_witness :
    ListRoutesAndIngresses sampleLabels (some ingressClient) "app1" "app" =
      .returned
        (([ownedIngress, appIngress, defaultBackendIngress].filter
          (fun ing => !bearsOwnerReference ing.OwnerReferences)).map ingressData) [] none ∧
    ListRoutesAndIngresses sampleLabels (some routeClient) "app1" "app" =
      .returned
        (([appIngress].filter (fun ing => !bearsOwnerReference ing.OwnerReferences)).map
          ingressData)
        (([ownedRoute, appRoute].filter
          (fun u => !bearsOwnerReference u.ownerReferences)).map routeData) none :=
  ⟨(ListRoutesAndIngresses_owner_references sampleLabels ingressClient "app1" "app"
      [ownedIngress, appIngress, defaultBackendIngress] rfl (by decide) (by decide)).1 rfl,
    (ListRoutesAndIngresses_owner_references sampleLabels routeClient "app1" "app"
      [appIngress] rfl (by decide) (by decide)).2.1
      { Group := "route.openshift.io", Version := "v1", Resource := "routes" }
      [ownedRoute, appRoute] rfl rfl rfl (by decide)
      (by
        intro u hu hfree
        simp only [List.mem_cons, List.mem_singleton, List.not_mem_nil, or_false] at hu
        rcases hu with rfl | rfl
        · exact absurd hfree (by decide)
        · exact ⟨_, rfl⟩)⟩

/-- C24: for every ingress without owner references that declares zero rules, the
`ConnectionData` produced by `ListRoutesAndIngresses` has exactly one rule, with host "*"
and paths ["/*"]: the rules computed for it are that single rule, and whenever the
function returns without error its `ings` hold the entry of that ingress with that
rule. -/
theorem ListRoutesAndIngresses_no_rule (ing : Ingress) (hrules : ing.Rules = []) :
    ingressRules ing = some [{ Host := "*", Paths := ["/*"] }] ∧
    ∀ (odolabels : LabelsPackage) (client : ClientInterface) (componentName appName : String)
      (ingList : List Ingress) (ings routes : List ConnectionData),
      client.ListIngresses client.GetCurrentNamespace
        (odolabels.GetSelector componentName appName odolabels.ComponentDeployMode false) =
          .ok ingList →
      ListRoutesAndIngresses odolabels (some client) componentName appName =
        .returned ings routes none →
      ing ∈ ingList → ing.OwnerReferences = none →
      ({ Name := ing.Name, Rules := [{ Host := "*", Paths := ["/*"] }] } : ConnectionData) ∈
        ings := by
  have hdata : ingressData ing = { Name := ing.Name, Rules := [{ Host := "*", Paths := ["/*"] }] } := by
    simp [ingressData, hrules, wildcardRule]
  constructor
  · rw [ingressRules_of_http ing (by rw [hrules]; simp), hdata]
  · intro odolabels client componentName appName ingList ings routes h1 h hmem hfree
    have hloop := ListRoutesAndIngresses_returned odolabels client componentName appName
      ingList ings routes h1 h
    rw [ingressesLoop_some ingList [] ings hloop, List.nil_append, ← hdata]
    exact List.mem_map_of_mem _ (List.mem_filter.2 ⟨hmem, by simpa using hfree⟩)

/-- Witness of C24 on the ingress with a default backend and no rule. -/
theorem ListRoutesAndIngresses_no_rule_witness :
    ingressRules defaultBackendIngress = some [{ Host := "*", Paths := ["/*"] }] ∧
    ({ Name := "my-default-app", Rules := [{ Host := "*", Paths := ["/*"] }] } :
      ConnectionData) ∈
      [ingressData appIngress, ingressData defaultBackendIngress] :=
  ⟨(ListRoutesAndIngresses_no_rule defaultBackendIngress rfl).1,
    (ListRoutesAndIngresses_no_rule defaultBackendIngress rfl).2 sampleLabels ingressClient
      "app1" "app" [ownedIngress, appIngress, defaultBackendIngress]
      [ingressData appIngress, ingressData defaultBackendIngress] [] rfl (by decide)
      (by decide) rfl⟩

/-- C29: for every ingress without owner references that declares n >= 1 rules, each with
its HTTP section, `ListRoutesAndIngresses` yields a `ConnectionData` with exactly n rules
in the same order, rule i carrying the host of the ingress's rule i ("*" when that host is
empty) and the paths of its HTTP section in their declared order; hence no
`ConnectionData` returned for an ingress or a route has an empty rule list. -/
theorem ListRoutesAndIngresses_rules (ing : Ingress) (hrules : ing.Rules ≠ [])
    (hhttp : ∀ rule ∈ ing.Rules, rule.HTTP ≠ none) :
    (∃ rules, ingressRules ing = some rules ∧ rules.length = ing.Rules.length ∧
      (∀ i : Nat, rules[i]? = (ing.Rules[i]?).map ruleOf) ∧
      (∀ rule ∈ ing.Rules, ∃ httpPaths, rule.HTTP = some httpPaths ∧
        ruleOf rule = { Host := if rule.Host = "" then "*" else rule.Host,
                        Paths := httpPaths.map (fun path => path.Path) }) ∧
      ∀ (odolabels : LabelsPackage) (client : ClientInterface)
        (componentName appName : String) (ingList : List Ingress)
        (ings routes : List ConnectionData),
        client.ListIngresses client.GetCurrentNamespace
          (odolabels.GetSelector componentName appName odolabels.ComponentDeployMode false) =
            .ok ingList →
        ListRoutesAndIngresses odolabels (some client) componentName appName =
          .returned ings routes none →
        ing ∈ ingList → ing.OwnerReferences = none →
        ({ Name := ing.Name, Rules := rules } : ConnectionData) ∈ ings) ∧
    ∀ (odolabels : LabelsPackage) (client : Option ClientInterface)
      (componentName appName : String) (ings routes : List ConnectionData)
      (err : Option Error),
      ListRoutesAndIngresses odolabels client componentName appName =
        .returned ings routes err →
      ∀ cd ∈ ings ++ routes, cd.Rules ≠ [] := by
  have hdata : ingressData ing = { Name := ing.Name, Rules := ing.Rules.map ruleOf } := by
    simp [ingressData, hrules]
  refine ⟨⟨ing.Rules.map ruleOf, ?_, by simp, fun i => by simp, ?_, ?_⟩, ?_⟩
  · rw [ingressRules_of_http ing hhttp, hdata]
  · intro rule hrule
    cases hh : rule.HTTP with
    | none => exact absurd hh (hhttp rule hrule)
    | some httpPaths => exact ⟨httpPaths, rfl, by simp [ruleOf, hh]⟩
  · intro odolabels client componentName appName ingList ings routes h1 h hmem hfree
    have hloop := ListRoutesAndIngresses_returned odolabels client componentName appName
      ingList ings routes h1 h
    rw [ingressesLoop_some ingList [] ings hloop, List.nil_append, ← hdata]
    exact List.mem_map_of_mem _ (List.mem_filter.2 ⟨hmem, by simpa using hfree⟩)
  · intro odolabels client componentName appName ings routes err h
    exact ListRoutesAndIngresses_rules_ne_nil odolabels client componentName appName ings
      routes err h

/-- Witness of C29 on the ingress with two paths under one host. -/
theorem ListRoutesAndIngresses_rules_witness :
    ∃ rules, ingressRules appIngress = some rules ∧ rules.length = 1 ∧
      ({ Name := "my-nodejs-app", Rules := rules } : ConnectionData) ∈
        [ingressData appIngress, ingressData defaultBackendIngress] := by
  obtain ⟨rules, h1, h2, _, _, h5⟩ :=
    (ListRoutesAndIngresses_rules appIngress (by decide) (by decide)).1
  exact ⟨rules, h1, h2, h5 sampleLabels ingressClient "app1" "app"
    [ownedIngress, appIngress, defaultBackendIngress]
    [ingressData appIngress, ingressData defaultBackendIngress] [] rfl (by decide)
    (by decide) rfl⟩

/-- C30, at the failing input: the client lists an ingress whose only rule names a host
and has no HTTP section; reading `rule.HTTP.Paths` dereferences the nil `rule.HTTP`, and
`ListRoutesAndIngresses` panics without producing a `ConnectionData` for it. -/
theorem ListRoutesAndIngresses_nil_http :
    hostOnlyClient.ListIngresses hostOnlyClient.GetCurrentNamespace
      (sampleLabels.GetSelector "app1" "app" sampleLabels.ComponentDeployMode false) =
        .ok [appIngress, hostOnlyIngress] ∧
    ingressRules hostOnlyIngress = none ∧
    ListRoutesAndIngresses sampleLabels (some hostOnlyClient) "app1" "app" =
      .nilDereference := by
  decide

end Odo
